import Mathlib

/-! # Live block commit (`block/commit.c`)

A shallow embedding of the rate limiter, the copy loop `commit_run` and the
entry point `commit_start` of `block/commit.c`, followed by theorems about
them.

Conventions of the embedding.

* The block layer that `commit.c` calls into (`bdrv_*`, `block_job_*`,
  `qemu_get_clock`) lives outside the file.  It is a parameter: a record
  `BlockLayer W` of functions over an arbitrary world type `W`, each taking
  the world before the call and returning the C return value (and out
  parameters) together with the world after the call.
* Layers (`BlockDriverState *`) are handles of type `Nat`; a pointer that may
  be `NULL` is an `Option Nat`.
* `int64_t` and `uint64_t` values are integers; where the C arithmetic can
  wrap, the reduction is written out with `toInt64` and `toUInt64`.
* The embedding records the calls into the block layer in a trace, oldest
  event first, each with what it returned.  The calls that only read the
  flags, the chain, the clock or the iostatus setting are not recorded.
* The scratch buffer (`qemu_blockalign`, `qemu_vfree`) and the trace points
  (`trace_commit_*`) have no effect on the block layer and are left out; the
  content of the buffer is the value that `bdrv_read` returns.
* The copy loop need not terminate (a persistent soft error is retried for
  ever), so it is run with a fuel counter: one unit per pass through the
  `wait:` label.
-/

namespace Commit

/-! ## Machine integers and constants -/

/-- Value of an integer after conversion to `uint64_t`. -/
def toUInt64 (x : Int) : Int := x % 18446744073709551616

/-- Value of an integer after conversion to `int64_t` (two's complement). -/
def toInt64 (x : Int) : Int :=
  (x + 9223372036854775808) % 18446744073709551616 - 9223372036854775808

/-- Value of an integer after conversion to `int` (32 bit, two's complement). -/
def toInt32 (x : Int) : Int := (x + 2147483648) % 4294967296 - 2147483648

/-- Range of `int64_t`. -/
def isInt64 (x : Int) : Prop := -9223372036854775808 ≤ x ∧ x < 9223372036854775808

/-- Size of the data buffer, in bytes (`COMMIT_BUFFER_SIZE`). -/
def COMMIT_BUFFER_SIZE : Int := 512 * 1024

/-- Length of a rate limiter window in ms (`SLICE_TIME`). -/
def SLICE_TIME : Int := 100

/-- Sector size in bytes, from `block.h`: `1ULL << BDRV_SECTOR_BITS` with
`BDRV_SECTOR_BITS` equal to 9.  The shift `x >> BDRV_SECTOR_BITS` of the source
is written `x / BDRV_SECTOR_SIZE` (division rounding down). -/
def BDRV_SECTOR_SIZE : Int := 512

/-- Open flag "read-write", from `block.h`. -/
def BDRV_O_RDWR : Nat := 2

/-- Error number "no space left on device", from `errno.h` (Linux). -/
def ENOSPC : Int := 28

/-- Error number "invalid argument", from `errno.h` (Linux). -/
def EINVAL : Int := 22

/-- The on-error policy `BlockErrorAction`, from `block.h`. -/
inductive BlockErrorAction
  | BLOCK_ERR_REPORT
  | BLOCK_ERR_IGNORE
  | BLOCK_ERR_STOP_ENOSPC
  | BLOCK_ERR_STOP_ANY
  deriving DecidableEq, Repr

open BlockErrorAction

/-! ## Rate limiter -/

/-- The struct `RateLimit`. -/
structure RateLimit where
  /-- End of the current window, ms (`int64_t`). -/
  next_slice_time : Int
  /-- Units permitted per window (`uint64_t`). -/
  slice_quota : Int
  /-- Units charged to the current window (`uint64_t`). -/
  dispatched : Int
  deriving DecidableEq, Repr

/-- The function `ratelimit_calculate_delay`.  The clock value
`now = qemu_get_clock(rt_clock)` that the C function reads first is passed in.
Returns the delay and the limiter state after the call. -/
def ratelimit_calculate_delay (limit : RateLimit) (n : Int) (now : Int) :
    Int × RateLimit :=
  let limit1 : RateLimit :=
    if limit.next_slice_time < now then
      { limit with
        next_slice_time := toInt64 (toUInt64 now + SLICE_TIME)
        dispatched := 0 }
    else limit
  if limit1.dispatched = 0 ∨ toUInt64 (limit1.dispatched + n) ≤ limit1.slice_quota then
    (0, { limit1 with dispatched := toUInt64 (limit1.dispatched + n) })
  else
    (toInt64 (limit1.next_slice_time - now), { limit1 with dispatched := n })

/-- The function `ratelimit_set_speed`. -/
def ratelimit_set_speed (limit : RateLimit) (speed : Int) : RateLimit :=
  { limit with slice_quota := speed / (1000 / SLICE_TIME) }

/-- The function `commit_set_speed`, on the limiter of the job.  Returns the
C return value and the limiter state after the call. -/
def commit_set_speed (limit : RateLimit) (speed : Int) : Int × RateLimit :=
  if speed < 0 then (-EINVAL, limit)
  else (0, ratelimit_set_speed limit (toUInt64 (toUInt64 speed / BDRV_SECTOR_SIZE)))

/-! ## The block layer -/

/-- Content of one sector. -/
abbrev SectorData := Nat

/-- A data buffer: the content of its sector number `i`, counted from 0. -/
abbrev Buffer := Int → SectorData

/-- The functions of the block layer that `commit.c` calls, over a world `W`. -/
structure BlockLayer (W : Type) where
  /-- Call `bdrv_getlength(bs)`: length in bytes, negative on failure. -/
  bdrv_getlength : Nat → W → Int × W
  /-- Call `bdrv_truncate(bs, offset)`. -/
  bdrv_truncate : Nat → Int → W → Int × W
  /-- Call `bdrv_find_overlay(active, bs)`; `none` is `NULL`. -/
  bdrv_find_overlay : Nat → Nat → W → Option Nat
  /-- Call `bdrv_read(bs, sector_num, buf, nb_sectors)`: the return value and
  the buffer after the call. -/
  bdrv_read : Nat → Int → Int → W → (Int × Buffer) × W
  /-- Call `bdrv_write(bs, sector_num, buf, nb_sectors)`. -/
  bdrv_write : Nat → Int → Buffer → Int → W → Int × W
  /-- Call `bdrv_co_is_allocated_above(top, base, sector_num, nb_sectors, &n)`:
  the return value and the value of `n` after the call. -/
  bdrv_co_is_allocated_above : Nat → Nat → Int → Int → W → (Int × Int) × W
  /-- Call `bdrv_drop_intermediate(active, top, base)`. -/
  bdrv_drop_intermediate : Nat → Nat → Nat → W → Int × W
  /-- Call `bdrv_get_flags(bs)` on a layer; it reads `bs->open_flags`. -/
  bdrv_get_flags : Nat → W → Nat
  /-- Call `bdrv_reopen(bs, flags, NULL)`; the return value is discarded. -/
  bdrv_reopen : Nat → Nat → W → W
  /-- Call `bdrv_reopen_multiple(queue, &local_err)`: `true` when `local_err`
  was set. -/
  bdrv_reopen_multiple : List (Nat × Nat) → W → Bool × W
  /-- Call `bdrv_iostatus_is_enabled(bs)`. -/
  bdrv_iostatus_is_enabled : Nat → W → Bool
  /-- Call `block_job_create(&commit_job_type, bs, speed, cb, opaque)`: `none`
  is `NULL`; otherwise the field `common.speed` and the limiter of the new job
  record. -/
  block_job_create : Nat → Int → W → Option (Int × RateLimit) × W
  /-- Call `block_job_sleep(&s->common, rt_clock, ms)`. -/
  block_job_sleep : Int → W → W
  /-- Call `block_job_is_cancelled(&s->common)`. -/
  block_job_is_cancelled : W → Bool
  /-- Call `block_job_complete(&s->common, ret)`: fires the completion
  callback. -/
  block_job_complete : Int → W → W
  /-- Call `qemu_get_clock(rt_clock)`, in ms. -/
  qemu_get_clock : W → Int

/-- One call into the block layer, as recorded in the trace. -/
inductive Event
  /-- Call `bdrv_getlength(bs)` that returned `ret`. -/
  | getlength (bs : Nat) (ret : Int)
  /-- Call `bdrv_truncate(bs, offset)` that returned `ret`. -/
  | truncate (bs : Nat) (offset : Int) (ret : Int)
  /-- Call `block_job_sleep` with `ms`. -/
  | sleep (ms : Int)
  /-- Call `block_job_is_cancelled` that returned `cancelled`. -/
  | is_cancelled (cancelled : Bool)
  /-- Call `bdrv_co_is_allocated_above` at `sector_num` that returned `ret`
  and set `n`. -/
  | is_allocated_above (sector_num : Int) (ret : Int) (n : Int)
  /-- Call `bdrv_read(bs, sector_num, buf, nb_sectors)` that returned `ret`. -/
  | read (bs : Nat) (sector_num : Int) (nb_sectors : Int) (ret : Int)
  /-- Call `bdrv_write(bs, sector_num, buf, nb_sectors)` that returned `ret`. -/
  | write (bs : Nat) (sector_num : Int) (nb_sectors : Int) (ret : Int)
  /-- Call `bdrv_drop_intermediate(active, top, base)` that returned `ret`. -/
  | drop_intermediate (active top base : Nat) (ret : Int)
  /-- Call `bdrv_reopen(bs, flags, NULL)`. -/
  | reopen (bs : Nat) (flags : Nat)
  /-- Call `bdrv_reopen_multiple` on the queue. -/
  | reopen_multiple (queue : List (Nat × Nat))
  /-- Call `block_job_create` on `bs`; `created` is false when it returned
  `NULL`. -/
  | job_create (bs : Nat) (created : Bool)
  /-- Call `qemu_coroutine_enter` of the coroutine running `commit_run`. -/
  | coroutine_enter
  /-- Call `block_job_complete(&s->common, ret)`. -/
  | complete (ret : Int)
  deriving DecidableEq, Repr

/-! ## The job -/

/-- The fields of `CommitBlockJob` that `commit_run` only reads. -/
structure CommitBlockJob where
  /-- Field `active`. -/
  active : Nat
  /-- Field `top`. -/
  top : Nat
  /-- Field `base`. -/
  base : Nat
  /-- Field `on_error`. -/
  on_error : BlockErrorAction
  /-- Field `base_flags`. -/
  base_flags : Nat
  /-- Field `orig_overlay_flags`. -/
  orig_overlay_flags : Nat
  /-- Field `common.speed`. -/
  speed : Int
  deriving DecidableEq, Repr

/-- The mutable state of a run of `commit_run`: the world, the fields of the
job that the run writes, the locals `n` and `bytes_written`, and the trace. -/
structure RunState (W : Type) where
  /-- The world of the block layer. -/
  w : W
  /-- Field `limit`. -/
  limit : RateLimit
  /-- Field `common.len`. -/
  len : Int
  /-- Field `common.offset`. -/
  offset : Int
  /-- Local `n`. -/
  n : Int
  /-- Local `bytes_written`. -/
  bytes_written : Int
  /-- Calls into the block layer so far, oldest first. -/
  trace : List Event

/-- Record an event. -/
def RunState.log {W : Type} (st : RunState W) (e : Event) : RunState W :=
  { st with trace := st.trace ++ [e] }

/-- The function `commit_populate`: the return value, the world after the
call and the events of the call. -/
def commit_populate {W : Type} (A : BlockLayer W) (bs base : Nat)
    (sector_num nb_sectors : Int) (w : W) : Int × W × List Event :=
  let r := A.bdrv_read bs sector_num nb_sectors w
  let ret := r.1.1
  let buf := r.1.2
  if ret ≠ 0 then
    (ret, r.2, [Event.read bs sector_num nb_sectors ret])
  else
    let r2 := A.bdrv_write base sector_num buf nb_sectors r.2
    let ret2 := r2.1
    if ret2 ≠ 0 then
      (ret2, r2.2, [Event.read bs sector_num nb_sectors ret,
                    Event.write base sector_num nb_sectors ret2])
    else
      (0, r2.2, [Event.read bs sector_num nb_sectors ret,
                 Event.write base sector_num nb_sectors ret2])

/-- Where control goes at the end of one pass through the loop body of
`commit_run`, entered at the label `wait:`. -/
inductive BodyResult (W : Type)
  /-- The `goto wait` of line 149, with the new `delay_ms`. -/
  | goto_wait (delay_ms : Int) (st : RunState W)
  /-- The `break` of line 137. -/
  | cancelled (st : RunState W)
  /-- The `goto exit_free_buf` of line 159, with `ret`. -/
  | exit_free_buf (ret : Int) (st : RunState W)
  /-- The end of the body, by the `continue` of line 162 or past line 166:
  next comes `sector_num += n` and the loop test. -/
  | next (st : RunState W)

/-- The policy test of lines 156 to 158. -/
def stop_on_error (on_error : BlockErrorAction) (ret : Int) : Bool :=
  on_error = BLOCK_ERR_STOP_ANY ∨ on_error = BLOCK_ERR_REPORT ∨
    (on_error = BLOCK_ERR_STOP_ENOSPC ∧ ret = -ENOSPC)

/-- One pass through the loop body of `commit_run`, lines 131 to 166, from
the label `wait:` on. -/
def commit_body {W : Type} (A : BlockLayer W) (s : CommitBlockJob)
    (sector_num : Int) (delay_ms : Int) (st : RunState W) : BodyResult W :=
  let st1 : RunState W :=
    { st with w := A.block_job_sleep (toInt64 delay_ms) st.w }.log (Event.sleep (toInt64 delay_ms))
  let st1 : RunState W := st1.log (Event.is_cancelled (A.block_job_is_cancelled st1.w))
  if A.block_job_is_cancelled st1.w then
    BodyResult.cancelled st1
  else
    let q := A.bdrv_co_is_allocated_above s.top s.base sector_num
      (COMMIT_BUFFER_SIZE / BDRV_SECTOR_SIZE) st1.w
    let ret := q.1.1
    let n := q.1.2
    let st2 : RunState W :=
      { st1 with w := q.2, n := n }.log (Event.is_allocated_above sector_num ret n)
    let copy : Bool := ret = 1
    let limited : Bool := copy ∧ s.speed ≠ 0
    let d := ratelimit_calculate_delay st2.limit (toUInt64 n) (A.qemu_get_clock st2.w)
    if limited ∧ toUInt64 d.1 > 0 then
      BodyResult.goto_wait (toUInt64 d.1) { st2 with limit := d.2 }
    else
      let st3 : RunState W := if limited then { st2 with limit := d.2 } else st2
      let p := commit_populate A s.top s.base sector_num n st3.w
      let st4 : RunState W :=
        if copy then
          { st3 with
            w := p.2.1
            bytes_written := toInt32 (toUInt64 st3.bytes_written + toUInt64 n * BDRV_SECTOR_SIZE)
            trace := st3.trace ++ p.2.2 }
        else st3
      let ret4 : Int := if copy then p.1 else ret
      if ret4 < 0 then
        if stop_on_error s.on_error ret4 then
          BodyResult.exit_free_buf ret4 st4
        else
          BodyResult.next { st4 with n := 0 }
      else
        BodyResult.next
          { st4 with offset := toInt64 (toUInt64 st4.offset + toUInt64 st4.n * BDRV_SECTOR_SIZE) }

/-- How the loop of `commit_run` was left. -/
inductive LoopExit
  /-- By the `break` of line 137. -/
  | cancelled
  /-- By the loop test `sector_num < end` being false. -/
  | finished
  /-- By the `goto exit_free_buf` of line 159, with `ret`. -/
  | error (ret : Int)
  deriving DecidableEq, Repr

/-- The loop of `commit_run` from the label `wait:` on, with one unit of fuel
per pass through the body.  Returns how the loop was left, the final
`sector_num` and the final state; `none` when the fuel runs out. -/
def commit_loop {W : Type} (A : BlockLayer W) (s : CommitBlockJob) (end_ : Int) :
    Nat → Int → Int → RunState W → Option (LoopExit × Int × RunState W)
  | 0, _, _, _ => none
  | fuel + 1, sector_num, delay_ms, st =>
    match commit_body A s sector_num delay_ms st with
    | BodyResult.goto_wait d st1 => commit_loop A s end_ fuel sector_num d st1
    | BodyResult.cancelled st1 => some (LoopExit.cancelled, sector_num, st1)
    | BodyResult.exit_free_buf ret st1 => some (LoopExit.error ret, sector_num, st1)
    | BodyResult.next st1 =>
      if sector_num + st1.n < end_ then
        commit_loop A s end_ fuel (sector_num + st1.n) 0 st1
      else
        some (LoopExit.finished, sector_num + st1.n, st1)

/-- How a run of `commit_run` ended. -/
inductive Terminal
  /-- The call `block_job_complete(&s->common, ret)` was reached. -/
  | completed (ret : Int)
  /-- The call `bdrv_get_flags(overlay_bs)` of line 186 was reached with
  `overlay_bs == NULL`: `bdrv_get_flags` reads `bs->open_flags`, so the run
  ends there and `block_job_complete` is not reached. -/
  | null_overlay
  deriving DecidableEq, Repr

/-- The result of a run of `commit_run`. -/
structure RunResult (W : Type) where
  /-- How the run ended. -/
  terminal : Terminal
  /-- The state at the end. -/
  st : RunState W

/-- One of the two statements of lines 183 to 188:
`if (flags != bdrv_get_flags(bs)) bdrv_reopen(bs, flags, NULL);`. -/
def restore_flags {W : Type} (A : BlockLayer W) (bs : Nat) (flags : Nat)
    (st : RunState W) : RunState W :=
  if flags ≠ A.bdrv_get_flags bs st.w then
    { st with w := A.bdrv_reopen bs flags st.w }.log (Event.reopen bs flags)
  else st

/-- The teardown of `commit_run`: lines 179 to 190, from the label
`exit_restore_reopen` on. -/
def exit_restore_reopen {W : Type} (A : BlockLayer W) (s : CommitBlockJob)
    (overlay_bs : Option Nat) (ret : Int) (st : RunState W) : RunResult W :=
  let st1 : RunState W := restore_flags A s.base s.base_flags st
  match overlay_bs with
  | none => { terminal := Terminal.null_overlay, st := st1 }
  | some ov =>
    let st2 : RunState W := restore_flags A ov s.orig_overlay_flags st1
    { terminal := Terminal.completed ret
      st := { st2 with w := A.block_job_complete ret st2.w }.log (Event.complete ret) }

/-- The end of `commit_run` after the loop: lines 169 to 190 when the loop
was left by `break` or by its test, lines 176 to 190 when it was left by
`goto exit_free_buf`. -/
def commit_finish {W : Type} (A : BlockLayer W) (s : CommitBlockJob)
    (overlay_bs : Option Nat) (end_ : Int) (ex : LoopExit) (sector_num : Int)
    (st : RunState W) : RunResult W :=
  match ex with
  | LoopExit.error ret => exit_restore_reopen A s overlay_bs ret st
  | _ =>
    let st1 : RunState W := st.log (Event.is_cancelled (A.block_job_is_cancelled st.w))
    if ¬ A.block_job_is_cancelled st1.w ∧ sector_num = end_ then
      let r := A.bdrv_drop_intermediate s.active s.top s.base st1.w
      exit_restore_reopen A s overlay_bs r.1
        ({ st1 with w := r.2 }.log (Event.drop_intermediate s.active s.top s.base r.1))
    else
      exit_restore_reopen A s overlay_bs 0 st1

/-- Where `commit_run` stands when it leaves lines 103 to 167. -/
inductive CopyResult (W : Type)
  /-- One of the `goto exit_restore_reopen` of lines 107, 112 and 118 was
  taken, with `ret`; `overlay_bs` is still `NULL`. -/
  | early (ret : Int) (st : RunState W)
  /-- The loop was entered and left: the values of `overlay_bs` and `end`,
  how the loop was left, and the final `sector_num` and state. -/
  | loop_left (overlay_bs : Option Nat) (end_ : Int) (ex : LoopExit) (sector_num : Int)
      (st : RunState W)

/-- Lines 122 to 167 of `commit_run`: the lookup of the overlay, the loop
bound and the copy loop, run with `fuel` passes through the loop body at most.
`none` when the fuel runs out inside the loop. -/
def commit_walk {W : Type} (A : BlockLayer W) (s : CommitBlockJob) (fuel : Nat)
    (st : RunState W) : Option (CopyResult W) :=
  let overlay_bs := A.bdrv_find_overlay s.active s.top st.w
  let end_ := st.len / BDRV_SECTOR_SIZE
  if 0 < end_ then
    match commit_loop A s end_ fuel 0 0 st with
    | none => none
    | some (ex, sector_num, st1) =>
      some (CopyResult.loop_left overlay_bs end_ ex sector_num st1)
  else
    some (CopyResult.loop_left overlay_bs end_ LoopExit.finished 0 st)

/-- Lines 103 to 167 of `commit_run`: the length queries, the extension of
Base, then the walk over Top. -/
def commit_copy {W : Type} (A : BlockLayer W) (s : CommitBlockJob) (fuel : Nat)
    (st : RunState W) : Option (CopyResult W) :=
  let l := A.bdrv_getlength s.top st.w
  let st1 : RunState W :=
    { st with w := l.2, len := l.1, n := 0, bytes_written := 0 }.log (Event.getlength s.top l.1)
  if st1.len < 0 then
    some (CopyResult.early (toInt32 l.1) st1)
  else
    let b := A.bdrv_getlength s.base st1.w
    let base_len := b.1
    let st2 : RunState W := { st1 with w := b.2 }.log (Event.getlength s.base b.1)
    if base_len < 0 then
      some (CopyResult.early (toInt32 base_len) st2)
    else if base_len < st2.len then
      let t := A.bdrv_truncate s.base st2.len st2.w
      let st3 : RunState W := { st2 with w := t.2 }.log (Event.truncate s.base st2.len t.1)
      if t.1 ≠ 0 then
        some (CopyResult.early t.1 st3)
      else
        commit_walk A s fuel st3
    else
      commit_walk A s fuel st2

/-- The function `commit_run`, run with `fuel` passes through the loop body
at most: lines 103 to 167, then the end of the function.  `none` when the
fuel runs out inside the loop. -/
def commit_run {W : Type} (A : BlockLayer W) (s : CommitBlockJob) (fuel : Nat)
    (st : RunState W) : Option (RunResult W) :=
  match commit_copy A s fuel st with
  | none => none
  | some (CopyResult.early ret st1) => some (exit_restore_reopen A s none ret st1)
  | some (CopyResult.loop_left overlay_bs end_ ex sector_num st1) =>
    some (commit_finish A s overlay_bs end_ ex sector_num st1)

/-! ## Starting the job -/

/-- The errors that `commit_start` sets in `errp`. -/
inductive QError
  /-- Error `QERR_INVALID_PARAMETER_COMBINATION`. -/
  | INVALID_PARAMETER_COMBINATION
  /-- Error `QERR_TOP_IS_ACTIVE`. -/
  | TOP_IS_ACTIVE
  /-- Error `QERR_TOP_AND_BASE_IDENTICAL`. -/
  | TOP_AND_BASE_IDENTICAL
  /-- Error `QERR_TOP_NOT_FOUND`. -/
  | TOP_NOT_FOUND
  /-- Error `QERR_DEVICE_IN_USE`. -/
  | DEVICE_IN_USE
  /-- The error of `bdrv_reopen_multiple`, propagated. -/
  | REOPEN_FAILED
  deriving DecidableEq, Repr

/-- The result of a call of `commit_start`. -/
inductive StartResult (W : Type)
  /-- An error was set in `errp`; the world and the trace at the return. -/
  | failed (err : QError) (w : W) (trace : List Event)
  /-- The coroutine was entered; the job record and the result of
  `commit_run` on it (`none` when the fuel ran out). -/
  | started (s : CommitBlockJob) (run : Option (RunResult W))

/-- Lines 250 to 265 of `commit_start`: the reopen of Base and of the overlay
as read-write, where needed.  Returns whether `local_err` was set, the world
after the call of `bdrv_reopen_multiple` (if any) and the events. -/
def commit_start_reopen {W : Type} (A : BlockLayer W) (base overlay_bs : Nat)
    (orig_base_flags orig_overlay_flags : Nat) (w : W) : Bool × W × List Event :=
  let q1 : List (Nat × Nat) :=
    if orig_base_flags &&& BDRV_O_RDWR = 0 then [(base, orig_base_flags ||| BDRV_O_RDWR)]
    else []
  let reopen_queue : List (Nat × Nat) :=
    if orig_overlay_flags &&& BDRV_O_RDWR = 0 then
      q1 ++ [(overlay_bs, orig_overlay_flags ||| BDRV_O_RDWR)]
    else q1
  if reopen_queue ≠ [] then
    let m := A.bdrv_reopen_multiple reopen_queue w
    (m.1, m.2, [Event.reopen_multiple reopen_queue])
  else
    (false, w, [])

/-- The function `commit_start`.  The coroutine it enters is run to its end
(with `fuel` passes through the loop body at most). -/
def commit_start {W : Type} (A : BlockLayer W) (bs base top : Nat) (speed : Int)
    (on_error : BlockErrorAction) (fuel : Nat) (w : W) : StartResult W :=
  if (on_error = BLOCK_ERR_STOP_ANY ∨ on_error = BLOCK_ERR_STOP_ENOSPC) ∧
      ¬ A.bdrv_iostatus_is_enabled bs w then
    StartResult.failed QError.INVALID_PARAMETER_COMBINATION w []
  else if top = bs then
    StartResult.failed QError.TOP_IS_ACTIVE w []
  else if top = base then
    StartResult.failed QError.TOP_AND_BASE_IDENTICAL w []
  else
    match A.bdrv_find_overlay bs top w with
    | none => StartResult.failed QError.TOP_NOT_FOUND w []
    | some overlay_bs =>
      let orig_base_flags := A.bdrv_get_flags base w
      let orig_overlay_flags := A.bdrv_get_flags overlay_bs w
      let r := commit_start_reopen A base overlay_bs orig_base_flags orig_overlay_flags w
      if r.1 then
        StartResult.failed QError.REOPEN_FAILED r.2.1 r.2.2
      else
        let j := A.block_job_create bs speed r.2.1
        match j.1 with
        | none =>
          StartResult.failed QError.DEVICE_IN_USE j.2 (r.2.2 ++ [Event.job_create bs false])
        | some (job_speed, limit) =>
          let s : CommitBlockJob :=
            { active := bs, top := top, base := base, on_error := on_error
              base_flags := orig_base_flags, orig_overlay_flags := orig_overlay_flags
              speed := job_speed }
          let st : RunState W :=
            { w := j.2, limit := limit, len := 0, offset := 0, n := 0, bytes_written := 0
              trace := r.2.2 ++ [Event.job_create bs true, Event.coroutine_enter] }
          StartResult.started s (commit_run A s fuel st)

/-! ## The paths through the loop body -/

/-- What a pass through the loop body changed: the state `st1` after the pass
has world `w`, the events `evs` added to the trace of `st`, and the given
values of `n`, `common.offset` and `limit`. -/
structure Pass {W : Type} (st st1 : RunState W) (w : W) (evs : List Event)
    (n offset : Int) (limit : RateLimit) : Prop where
  w_eq : st1.w = w
  trace_eq : st1.trace = st.trace ++ evs
  n_eq : st1.n = n
  offset_eq : st1.offset = offset
  limit_eq : st1.limit = limit
  len_eq : st1.len = st.len

/-- The world after the sleep of a pass. -/
def bodySleep {W : Type} (A : BlockLayer W) (delay_ms : Int) (st : RunState W) : W :=
  A.block_job_sleep (toInt64 delay_ms) st.w

/-- The allocation query of a pass. -/
def bodyQuery {W : Type} (A : BlockLayer W) (s : CommitBlockJob) (sector_num delay_ms : Int)
    (st : RunState W) : (Int × Int) × W :=
  A.bdrv_co_is_allocated_above s.top s.base sector_num
    (COMMIT_BUFFER_SIZE / BDRV_SECTOR_SIZE) (bodySleep A delay_ms st)

/-- The rate limiter call of a pass. -/
def bodyDelay {W : Type} (A : BlockLayer W) (s : CommitBlockJob) (sector_num delay_ms : Int)
    (st : RunState W) : Int × RateLimit :=
  ratelimit_calculate_delay st.limit (toUInt64 (bodyQuery A s sector_num delay_ms st).1.2)
    (A.qemu_get_clock (bodyQuery A s sector_num delay_ms st).2)

/-- The limiter state after a pass that went past the limiter. -/
def bodyLimit {W : Type} (A : BlockLayer W) (s : CommitBlockJob) (sector_num delay_ms : Int)
    (st : RunState W) : RateLimit :=
  if s.speed ≠ 0 then (bodyDelay A s sector_num delay_ms st).2 else st.limit

/-- The `commit_populate` call of a pass. -/
def bodyPopulate {W : Type} (A : BlockLayer W) (s : CommitBlockJob) (sector_num delay_ms : Int)
    (st : RunState W) : Int × W × List Event :=
  commit_populate A s.top s.base sector_num (bodyQuery A s sector_num delay_ms st).1.2
    (bodyQuery A s sector_num delay_ms st).2

/-- The events of a pass up to and with the allocation query. -/
def bodyHead {W : Type} (A : BlockLayer W) (s : CommitBlockJob) (sector_num delay_ms : Int)
    (st : RunState W) : List Event :=
  [Event.sleep (toInt64 delay_ms), Event.is_cancelled false,
   Event.is_allocated_above sector_num (bodyQuery A s sector_num delay_ms st).1.1
     (bodyQuery A s sector_num delay_ms st).1.2]

/-- The paths through the loop body, each with what it did. -/
inductive BodySpec {W : Type} (A : BlockLayer W) (s : CommitBlockJob)
    (sector_num delay_ms : Int) (st : RunState W) : BodyResult W → Prop
  /-- The job is cancelled: `break`. -/
  | cancelled (st1 : RunState W)
      (hc : A.block_job_is_cancelled (bodySleep A delay_ms st) = true)
      (hp : Pass st st1 (bodySleep A delay_ms st)
        [Event.sleep (toInt64 delay_ms), Event.is_cancelled true] st.n st.offset st.limit) :
      BodySpec A s sector_num delay_ms st (BodyResult.cancelled st1)
  /-- The limiter asks for a delay: `goto wait`. -/
  | wait (st1 : RunState W)
      (hc : A.block_job_is_cancelled (bodySleep A delay_ms st) = false)
      (hq : (bodyQuery A s sector_num delay_ms st).1.1 = 1)
      (hs : s.speed ≠ 0)
      (hd : 0 < toUInt64 (bodyDelay A s sector_num delay_ms st).1)
      (hp : Pass st st1 (bodyQuery A s sector_num delay_ms st).2
        (bodyHead A s sector_num delay_ms st) (bodyQuery A s sector_num delay_ms st).1.2
        st.offset (bodyDelay A s sector_num delay_ms st).2) :
      BodySpec A s sector_num delay_ms st
        (BodyResult.goto_wait (toUInt64 (bodyDelay A s sector_num delay_ms st).1) st1)
  /-- The query failed and the policy stops: `goto exit_free_buf`. -/
  | query_stop (st1 : RunState W)
      (hc : A.block_job_is_cancelled (bodySleep A delay_ms st) = false)
      (hq : (bodyQuery A s sector_num delay_ms st).1.1 < 0)
      (hs : stop_on_error s.on_error (bodyQuery A s sector_num delay_ms st).1.1 = true)
      (hp : Pass st st1 (bodyQuery A s sector_num delay_ms st).2
        (bodyHead A s sector_num delay_ms st) (bodyQuery A s sector_num delay_ms st).1.2
        st.offset st.limit) :
      BodySpec A s sector_num delay_ms st
        (BodyResult.exit_free_buf (bodyQuery A s sector_num delay_ms st).1.1 st1)
  /-- The query failed and the policy does not stop: `n = 0; continue`. -/
  | query_retry (st1 : RunState W)
      (hc : A.block_job_is_cancelled (bodySleep A delay_ms st) = false)
      (hq : (bodyQuery A s sector_num delay_ms st).1.1 < 0)
      (hs : stop_on_error s.on_error (bodyQuery A s sector_num delay_ms st).1.1 = false)
      (hp : Pass st st1 (bodyQuery A s sector_num delay_ms st).2
        (bodyHead A s sector_num delay_ms st) 0 st.offset st.limit) :
      BodySpec A s sector_num delay_ms st (BodyResult.next st1)
  /-- The query returned neither 1 nor an error: nothing is copied. -/
  | skip (st1 : RunState W)
      (hc : A.block_job_is_cancelled (bodySleep A delay_ms st) = false)
      (hq : (bodyQuery A s sector_num delay_ms st).1.1 ≠ 1)
      (hq0 : 0 ≤ (bodyQuery A s sector_num delay_ms st).1.1)
      (hp : Pass st st1 (bodyQuery A s sector_num delay_ms st).2
        (bodyHead A s sector_num delay_ms st) (bodyQuery A s sector_num delay_ms st).1.2
        (toInt64 (toUInt64 st.offset +
          toUInt64 (bodyQuery A s sector_num delay_ms st).1.2 * BDRV_SECTOR_SIZE))
        st.limit) :
      BodySpec A s sector_num delay_ms st (BodyResult.next st1)
  /-- The copy failed and the policy stops: `goto exit_free_buf`. -/
  | copy_stop (st1 : RunState W)
      (hc : A.block_job_is_cancelled (bodySleep A delay_ms st) = false)
      (hq : (bodyQuery A s sector_num delay_ms st).1.1 = 1)
      (hd : s.speed = 0 ∨ toUInt64 (bodyDelay A s sector_num delay_ms st).1 = 0)
      (hr : (bodyPopulate A s sector_num delay_ms st).1 < 0)
      (hs : stop_on_error s.on_error (bodyPopulate A s sector_num delay_ms st).1 = true)
      (hp : Pass st st1 (bodyPopulate A s sector_num delay_ms st).2.1
        (bodyHead A s sector_num delay_ms st ++ (bodyPopulate A s sector_num delay_ms st).2.2)
        (bodyQuery A s sector_num delay_ms st).1.2 st.offset
        (bodyLimit A s sector_num delay_ms st)) :
      BodySpec A s sector_num delay_ms st
        (BodyResult.exit_free_buf (bodyPopulate A s sector_num delay_ms st).1 st1)
  /-- The copy failed and the policy does not stop: `n = 0; continue`. -/
  | copy_retry (st1 : RunState W)
      (hc : A.block_job_is_cancelled (bodySleep A delay_ms st) = false)
      (hq : (bodyQuery A s sector_num delay_ms st).1.1 = 1)
      (hd : s.speed = 0 ∨ toUInt64 (bodyDelay A s sector_num delay_ms st).1 = 0)
      (hr : (bodyPopulate A s sector_num delay_ms st).1 < 0)
      (hs : stop_on_error s.on_error (bodyPopulate A s sector_num delay_ms st).1 = false)
      (hp : Pass st st1 (bodyPopulate A s sector_num delay_ms st).2.1
        (bodyHead A s sector_num delay_ms st ++ (bodyPopulate A s sector_num delay_ms st).2.2)
        0 st.offset (bodyLimit A s sector_num delay_ms st)) :
      BodySpec A s sector_num delay_ms st (BodyResult.next st1)
  /-- The copy did not return an error: progress is published. -/
  | copy_done (st1 : RunState W)
      (hc : A.block_job_is_cancelled (bodySleep A delay_ms st) = false)
      (hq : (bodyQuery A s sector_num delay_ms st).1.1 = 1)
      (hd : s.speed = 0 ∨ toUInt64 (bodyDelay A s sector_num delay_ms st).1 = 0)
      (hr : 0 ≤ (bodyPopulate A s sector_num delay_ms st).1)
      (hp : Pass st st1 (bodyPopulate A s sector_num delay_ms st).2.1
        (bodyHead A s sector_num delay_ms st ++ (bodyPopulate A s sector_num delay_ms st).2.2)
        (bodyQuery A s sector_num delay_ms st).1.2
        (toInt64 (toUInt64 st.offset +
          toUInt64 (bodyQuery A s sector_num delay_ms st).1.2 * BDRV_SECTOR_SIZE))
        (bodyLimit A s sector_num delay_ms st)) :
      BodySpec A s sector_num delay_ms st (BodyResult.next st1)

/-! ## Classes of events -/

/-- Events of the teardown: a reopen or the completion callback. -/
def Event.isTeardown : Event → Bool
  | Event.reopen _ _ => true
  | Event.complete _ => true
  | _ => false

/-- Calls of `bdrv_drop_intermediate`. -/
def Event.isDrop : Event → Bool
  | Event.drop_intermediate _ _ _ _ => true
  | _ => false

/-- Allocation queries, reads and writes. -/
def Event.isIO : Event → Bool
  | Event.is_allocated_above _ _ _ => true
  | Event.read _ _ _ _ => true
  | Event.write _ _ _ _ => true
  | _ => false

/-- The error code of an allocation query, read or write that failed with a
code on which the policy `on_error` stops the job; `none` for every other
event. -/
def Event.stopCode (on_error : BlockErrorAction) : Event → Option Int
  | Event.is_allocated_above _ ret _ =>
    if ret < 0 ∧ stop_on_error on_error ret = true then some ret else none
  | Event.read _ _ _ ret =>
    if ret < 0 ∧ stop_on_error on_error ret = true then some ret else none
  | Event.write _ _ _ ret =>
    if ret < 0 ∧ stop_on_error on_error ret = true then some ret else none
  | _ => none

/-- Events after which the copy loop goes on: the length queries and the
truncation before the loop, a sleep, a cancellation check that saw no cancel,
and an allocation query, read or write that did not fail with a code on which
the policy stops. -/
def Event.quiet (on_error : BlockErrorAction) : Event → Bool
  | Event.getlength _ _ => true
  | Event.truncate _ _ _ => true
  | Event.sleep _ => true
  | Event.is_cancelled c => !c
  | Event.is_allocated_above _ ret _ => !(decide (ret < 0) && stop_on_error on_error ret)
  | Event.read _ _ _ ret => !(decide (ret < 0) && stop_on_error on_error ret)
  | Event.write _ _ _ ret => !(decide (ret < 0) && stop_on_error on_error ret)
  | _ => false

/-- The events of the teardown of a run that ends with `terminal`, when
`overlay_bs` is `ov` and the status is `ret`: reopens only, followed by the
completion callback with `ret` unless `ov` is `NULL`. -/
def Teardown (ov : Option Nat) (ret : Int) (terminal : Terminal) (td : List Event) : Prop :=
  match ov with
  | none => terminal = Terminal.null_overlay ∧ ∀ e ∈ td, ∃ bs f, e = Event.reopen bs f
  | some _ =>
    terminal = Terminal.completed ret ∧
      ∃ td0, td = td0 ++ [Event.complete ret] ∧ ∀ e ∈ td0, ∃ bs f, e = Event.reopen bs f

/-- The state that a pass through the loop body ends with. -/
def BodyResult.state {W : Type} : BodyResult W → RunState W
  | BodyResult.goto_wait _ st => st
  | BodyResult.cancelled st => st
  | BodyResult.exit_free_buf _ st => st
  | BodyResult.next st => st

/-- The last events of the copy loop, by the way the loop was left: nothing
special when the loop test failed, the cancellation check that saw the cancel,
or the allocation query, read or write whose error stopped the job. -/
def LoopTail {W : Type} (A : BlockLayer W) (s : CommitBlockJob) (ex : LoopExit)
    (st1 : RunState W) (t : List Event) : Prop :=
  match ex with
  | LoopExit.finished => t = []
  | LoopExit.cancelled => t = [Event.is_cancelled true] ∧ A.block_job_is_cancelled st1.w = true
  | LoopExit.error ret =>
    ∃ ev, t = [ev] ∧ ev.stopCode s.on_error = some ret ∧ ev.isIO = true ∧ ret < 0

/-- The last events of a run of `commit_run` that ends with `terminal`, from
the first event on that is not `quiet`, by the way the run went. -/
inductive RunTail {W : Type} (A : BlockLayer W) (s : CommitBlockJob) (terminal : Terminal) :
    List Event → Prop
  /-- A length query or the truncation failed. -/
  | early (ret : Int) (td : List Event) (htd : Teardown none ret terminal td) :
      RunTail A s terminal td
  /-- An allocation query, read or write failed with a code on which the
  policy stops. -/
  | stopped (w : W) (ev : Event) (ret : Int) (td : List Event)
      (hev : ev.stopCode s.on_error = some ret) (hio : ev.isIO = true) (hneg : ret < 0)
      (htd : Teardown (A.bdrv_find_overlay s.active s.top w) ret terminal td) :
      RunTail A s terminal (ev :: td)
  /-- The check after the sleep saw the cancel. -/
  | cancelled (w : W) (td : List Event)
      (htd : Teardown (A.bdrv_find_overlay s.active s.top w) 0 terminal td) :
      RunTail A s terminal (Event.is_cancelled true :: Event.is_cancelled true :: td)
  /-- The loop test failed and the check of line 171 saw the cancel. -/
  | cancelled_late (w : W) (td : List Event)
      (htd : Teardown (A.bdrv_find_overlay s.active s.top w) 0 terminal td) :
      RunTail A s terminal (Event.is_cancelled true :: td)
  /-- The loop test failed with `sector_num != end`, no cancel. -/
  | overshoot (w : W) (td : List Event)
      (htd : Teardown (A.bdrv_find_overlay s.active s.top w) 0 terminal td) :
      RunTail A s terminal (Event.is_cancelled false :: td)
  /-- The loop test failed with `sector_num == end`, no cancel:
  `bdrv_drop_intermediate` is called and returns `ret`. -/
  | dropped (w : W) (ret : Int) (td : List Event)
      (htd : Teardown (A.bdrv_find_overlay s.active s.top w) ret terminal td) :
      RunTail A s terminal
        (Event.is_cancelled false :: Event.drop_intermediate s.active s.top s.base ret :: td)

/-! ## Assumptions on the block layer -/

/-- The sectors that the trace `l` reports as allocated above Base: those of
the runs `[sector_num, sector_num + n)` of its allocation queries that
returned 1. -/
def Reported (l : List Event) (x : Int) : Prop :=
  ∃ sec nb, Event.is_allocated_above sec 1 nb ∈ l ∧ sec ≤ x ∧ x < sec + nb

/-- Every write of the trace `l` goes to Base and comes right after an
allocation query of the same run that returned 1 and the read of that run
from Top. -/
def WritesJustified (s : CommitBlockJob) (l : List Event) : Prop :=
  ∀ pre post bs sec nb r, l = pre ++ Event.write bs sec nb r :: post →
    bs = s.base ∧
    ∃ pre0, pre = pre0 ++ [Event.is_allocated_above sec 1 nb, Event.read s.top sec nb 0]

/-- The block layer changes the content of Base, observed by sector through
`base_sector`, only by a write to Base and only inside the range of that
write.  (Extending Base by `bdrv_truncate` leaves the content of the sectors
as `base_sector` observes it.) -/
structure BaseFrame {W : Type} (A : BlockLayer W) (s : CommitBlockJob)
    (base_sector : W → Int → SectorData) : Prop where
  getlength : ∀ bs w x, base_sector (A.bdrv_getlength bs w).2 x = base_sector w x
  truncate : ∀ len w x, base_sector (A.bdrv_truncate s.base len w).2 x = base_sector w x
  sleep : ∀ ms w x, base_sector (A.block_job_sleep ms w) x = base_sector w x
  query : ∀ sec nb w x,
    base_sector (A.bdrv_co_is_allocated_above s.top s.base sec nb w).2 x = base_sector w x
  read : ∀ sec nb w x, base_sector (A.bdrv_read s.top sec nb w).2 x = base_sector w x
  write : ∀ sec buf nb w x, (x < sec ∨ sec + nb ≤ x) →
    base_sector (A.bdrv_write s.base sec buf nb w).2 x = base_sector w x
  drop : ∀ w x,
    base_sector (A.bdrv_drop_intermediate s.active s.top s.base w).2 x = base_sector w x
  reopen : ∀ bs f w x, base_sector (A.bdrv_reopen bs f w) x = base_sector w x
  complete : ∀ ret w x, base_sector (A.block_job_complete ret w) x = base_sector w x

/-- A consistent block layer for a commit of a Top of `end_` sectors: the
allocation of Top above Base is the fixed map `alloc` and the content of Top
is the fixed map `top0` (no concurrent writer), and
* an allocation query on a sector of Top that does not fail returns a run of
  `n` sectors with `1 <= n <= end_ - sector_num` that are all allocated
  (return value 1) or all not allocated (any other value);
* reads and writes return 0 or a negative error code;
* a read of Top that returns 0 fills the buffer with the content of Top;
* a write to Base that returns 0 stores the buffer in the sectors of its
  range, and no call changes Base outside the range of a write (`BaseFrame`). -/
structure Consistent {W : Type} (A : BlockLayer W) (s : CommitBlockJob) (end_ : Int)
    (alloc : Int → Bool) (top0 : Int → SectorData) (base_sector : W → Int → SectorData) :
    Prop where
  frame : BaseFrame A s base_sector
  query_run : ∀ sec w, 0 ≤ sec → sec < end_ →
    0 ≤ (A.bdrv_co_is_allocated_above s.top s.base sec
      (COMMIT_BUFFER_SIZE / BDRV_SECTOR_SIZE) w).1.1 →
    1 ≤ (A.bdrv_co_is_allocated_above s.top s.base sec
      (COMMIT_BUFFER_SIZE / BDRV_SECTOR_SIZE) w).1.2 ∧
    (A.bdrv_co_is_allocated_above s.top s.base sec
      (COMMIT_BUFFER_SIZE / BDRV_SECTOR_SIZE) w).1.2 ≤ end_ - sec ∧
    ∀ x, sec ≤ x → x < sec + (A.bdrv_co_is_allocated_above s.top s.base sec
      (COMMIT_BUFFER_SIZE / BDRV_SECTOR_SIZE) w).1.2 →
      (alloc x = true ↔ (A.bdrv_co_is_allocated_above s.top s.base sec
        (COMMIT_BUFFER_SIZE / BDRV_SECTOR_SIZE) w).1.1 = 1)
  read_ret : ∀ sec nb w, (A.bdrv_read s.top sec nb w).1.1 ≤ 0
  write_ret : ∀ sec buf nb w, (A.bdrv_write s.base sec buf nb w).1 ≤ 0
  read_top : ∀ sec nb w i, (A.bdrv_read s.top sec nb w).1.1 = 0 → 0 ≤ i → i < nb →
    (A.bdrv_read s.top sec nb w).1.2 i = top0 (sec + i)
  write_base : ∀ sec buf nb w x, (A.bdrv_write s.base sec buf nb w).1 = 0 →
    sec ≤ x → x < sec + nb → base_sector (A.bdrv_write s.base sec buf nb w).2 x = buf (x - sec)

/-- A block layer whose faults are transient: `faults w` bounds the count of
calls that can still fail in the world `w`.
* An allocation query, read or write that fails uses up a fault; no call of
  the loop adds one.
* The codes that these calls return are codes on which the policy `on_error`
  of the job does not stop (as with IGNORE, or with STOP_ENOSPC and codes
  other than `-ENOSPC`).
* The job is not cancelled and `bdrv_drop_intermediate` succeeds.
* The clock is a non-negative value of `int64_t`, a sleep of `ms` takes the
  clock at least to any such value up to `clock + ms`, and the clock does not
  go back during an allocation query. -/
structure Transient {W : Type} (A : BlockLayer W) (s : CommitBlockJob) (faults : W → Nat) :
    Prop where
  not_cancelled : ∀ w, A.block_job_is_cancelled w = false
  drop_ok : ∀ w, (A.bdrv_drop_intermediate s.active s.top s.base w).1 = 0
  soft_query : ∀ sec nb w,
    stop_on_error s.on_error (A.bdrv_co_is_allocated_above s.top s.base sec nb w).1.1 = false
  soft_read : ∀ sec nb w, stop_on_error s.on_error (A.bdrv_read s.top sec nb w).1.1 = false
  soft_write : ∀ sec buf nb w,
    stop_on_error s.on_error (A.bdrv_write s.base sec buf nb w).1 = false
  faults_sleep : ∀ ms w, faults (A.block_job_sleep ms w) ≤ faults w
  faults_query : ∀ sec nb w,
    faults (A.bdrv_co_is_allocated_above s.top s.base sec nb w).2 ≤ faults w ∧
    ((A.bdrv_co_is_allocated_above s.top s.base sec nb w).1.1 < 0 →
      faults (A.bdrv_co_is_allocated_above s.top s.base sec nb w).2 < faults w)
  faults_read : ∀ sec nb w,
    faults (A.bdrv_read s.top sec nb w).2 ≤ faults w ∧
    ((A.bdrv_read s.top sec nb w).1.1 < 0 → faults (A.bdrv_read s.top sec nb w).2 < faults w)
  faults_write : ∀ sec buf nb w,
    faults (A.bdrv_write s.base sec buf nb w).2 ≤ faults w ∧
    ((A.bdrv_write s.base sec buf nb w).1 < 0 →
      faults (A.bdrv_write s.base sec buf nb w).2 < faults w)
  clock_range : ∀ w, 0 ≤ A.qemu_get_clock w ∧ A.qemu_get_clock w < 9223372036854775808
  sleep_clock : ∀ ms w t, isInt64 t → t ≤ A.qemu_get_clock w + ms →
    t ≤ A.qemu_get_clock (A.block_job_sleep ms w)
  query_clock : ∀ sec nb w, A.qemu_get_clock w ≤
    A.qemu_get_clock (A.bdrv_co_is_allocated_above s.top s.base sec nb w).2

/-! ## A small block layer for concrete runs -/

/-- The fixed part of the simulated block layer. -/
structure SimConfig where
  /-- The image chain, newest layer first; the last layer is Base. -/
  chain : List Nat
  /-- Whether a sector of Top is allocated above Base. -/
  alloc : Int → Bool
  /-- Content of Top, by sector. -/
  top_data : Int → SectorData
  /-- Count of sectors of Top. -/
  end_ : Int
  /-- The job counts as cancelled once it has slept this many times. -/
  cancel_after : Option Nat
  /-- Return value of `bdrv_drop_intermediate`. -/
  drop_ret : Int
  /-- Return value of `bdrv_truncate`. -/
  truncate_ret : Int

/-- The world of the simulated block layer. -/
structure Sim where
  /-- Clock in ms. -/
  clock : Nat
  /-- Value that `bdrv_getlength` returns for Top. -/
  top_len : Int
  /-- Value that `bdrv_getlength` returns for Base. -/
  base_len : Int
  /-- Content of Base, by sector. -/
  base_data : Int → SectorData
  /-- Open flags, by layer. -/
  flags : Nat → Nat
  /-- Count of `block_job_sleep` calls so far. -/
  sleeps : Nat
  /-- Return values of the coming `bdrv_read` calls: a negative entry is
  returned as it is, any other entry and a used up list let the read succeed. -/
  read_script : List Int
  /-- Return values of the coming `bdrv_write` calls, read like `read_script`. -/
  write_script : List Int
  /-- Return values of the coming allocation queries: a negative entry is
  returned as it is, any other entry and a used up list let the query answer
  from the allocation map. -/
  query_script : List Int
  /-- Whether the device already has a job. -/
  in_use : Bool
  /-- Whether iostatus reporting is enabled on the active layer. -/
  iostatus : Bool
  /-- Whether `bdrv_reopen_multiple` fails. -/
  reopen_fails : Bool
  /-- Status passed to the completion callback, once it has fired. -/
  completed : Option Int
  /-- Whether the chain has been re-linked. -/
  relinked : Bool

/-- Length of the run of sectors from `sec` on that share the allocation
state of `sec`, at most `limit`. -/
def runLen (alloc : Int → Bool) (sec : Int) : Nat → Int
  | 0 => 0
  | k + 1 =>
    if runLen alloc sec k = k ∧ alloc (sec + k) = alloc sec then runLen alloc sec k + 1
    else runLen alloc sec k

/-- The overlay of `bs` in a chain listed from the newest layer on. -/
def chainOverlay : List Nat → Nat → Option Nat
  | a :: b :: rest, bs => if b = bs then some a else chainOverlay (b :: rest) bs
  | _, _ => none

/-- Apply a reopen queue to the flags. -/
def applyQueue (flags : Nat → Nat) : List (Nat × Nat) → Nat → Nat
  | [] => flags
  | (bs, f) :: rest => applyQueue (fun l => if l = bs then f else flags l) rest

/-- The next return value of a fault script. -/
def scriptHead (script : List Int) : Int :=
  match script with
  | [] => 0
  | r :: _ => min r 0

/-- The simulated block layer.  Reads return the content of Top; a write
stores the buffer in Base (zeroes when it fails); sleeping for `ms` advances
the clock by `ms`. -/
def simLayer (c : SimConfig) : BlockLayer Sim where
  bdrv_getlength bs w :=
    (if c.chain.getLast? = some bs then w.base_len else w.top_len, w)
  bdrv_truncate _ len w :=
    (c.truncate_ret, if c.truncate_ret = 0 then { w with base_len := len } else w)
  bdrv_find_overlay active bs _ :=
    if c.chain.head? = some active then chainOverlay c.chain bs else none
  bdrv_read _ sec _ w :=
    ((scriptHead w.read_script, fun i => c.top_data (sec + i)),
      { w with read_script := w.read_script.tail })
  bdrv_write _ sec buf n w :=
    (scriptHead w.write_script,
      { w with
        write_script := w.write_script.tail
        base_data := fun x =>
          if sec ≤ x ∧ x < sec + n then (if scriptHead w.write_script = 0 then buf (x - sec) else 0)
          else w.base_data x })
  bdrv_co_is_allocated_above _ _ sec nb w :=
    ((if scriptHead w.query_script = 0 then (if c.alloc sec then 1 else 0)
        else scriptHead w.query_script,
      if scriptHead w.query_script = 0 then runLen c.alloc sec (min nb (c.end_ - sec)).toNat
        else 0),
      { w with query_script := w.query_script.tail })
  bdrv_drop_intermediate _ _ _ w :=
    (c.drop_ret, if c.drop_ret = 0 then { w with relinked := true } else w)
  bdrv_get_flags bs w := w.flags bs
  bdrv_reopen bs f w := { w with flags := fun l => if l = bs then f else w.flags l }
  bdrv_reopen_multiple q w :=
    (w.reopen_fails, if w.reopen_fails then w else { w with flags := applyQueue w.flags q })
  bdrv_iostatus_is_enabled _ w := w.iostatus
  block_job_create _ speed w :=
    if w.in_use then (none, w)
    else (some (speed, (commit_set_speed ⟨0, 0, 0⟩ speed).2), { w with in_use := true })
  block_job_sleep ms w := { w with clock := w.clock + ms.toNat, sleeps := w.sleeps + 1 }
  block_job_is_cancelled w :=
    match c.cancel_after with
    | none => false
    | some k => decide (k ≤ w.sleeps)
  block_job_complete ret w := { w with completed := some ret, in_use := false }
  qemu_get_clock w := min (w.clock : Int) 9223372036854775807

/-- A chain of four layers: 3 (active), 2 (the overlay of Top), 1 (Top) and
0 (Base); Top has `end_` sectors, sector `x` of Top holds `100 + x`. -/
def simConfig (alloc : Int → Bool) (end_ : Int) : SimConfig where
  chain := [3, 2, 1, 0]
  alloc := alloc
  top_data := fun x => (100 + x).toNat
  end_ := end_
  cancel_after := none
  drop_ret := 0
  truncate_ret := 0

/-- A world of the simulated block layer: Top of `n` sectors, Base empty and
of the same length, every layer opened with flags 0, no fault. -/
def simWorld (n : Int) : Sim where
  clock := 0
  top_len := n * 512
  base_len := n * 512
  base_data := fun _ => 0
  flags := fun _ => 0
  sleeps := 0
  read_script := []
  write_script := []
  query_script := []
  in_use := false
  iostatus := true
  reopen_fails := false
  completed := none
  relinked := false

/-- The job record over the chain of `simConfig`, with flags 0 saved. -/
def simJob (on_error : BlockErrorAction) (speed : Int) : CommitBlockJob where
  active := 3
  top := 1
  base := 0
  on_error := on_error
  base_flags := 0
  orig_overlay_flags := 0
  speed := speed

/-- The run state at the entry of `commit_run`: a fresh job record. -/
def RunState.init {W : Type} (w : W) (limit : RateLimit) : RunState W :=
  { w := w, limit := limit, len := 0, offset := 0, n := 0, bytes_written := 0, trace := [] }

/-- The result of a run that is known to end. -/
def RunResult.ofRun {W : Type} (r : Option (RunResult W)) (st : RunState W) : RunResult W :=
  match r with
  | some res => res
  | none => { terminal := Terminal.null_overlay, st := st }

/-! ### The runs used as examples -/

/-- Example for C4: six sectors, the even ones allocated, the third write
fails with `-ENOSPC`. -/
def enospcState : RunState Sim :=
  RunState.init { simWorld 6 with write_script := [0, 0, -28] } ⟨0, 0, 0⟩

/-- Example for C4: the run from `enospcState` under STOP_ENOSPC. -/
def enospcRun : RunResult Sim :=
  RunResult.ofRun (commit_run (simLayer (simConfig (fun x => x % 2 = 0) 6))
    (simJob BLOCK_ERR_STOP_ENOSPC 0) 10 enospcState) enospcState

/-- Example for C6: two allocated sectors, the first allocation query fails
with `-EIO`. -/
def queryFaultState : RunState Sim :=
  RunState.init { simWorld 2 with query_script := [-5] } ⟨0, 0, 0⟩

/-- Example for C6: the configuration of the run from `queryFaultState`. -/
def queryFaultLayer : BlockLayer Sim := simLayer (simConfig (fun _ => true) 2)

/-- Example for C6: the run from `queryFaultState` under REPORT. -/
def queryFaultRun : RunResult Sim :=
  RunResult.ofRun (commit_run queryFaultLayer (simJob BLOCK_ERR_REPORT 0) 10 queryFaultState)
    queryFaultState

/-- Example for C7: four sectors, allocated one by one in turn, and a cancel
that the second check sees. -/
def cancelLayer : BlockLayer Sim :=
  simLayer { simConfig (fun x => x % 2 = 0) 4 with cancel_after := some 2 }

/-- Example for C7: the state at the entry of the run. -/
def cancelState : RunState Sim := RunState.init (simWorld 4) ⟨0, 0, 0⟩

/-- Example for C7: the run from `cancelState` over `cancelLayer`. -/
def cancelRun : RunResult Sim :=
  RunResult.ofRun (commit_run cancelLayer (simJob BLOCK_ERR_REPORT 0) 10 cancelState) cancelState

/-- Example for C1, C2 and C3: six sectors, sectors 0, 1, 4 and 5 allocated,
no fault. -/
def cleanLayer : BlockLayer Sim := simLayer (simConfig (fun x => x < 2 ∨ 4 ≤ x) 6)

/-- Example for C1, C2 and C3: the state at the entry of the run. -/
def cleanState : RunState Sim := RunState.init (simWorld 6) ⟨0, 0, 0⟩

/-- Example for C1, C2 and C3: the run from `cleanState` over `cleanLayer`. -/
def cleanRun : RunResult Sim :=
  RunResult.ofRun (commit_run cleanLayer (simJob BLOCK_ERR_REPORT 0) 10 cleanState) cleanState

/-- Example for C1, C2 and C3: the events of `cleanRun`. -/
def cleanTrace : List Event :=
  [Event.getlength 1 3072, Event.getlength 0 3072,
   Event.sleep 0, Event.is_cancelled false, Event.is_allocated_above 0 1 2,
   Event.read 1 0 2 0, Event.write 0 0 2 0,
   Event.sleep 0, Event.is_cancelled false, Event.is_allocated_above 2 0 2,
   Event.sleep 0, Event.is_cancelled false, Event.is_allocated_above 4 1 2,
   Event.read 1 4 2 0, Event.write 0 4 2 0,
   Event.is_cancelled false, Event.drop_intermediate 3 1 0 0, Event.complete 0]

/-- The final world of a call of `commit_start`, if the call and the job it
started came to an end. -/
def StartResult.world {W : Type} : StartResult W → Option W
  | StartResult.failed _ w _ => some w
  | StartResult.started _ (some res) => some res.st.w
  | StartResult.started _ none => none

/-- The error that a call of `commit_start` set, if any. -/
def StartResult.error {W : Type} : StartResult W → Option QError
  | StartResult.failed err _ _ => some err
  | StartResult.started _ _ => none

/-- Example for C8 and C9: the layer of the calls of `commit_start`, four
sectors, all allocated. -/
def startLayer : BlockLayer Sim := simLayer (simConfig (fun _ => true) 4)

/-- Example for C8: the run that `commit_start` starts from `simWorld 4`. -/
def startRun : RunResult Sim :=
  match commit_start startLayer 3 0 1 0 BLOCK_ERR_REPORT 10 (simWorld 4) with
  | StartResult.started _ (some res) => res
  | _ => { terminal := Terminal.null_overlay, st := RunState.init (simWorld 4) ⟨0, 0, 0⟩ }

/-- The count of calls that can still fail in a world of the simulated block
layer: the entries left in its fault scripts. -/
def simFaults (w : Sim) : Nat :=
  w.read_script.length + w.write_script.length + w.query_script.length

/-- Example for C5: the state at the entry of a run over `cleanLayer` in which
the first read fails with `-EIO`. -/
def retryState : RunState Sim :=
  RunState.init { simWorld 6 with read_script := [-5] } ⟨0, 0, 0⟩

/-! ## The rate limiter: window, admission test, sequences of calls -/

/-- The limiter state after lines 40 to 43 of `ratelimit_calculate_delay`: a
new window when `next_slice_time < now`. -/
def ratelimit_window (limit : RateLimit) (now : Int) : RateLimit :=
  if limit.next_slice_time < now then
    { limit with
      next_slice_time := toInt64 (toUInt64 now + SLICE_TIME)
      dispatched := 0 }
  else limit

/-- The admission test of line 44 of `ratelimit_calculate_delay`, in the units
of the code (sectors). -/
def ratelimit_admits (limit : RateLimit) (n : Int) : Prop :=
  limit.dispatched = 0 ∨ toUInt64 (limit.dispatched + n) ≤ limit.slice_quota

/-- The quota of the byte limiter of the specification, which follows the
words of the spec: `slice_quota = target_bytes_per_second / 10`. -/
def spec_slice_quota (speed : Int) : Int := speed / 10

/-- The admission test of the byte limiter of the specification, which follows
the words of the spec: "if `dispatched == 0` or `dispatched + n <= slice_quota`:
charge `n` and return 0", with `slice_quota`, `dispatched` and `n` in bytes. -/
def spec_admits (slice_quota dispatched n : Int) : Prop :=
  dispatched = 0 ∨ dispatched + n ≤ slice_quota

/-- The limiter states that the job can be in, with the clock value of the
last call: the zero-initialised state of the fresh job record (clock values
count from 0 on), a change of the speed by `commit_set_speed`, and a call
of `ratelimit_calculate_delay(n)` at a clock value `now` that is not before
the last one (`n` a value of `uint64_t`, `now + 100` a value of `int64_t`). -/
inductive LimiterReach : RateLimit → Int → Prop
  /-- The job record is zero-initialised. -/
  | init : LimiterReach ⟨0, 0, 0⟩ 0
  /-- The speed is set. -/
  | set_speed (limit : RateLimit) (t speed : Int) (h : LimiterReach limit t) :
      LimiterReach (commit_set_speed limit speed).2 t
  /-- The engine asks the limiter. -/
  | call (limit : RateLimit) (t n now : Int) (h : LimiterReach limit t) (hnow : t ≤ now)
      (hmax : now + 100 < 9223372036854775808) (hn0 : 0 ≤ n)
      (hn1 : n < 18446744073709551616) :
      LimiterReach (ratelimit_calculate_delay limit n now).2 now

/-- The values that a sequence of calls `ratelimit_calculate_delay(n)` at the
clock values `now` returns, the calls given as pairs `(n, now)`. -/
def limiter_delays : RateLimit → List (Int × Int) → List Int
  | _, [] => []
  | limit, c :: rest =>
    (ratelimit_calculate_delay limit c.1 c.2).1 ::
      limiter_delays (ratelimit_calculate_delay limit c.1 c.2).2 rest

/-- The sectors that a sequence of calls admits: the sum of `n` over the calls
that return 0. -/
def limiter_admitted : RateLimit → List (Int × Int) → Int
  | _, [] => 0
  | limit, c :: rest =>
    (if (ratelimit_calculate_delay limit c.1 c.2).1 = 0 then c.1 else 0) +
      limiter_admitted (ratelimit_calculate_delay limit c.1 c.2).2 rest

/-- The discipline of the engine: after a call at `now` that returns the delay
`d`, every later call comes at `now + d` or later. -/
def limiter_disciplined : RateLimit → List (Int × Int) → Prop
  | _, [] => True
  | limit, c :: rest =>
    (∀ c1 ∈ rest, c.2 + (ratelimit_calculate_delay limit c.1 c.2).1 ≤ c1.2) ∧
      limiter_disciplined (ratelimit_calculate_delay limit c.1 c.2).2 rest

/-- Example for C11: the calls of a commit of a fully allocated Top of 10 MiB
in runs of 1024 sectors, each copy taking 1 ms and each refused call retried
exactly when its delay has elapsed. -/
def fullTopCalls : List (Int × Int) :=
  [(1024, 1), (1024, 2), (1024, 101), (1024, 102), (1024, 103), (1024, 202),
   (1024, 203), (1024, 204), (1024, 303), (1024, 304), (1024, 305), (1024, 404),
   (1024, 405), (1024, 406), (1024, 505), (1024, 506), (1024, 507), (1024, 606),
   (1024, 607), (1024, 608), (1024, 707), (1024, 708), (1024, 709), (1024, 808),
   (1024, 809), (1024, 810), (1024, 909), (1024, 910), (1024, 911), (1024, 1010)]

/-! ## `raw_parse_flags` of `block/raw-posix.c` -/

/-- The values of the flag constants that `raw_parse_flags` uses.  They come
from headers outside the sources at hand (`fcntl.h`, `qemu-common.h`,
`block.h`), so the function takes them as a parameter. -/
structure FlagBits where
  /-- Zero where the platform has no such flag. -/
  O_BINARY : Nat
  /-- The mask of the access mode. -/
  O_ACCMODE : Nat
  /-- Access mode: read only. -/
  O_RDONLY : Nat
  /-- Access mode: read and write. -/
  O_RDWR : Nat
  /-- No caching by the host. -/
  O_DIRECT : Nat
  /-- Writes reach the medium before they return. -/
  O_DSYNC : Nat
  /-- Block layer flag: open for writing. -/
  BDRV_O_RDWR : Nat
  /-- Block layer flag: do not use the host page cache. -/
  BDRV_O_NOCACHE : Nat
  /-- Block layer flag: write-back caching. -/
  BDRV_O_CACHE_WB : Nat

/-- The values of the constants on Linux (x86): `O_DIRECT` is 040000 and
`O_DSYNC` is 010000. -/
def linuxFlagBits : FlagBits where
  O_BINARY := 0
  O_ACCMODE := 3
  O_RDONLY := 0
  O_RDWR := 2
  O_DIRECT := 16384
  O_DSYNC := 4096
  BDRV_O_RDWR := 2
  BDRV_O_NOCACHE := 32
  BDRV_O_CACHE_WB := 64

/-- The C expression `x & ~m` on flag words that are not negative. -/
def clearBits (x m : Nat) : Nat := x ^^^ (x &&& m)

/-- The function `raw_parse_flags(bdrv_flags, &open_flags)`: the new value of
`open_flags`. -/
def raw_parse_flags (k : FlagBits) (bdrv_flags open_flags : Nat) : Nat :=
  let f1 := open_flags ||| k.O_BINARY
  let f2 := clearBits f1 k.O_ACCMODE
  let f3 := if bdrv_flags &&& k.BDRV_O_RDWR ≠ 0 then f2 ||| k.O_RDWR else f2 ||| k.O_RDONLY
  let f4 := if bdrv_flags &&& k.BDRV_O_NOCACHE ≠ 0 then f3 ||| k.O_DIRECT else f3
  if bdrv_flags &&& k.BDRV_O_CACHE_WB = 0 then f4 ||| k.O_DSYNC else f4

/-! ## The range of an event, and more example runs -/

/-- The sectors `(sector_num, count)` of an allocation query, read or write. -/
def Event.range : Event → Option (Int × Int)
  | Event.is_allocated_above sec _ nb => some (sec, nb)
  | Event.read _ sec nb _ => some (sec, nb)
  | Event.write _ sec nb _ => some (sec, nb)
  | _ => none

/-- Example for C18: the block layer of a Top of 700 bytes, one whole sector
and a last sector of 188 bytes; it counts in whole sectors. -/
def raggedLayer : BlockLayer Sim := simLayer (simConfig (fun _ => true) 1)

/-- Example for C18: the state at the entry of the run. -/
def raggedState : RunState Sim :=
  RunState.init { simWorld 1 with top_len := 700, base_len := 700 } ⟨0, 0, 0⟩

/-- Example for C18: the run from `raggedState` over `raggedLayer`. -/
def raggedRun : RunResult Sim :=
  RunResult.ofRun (commit_run raggedLayer (simJob BLOCK_ERR_REPORT 0) 10 raggedState)
    raggedState

/-- Example for C19: the length query of Top fails with `-EIO`; Base and the
overlay of Top (layer 2) are open read-write, as `commit_start` leaves them,
and the saved flags of both are 0. -/
def lengthFaultState : RunState Sim :=
  RunState.init
    { simWorld 6 with top_len := -5, flags := fun bs => if bs = 0 ∨ bs = 2 then 2 else 0 }
    ⟨0, 0, 0⟩

/-- Example for C19: the run from `lengthFaultState`. -/
def lengthFaultRun : RunResult Sim :=
  RunResult.ofRun
    (commit_run (simLayer (simConfig (fun _ => true) 6)) (simJob BLOCK_ERR_REPORT 0) 10
      lengthFaultState)
    lengthFaultState

/-- Example for C13: Base is shorter than Top and `bdrv_truncate` fails with
`-ENOSPC`. -/
def truncateFaultLayer : BlockLayer Sim :=
  simLayer { simConfig (fun _ => true) 6 with truncate_ret := -28 }

/-- Example for C13: the state at the entry of the run. -/
def truncateFaultState : RunState Sim :=
  RunState.init { simWorld 6 with base_len := 1024 } ⟨0, 0, 0⟩

/-- Example for C13: the run from `truncateFaultState` over
`truncateFaultLayer`. -/
def truncateFaultRun : RunResult Sim :=
  RunResult.ofRun (commit_run truncateFaultLayer (simJob BLOCK_ERR_REPORT 0) 10
    truncateFaultState) truncateFaultState

/-! ## Runs past the end of Top -/

/-- Example for C21: a block layer that counts eight sectors of Top, all
allocated, while the length of Top is six sectors: its first run goes past the
end of the walk. -/
def overshootLayer : BlockLayer Sim := simLayer (simConfig (fun _ => true) 8)

/-- Example for C21: the state at the entry of the run. -/
def overshootState : RunState Sim := RunState.init (simWorld 6) ⟨0, 0, 0⟩

/-- Example for C21: the run from `overshootState` over `overshootLayer`. -/
def overshootRun : RunResult Sim :=
  RunResult.ofRun (commit_run overshootLayer (simJob BLOCK_ERR_REPORT 0) 10 overshootState)
    overshootState

/-- Example for C21: as `overshootState`, and the first read fails with
`-EIO`. -/
def overshootFaultState : RunState Sim :=
  RunState.init { simWorld 6 with read_script := [-5] } ⟨0, 0, 0⟩

/-- Example for C21: the run from `overshootFaultState` over
`overshootLayer`. -/
def overshootFaultRun : RunResult Sim :=
  RunResult.ofRun
    (commit_run overshootLayer (simJob BLOCK_ERR_REPORT 0) 10 overshootFaultState)
    overshootFaultState

/-! ## `raw_reopen_prepare` of `block/raw-posix.c` -/

/-- The values of the further constants that `raw_set_aio` and
`raw_reopen_prepare` use; they come from headers outside the sources at hand
(`fcntl.h`, `block.h`).  `O_NOATIME` is 0 where the platform does not define
it. -/
structure ReopenBits where
  /-- Non-blocking mode. -/
  O_NONBLOCK : Nat
  /-- Append mode. -/
  O_APPEND : Nat
  /-- Signal-driven mode. -/
  O_ASYNC : Nat
  /-- Do not update the access time. -/
  O_NOATIME : Nat
  /-- Create the file. -/
  O_CREAT : Nat
  /-- Block layer flag: native AIO. -/
  BDRV_O_NATIVE_AIO : Nat

/-- The values of the constants on Linux (x86). -/
def linuxReopenBits : ReopenBits where
  O_NONBLOCK := 2048
  O_APPEND := 1024
  O_ASYNC := 8192
  O_NOATIME := 262144
  O_CREAT := 64
  BDRV_O_NATIVE_AIO := 128

/-- Type of a raw image: a regular file. -/
def FTYPE_FILE : Nat := 0

/-- Type of a raw image: a CD-ROM. -/
def FTYPE_CD : Nat := 1

/-- Type of a raw image: a floppy. -/
def FTYPE_FD : Nat := 2

/-- The fields of `BDRVRawState` that `raw_reopen_prepare` reads or writes;
`aio_ctx` is 0 for `NULL`. -/
structure BDRVRawState where
  fd : Int
  type : Nat
  open_flags : Nat
  use_aio : Int
  aio_ctx : Nat
  deriving DecidableEq, Repr

/-- The record `BDRVRawReopenState`. -/
structure BDRVRawReopenState where
  fd : Int
  open_flags : Nat
  use_aio : Int
  deriving DecidableEq, Repr

/-- The return values of the calls that `raw_reopen_prepare` makes outside
the file, each made once at most: `laio_init()` (0 for `NULL`), the
duplication of the descriptor (`fcntl(fd, F_DUPFD_CLOEXEC, 0)` or `dup(fd)`),
`fcntl_setfl` and `qemu_open`. -/
structure ReopenCalls where
  laio_init : Nat
  dup : Int
  fcntl_setfl : Int
  qemu_open : Int
  deriving DecidableEq, Repr

/-- The function `raw_set_aio(&aio_ctx, &use_aio, bdrv_flags)`: the return
value and the new values of `aio_ctx` and `use_aio`. -/
def raw_set_aio (k : FlagBits) (r : ReopenBits) (laio_init : Nat) (aio_ctx : Nat)
    (use_aio : Int) (bdrv_flags : Nat) : Int × Nat × Int :=
  if bdrv_flags &&& (k.BDRV_O_NOCACHE ||| r.BDRV_O_NATIVE_AIO) =
      (k.BDRV_O_NOCACHE ||| r.BDRV_O_NATIVE_AIO) then
    if aio_ctx = 0 then
      if laio_init = 0 then (-1, laio_init, use_aio)
      else (0, laio_init, 1)
    else (0, aio_ctx, 1)
  else (0, aio_ctx, 0)

/-- What `raw_reopen_prepare` leaves: its return value, the record
`state->opaque`, the `aio_ctx` of the image, and the descriptors it closed. -/
structure ReopenResult where
  ret : Int
  raw_s : BDRVRawReopenState
  aio_ctx : Nat
  closed : List Int
  deriving DecidableEq, Repr

/-- Lines 330 to 348 of `raw_reopen_prepare`: the duplication of the
descriptor and `fcntl_setfl`, taken when the old and the new open flags differ
in the bits of `fcntl_flags` only.  It gives `ret`, `raw_s->fd` and the
descriptors closed. -/
def raw_reopen_fcntl (r : ReopenBits) (s : BDRVRawState) (open_flags : Nat)
    (calls : ReopenCalls) : Int × Int × List Int :=
  let fcntl_flags := r.O_APPEND ||| r.O_ASYNC ||| r.O_NONBLOCK ||| r.O_NOATIME
  if clearBits open_flags fcntl_flags = clearBits s.open_flags fcntl_flags then
    if 0 ≤ calls.dup then
      if calls.fcntl_setfl ≠ 0 then (calls.fcntl_setfl, -1, [calls.dup])
      else (calls.fcntl_setfl, calls.dup, [])
    else (0, calls.dup, [])
  else (0, -1, [])

/-- The function `raw_reopen_prepare`, with `linux_aio` for the build option
`CONFIG_LINUX_AIO` and `bdrv_flags` for `state->flags`.  The record
`state->opaque` starts zeroed.  `none` when the assertion of line 352
fails. -/
def raw_reopen_prepare (k : FlagBits) (r : ReopenBits) (linux_aio : Bool)
    (s : BDRVRawState) (bdrv_flags : Nat) (calls : ReopenCalls) : Option ReopenResult :=
  let raw0 : BDRVRawReopenState := { fd := 0, open_flags := 0, use_aio := 0 }
  let aio := raw_set_aio k r calls.laio_init s.aio_ctx s.use_aio bdrv_flags
  if linux_aio = true ∧ aio.1 ≠ 0 then
    some { ret := -1, raw_s := { raw0 with use_aio := aio.2.2 }, aio_ctx := aio.2.1,
           closed := [] }
  else
    let use_aio := if linux_aio then aio.2.2 else 0
    let aio_ctx := if linux_aio then aio.2.1 else s.aio_ctx
    let flags0 := if s.type = FTYPE_FD ∨ s.type = FTYPE_CD then raw0.open_flags ||| r.O_NONBLOCK
      else raw0.open_flags
    let open_flags := raw_parse_flags k bdrv_flags flags0
    let f := raw_reopen_fcntl r s open_flags calls
    if f.2.1 = -1 then
      if open_flags &&& r.O_CREAT ≠ 0 then none
      else
        some { ret := if calls.qemu_open = -1 then -1 else f.1
               raw_s := { fd := calls.qemu_open, open_flags := open_flags, use_aio := use_aio }
               aio_ctx := aio_ctx
               closed := f.2.2 }
    else
      some { ret := f.1
             raw_s := { fd := f.2.1, open_flags := open_flags, use_aio := use_aio }
             aio_ctx := aio_ctx
             closed := f.2.2 }

/-- Example for C22: a regular file open read-write with `O_DSYNC` on
descriptor 5. -/
def reopenImage : BDRVRawState :=
  { fd := 5, type := FTYPE_FILE, open_flags := 4098, use_aio := 0, aio_ctx := 0 }

/-- Example for C22: the descriptor is duplicated as 7, `fcntl_setfl` fails
with `-EINVAL`, `qemu_open` gives descriptor 8. -/
def reopenCalls : ReopenCalls :=
  { laio_init := 0, dup := 7, fcntl_setfl := -22, qemu_open := 8 }

/-! # Theorems -/

/-! ## Rate limiter -/

theorem ratelimit_next_slice_le (limit : RateLimit) (n t : Int)
    (hl : isInt64 limit.next_slice_time) (ht : isInt64 t)
    (hd : 0 < (ratelimit_calculate_delay limit n t).1) :
    (ratelimit_calculate_delay limit n t).2.next_slice_time
      ≤ t + (ratelimit_calculate_delay limit n t).1 := by
  unfold isInt64 at hl ht
  unfold ratelimit_calculate_delay at hd ⊢
  simp only [toInt64, toUInt64, SLICE_TIME] at hd ⊢
  split_ifs at hd ⊢ <;> dsimp only at * <;> omega

theorem ratelimit_zero_of_le (limit : RateLimit) (n now : Int)
    (h : limit.next_slice_time ≤ now) :
    (ratelimit_calculate_delay limit n now).1 = 0 := by
  unfold ratelimit_calculate_delay
  simp only [toInt64, toUInt64, SLICE_TIME]
  split_ifs <;> dsimp only at * <;> omega

/-- C10 (forward progress of the rate limiter): for every limiter state, every
request size `n` and every clock value `now` at or past `next_slice_time`,
`ratelimit_calculate_delay` returns 0; and when a call at time `t` (a value of
`int64_t`, as is `next_slice_time`) returned a positive delay, the same call
repeated at any time `now >= t + delay` returns 0, whatever `n` and
`slice_quota` are. -/
theorem ratelimit_forward_progress (limit : RateLimit) (n now : Int) :
    (limit.next_slice_time ≤ now → (ratelimit_calculate_delay limit n now).1 = 0) ∧
    (∀ t : Int, isInt64 limit.next_slice_time → isInt64 t →
      0 < (ratelimit_calculate_delay limit n t).1 →
      t + (ratelimit_calculate_delay limit n t).1 ≤ now →
      (ratelimit_calculate_delay (ratelimit_calculate_delay limit n t).2 n now).1 = 0) :=
  ⟨ratelimit_zero_of_le limit n now, fun t hl ht hd hnow =>
    ratelimit_zero_of_le _ n now (le_trans (ratelimit_next_slice_le limit n t hl ht hd) hnow)⟩


/-- Witness of C10: a request of 50 units against a quota of 10 with 50 units
already dispatched is delayed by 70 ms at time 30 and admitted at time 100. -/
theorem ratelimit_forward_progress_witness :
    (ratelimit_calculate_delay ⟨100, 10, 50⟩ 50 30).1 = 70 ∧
    (ratelimit_calculate_delay ⟨100, 10, 50⟩ 50 100).1 = 0 ∧
    (ratelimit_calculate_delay (ratelimit_calculate_delay ⟨100, 10, 50⟩ 50 30).2 50 100).1 = 0 :=
  ⟨by decide,
   (ratelimit_forward_progress ⟨100, 10, 50⟩ 50 100).1 (by decide),
   (ratelimit_forward_progress ⟨100, 10, 50⟩ 50 100).2 30 ⟨by decide, by decide⟩
     ⟨by decide, by decide⟩ (by decide) (by decide)⟩

theorem commit_body_spec {W : Type} (A : BlockLayer W) (s : CommitBlockJob)
    (sector_num delay_ms : Int) (st : RunState W) :
    BodySpec A s sector_num delay_ms st (commit_body A s sector_num delay_ms st) := by
  by_cases hc : A.block_job_is_cancelled (bodySleep A delay_ms st) = true
  · have hc' := hc
    simp only [bodySleep] at hc'
    simp only [commit_body, RunState.log, hc', if_true]
    exact BodySpec.cancelled _ hc ⟨rfl, by simp, rfl, rfl, rfl, rfl⟩
  have hc0 : A.block_job_is_cancelled (bodySleep A delay_ms st) = false := by simpa using hc
  have hc' := hc0
  simp only [bodySleep] at hc'
  by_cases hq : (bodyQuery A s sector_num delay_ms st).1.1 = 1
  · have hq' := hq
    simp only [bodyQuery, bodySleep] at hq'
    by_cases hw : s.speed ≠ 0 ∧ 0 < toUInt64 (bodyDelay A s sector_num delay_ms st).1
    · have hw' := hw
      simp only [bodyDelay, bodyQuery, bodySleep] at hw'
      simp only [commit_body, RunState.log, hc', hq', hw'.1, hw'.2, Bool.false_eq_true, if_false,
        decide_True, Bool.decide_eq_true, ne_eq, not_false_eq_true, and_self, gt_iff_lt, if_true]
      exact BodySpec.wait _ hc0 hq hw.1 hw.2 ⟨rfl, by simp [bodyHead, bodyQuery, bodySleep, hq'], rfl, rfl, rfl, rfl⟩
    · have hd : s.speed = 0 ∨ toUInt64 (bodyDelay A s sector_num delay_ms st).1 = 0 := by
        by_cases hsp : s.speed = 0
        · exact Or.inl hsp
        · right
          have h0 : 0 ≤ toUInt64 (bodyDelay A s sector_num delay_ms st).1 := by
            unfold toUInt64; omega
          have h1 : ¬ 0 < toUInt64 (bodyDelay A s sector_num delay_ms st).1 := fun h => hw ⟨hsp, h⟩
          omega
      by_cases hr : (bodyPopulate A s sector_num delay_ms st).1 < 0
      · by_cases hs : stop_on_error s.on_error (bodyPopulate A s sector_num delay_ms st).1 = true
        · have hr' := hr
          have hs' := hs
          simp only [bodyPopulate, bodyQuery, bodySleep] at hr' hs'
          by_cases hsp : s.speed = 0
          · simp only [commit_body, RunState.log, hc', hq', hsp, hr', hs', Bool.false_eq_true,
              if_false, decide_True, Bool.decide_eq_true, ne_eq, not_true_eq_false, and_false,
              false_and, decide_False, if_true]
            exact BodySpec.copy_stop _ hc0 hq hd hr hs
              ⟨rfl, by simp [bodyHead, bodyPopulate, bodyQuery, bodySleep, hq'], rfl, rfl,
                by simp [bodyLimit, hsp], rfl⟩
          · have hd' : toUInt64 (bodyDelay A s sector_num delay_ms st).1 = 0 := by
              rcases hd with h | h
              · exact absurd h hsp
              · exact h
            simp only [bodyDelay, bodyQuery, bodySleep] at hd'
            simp only [commit_body, RunState.log, hc', hq', hsp, hr', hs', hd', Bool.false_eq_true,
              if_false, decide_True, Bool.decide_eq_true, ne_eq, not_false_eq_true, and_self,
              gt_iff_lt, lt_self_iff_false, and_false, if_true]
            exact BodySpec.copy_stop _ hc0 hq hd hr hs
              ⟨rfl, by simp [bodyHead, bodyPopulate, bodyQuery, bodySleep, hq'], rfl, rfl,
                by simp [bodyLimit, hsp, bodyDelay, bodyQuery, bodySleep], rfl⟩
        · have hs : stop_on_error s.on_error (bodyPopulate A s sector_num delay_ms st).1 = false := by
            simpa using hs
          have hr' := hr
          have hs' := hs
          simp only [bodyPopulate, bodyQuery, bodySleep] at hr' hs'
          by_cases hsp : s.speed = 0
          · simp only [commit_body, RunState.log, hc', hq', hsp, hr', hs', Bool.false_eq_true,
              if_false, decide_True, Bool.decide_eq_true, ne_eq, not_true_eq_false, and_false,
              false_and, decide_False, if_true]
            exact BodySpec.copy_retry _ hc0 hq hd hr hs
              ⟨rfl, by simp [bodyHead, bodyPopulate, bodyQuery, bodySleep, hq'], rfl, rfl,
                by simp [bodyLimit, hsp], rfl⟩
          · have hd' : toUInt64 (bodyDelay A s sector_num delay_ms st).1 = 0 := by
              rcases hd with h | h
              · exact absurd h hsp
              · exact h
            simp only [bodyDelay, bodyQuery, bodySleep] at hd'
            simp only [commit_body, RunState.log, hc', hq', hsp, hr', hs', hd', Bool.false_eq_true,
              if_false, decide_True, Bool.decide_eq_true, ne_eq, not_false_eq_true, and_self,
              gt_iff_lt, lt_self_iff_false, and_false, if_true]
            exact BodySpec.copy_retry _ hc0 hq hd hr hs
              ⟨rfl, by simp [bodyHead, bodyPopulate, bodyQuery, bodySleep, hq'], rfl, rfl,
                by simp [bodyLimit, hsp, bodyDelay, bodyQuery, bodySleep], rfl⟩
      · have hr : 0 ≤ (bodyPopulate A s sector_num delay_ms st).1 := by omega
        have hr' := hr
        simp only [bodyPopulate, bodyQuery, bodySleep] at hr'
        have hr'' := not_lt.mpr hr'
        by_cases hsp : s.speed = 0
        · simp only [commit_body, RunState.log, hc', hq', hsp, hr'', Bool.false_eq_true,
            if_false, decide_True, Bool.decide_eq_true, ne_eq, not_true_eq_false, and_false,
            false_and, decide_False, if_true]
          exact BodySpec.copy_done _ hc0 hq hd hr
            ⟨rfl, by simp [bodyHead, bodyPopulate, bodyQuery, bodySleep, hq'], rfl, rfl,
              by simp [bodyLimit, hsp], rfl⟩
        · have hd' : toUInt64 (bodyDelay A s sector_num delay_ms st).1 = 0 := by
            rcases hd with h | h
            · exact absurd h hsp
            · exact h
          simp only [bodyDelay, bodyQuery, bodySleep] at hd'
          simp only [commit_body, RunState.log, hc', hq', hsp, hr'', hd', Bool.false_eq_true,
            if_false, decide_True, Bool.decide_eq_true, ne_eq, not_false_eq_true, and_self,
            gt_iff_lt, lt_self_iff_false, and_false, if_true]
          exact BodySpec.copy_done _ hc0 hq hd hr
            ⟨rfl, by simp [bodyHead, bodyPopulate, bodyQuery, bodySleep, hq'], rfl, rfl,
              by simp [bodyLimit, hsp, bodyDelay, bodyQuery, bodySleep], rfl⟩
  · have hq' := hq
    simp only [bodyQuery, bodySleep] at hq'
    by_cases hq0 : (bodyQuery A s sector_num delay_ms st).1.1 < 0
    · have hq0' := hq0
      simp only [bodyQuery, bodySleep] at hq0'
      by_cases hs : stop_on_error s.on_error (bodyQuery A s sector_num delay_ms st).1.1 = true
      · have hs' := hs
        simp only [bodyQuery, bodySleep] at hs'
        simp only [commit_body, RunState.log, hc', hq', hq0', hs', Bool.false_eq_true,
          if_false, decide_False, false_and, if_true]
        exact BodySpec.query_stop _ hc0 hq0 hs
          ⟨rfl, by simp [bodyHead, bodyQuery, bodySleep], rfl, rfl, rfl, rfl⟩
      · have hs : stop_on_error s.on_error (bodyQuery A s sector_num delay_ms st).1.1 = false := by
          simpa using hs
        have hs' := hs
        simp only [bodyQuery, bodySleep] at hs'
        simp only [commit_body, RunState.log, hc', hq', hq0', hs', Bool.false_eq_true,
          if_false, decide_False, false_and, if_true]
        exact BodySpec.query_retry _ hc0 hq0 hs
          ⟨rfl, by simp [bodyHead, bodyQuery, bodySleep], rfl, rfl, rfl, rfl⟩
    · have hq0' := hq0
      simp only [bodyQuery, bodySleep] at hq0'
      simp only [commit_body, RunState.log, hc', hq', hq0', Bool.false_eq_true,
        if_false, decide_False, false_and, if_true]
      exact BodySpec.skip _ hc0 hq (by omega)
        ⟨rfl, by simp [bodyHead, bodyQuery, bodySleep], rfl, rfl, rfl, rfl⟩

theorem commit_populate_cases {W : Type} (A : BlockLayer W) (bs base : Nat)
    (sector_num nb_sectors : Int) (w : W) :
    ((A.bdrv_read bs sector_num nb_sectors w).1.1 ≠ 0 ∧
      commit_populate A bs base sector_num nb_sectors w =
        ((A.bdrv_read bs sector_num nb_sectors w).1.1, (A.bdrv_read bs sector_num nb_sectors w).2,
          [Event.read bs sector_num nb_sectors (A.bdrv_read bs sector_num nb_sectors w).1.1])) ∨
    ((A.bdrv_read bs sector_num nb_sectors w).1.1 = 0 ∧
      commit_populate A bs base sector_num nb_sectors w =
        ((A.bdrv_write base sector_num (A.bdrv_read bs sector_num nb_sectors w).1.2 nb_sectors
            (A.bdrv_read bs sector_num nb_sectors w).2).1,
          (A.bdrv_write base sector_num (A.bdrv_read bs sector_num nb_sectors w).1.2 nb_sectors
            (A.bdrv_read bs sector_num nb_sectors w).2).2,
          [Event.read bs sector_num nb_sectors 0,
           Event.write base sector_num nb_sectors
            (A.bdrv_write base sector_num (A.bdrv_read bs sector_num nb_sectors w).1.2 nb_sectors
              (A.bdrv_read bs sector_num nb_sectors w).2).1])) := by
  by_cases hr : (A.bdrv_read bs sector_num nb_sectors w).1.1 = 0
  · right
    refine ⟨hr, ?_⟩
    by_cases hw : (A.bdrv_write base sector_num (A.bdrv_read bs sector_num nb_sectors w).1.2
        nb_sectors (A.bdrv_read bs sector_num nb_sectors w).2).1 = 0
    · simp [commit_populate, hr, hw]
    · simp [commit_populate, hr, hw]
  · left
    exact ⟨hr, by simp [commit_populate, hr]⟩

/-- Hoare style rule for the copy loop: a property `P` of the loop state at
the label `wait:` that every pass preserves gives `Q` at every way out. -/
theorem commit_loop_rule {W : Type} (A : BlockLayer W) (s : CommitBlockJob) (end_ : Int)
    (P : Int → Int → RunState W → Prop) (Q : LoopExit → Int → RunState W → Prop)
    (hwait : ∀ sec d st d1 st1, P sec d st →
      commit_body A s sec d st = BodyResult.goto_wait d1 st1 → P sec d1 st1)
    (hcanc : ∀ sec d st st1, P sec d st →
      commit_body A s sec d st = BodyResult.cancelled st1 → Q LoopExit.cancelled sec st1)
    (hexit : ∀ sec d st ret st1, P sec d st →
      commit_body A s sec d st = BodyResult.exit_free_buf ret st1 → Q (LoopExit.error ret) sec st1)
    (hnext : ∀ sec d st st1, P sec d st →
      commit_body A s sec d st = BodyResult.next st1 →
        (sec + st1.n < end_ → P (sec + st1.n) 0 st1) ∧
        (¬ sec + st1.n < end_ → Q LoopExit.finished (sec + st1.n) st1)) :
    ∀ (fuel : Nat) (sec d : Int) (st : RunState W), P sec d st →
      ∀ ex sec1 st1, commit_loop A s end_ fuel sec d st = some (ex, sec1, st1) → Q ex sec1 st1 := by
  intro fuel
  induction fuel with
  | zero => intro sec d st _ ex sec1 st1 h; simp [commit_loop] at h
  | succ k ih =>
    intro sec d st hP ex sec1 st1 h
    rw [commit_loop] at h
    cases hb : commit_body A s sec d st with
    | goto_wait d1 st2 =>
      rw [hb] at h
      exact ih sec d1 st2 (hwait sec d st d1 st2 hP hb) ex sec1 st1 h
    | cancelled st2 =>
      rw [hb] at h
      simp only [Option.some.injEq, Prod.mk.injEq] at h
      obtain ⟨rfl, rfl, rfl⟩ := h
      exact hcanc sec d st st2 hP hb
    | exit_free_buf ret st2 =>
      rw [hb] at h
      simp only [Option.some.injEq, Prod.mk.injEq] at h
      obtain ⟨rfl, rfl, rfl⟩ := h
      exact hexit sec d st ret st2 hP hb
    | next st2 =>
      rw [hb] at h
      have hn := hnext sec d st st2 hP hb
      by_cases hlt : sec + st2.n < end_
      · simp only [hlt, if_true] at h
        exact ih _ 0 st2 (hn.1 hlt) ex sec1 st1 h
      · simp only [hlt, if_false, Option.some.injEq, Prod.mk.injEq] at h
        obtain ⟨rfl, rfl, rfl⟩ := h
        exact hn.2 hlt
/-! ## The trace of a run -/

theorem teardown_isTeardown {ov : Option Nat} {ret : Int} {terminal : Terminal}
    {td : List Event} (h : Teardown ov ret terminal td) : ∀ e ∈ td, e.isTeardown = true := by
  intro e he
  cases ov with
  | none =>
    obtain ⟨bs, f, rfl⟩ := h.2 e he
    rfl
  | some o =>
    obtain ⟨_, td0, rfl, h0⟩ := h
    rcases List.mem_append.mp he with h1 | h1
    · obtain ⟨bs, f, rfl⟩ := h0 e h1
      rfl
    · simp at h1
      subst h1
      rfl

theorem restore_flags_trace {W : Type} (A : BlockLayer W) (bs flags : Nat) (st : RunState W) :
    (restore_flags A bs flags st).trace = st.trace ∨
    (restore_flags A bs flags st).trace = st.trace ++ [Event.reopen bs flags] := by
  unfold restore_flags
  split_ifs
  · right; rfl
  · left; rfl

theorem exit_restore_reopen_trace {W : Type} (A : BlockLayer W) (s : CommitBlockJob)
    (ov : Option Nat) (ret : Int) (st : RunState W) :
    ∃ td, (exit_restore_reopen A s ov ret st).st.trace = st.trace ++ td ∧
      Teardown ov ret (exit_restore_reopen A s ov ret st).terminal td := by
  have h1 : ∃ a, (restore_flags A s.base s.base_flags st).trace = st.trace ++ a ∧
      ∀ e ∈ a, ∃ bs f, e = Event.reopen bs f := by
    rcases restore_flags_trace A s.base s.base_flags st with h | h
    · exact ⟨[], by simpa using h, by simp⟩
    · exact ⟨_, h, by simp⟩
  obtain ⟨a, ha1, ha2⟩ := h1
  cases ov with
  | none => exact ⟨a, ha1, rfl, ha2⟩
  | some o =>
    have h2 : ∃ b, (restore_flags A o s.orig_overlay_flags
        (restore_flags A s.base s.base_flags st)).trace =
          (restore_flags A s.base s.base_flags st).trace ++ b ∧
        ∀ e ∈ b, ∃ bs f, e = Event.reopen bs f := by
      rcases restore_flags_trace A o s.orig_overlay_flags
        (restore_flags A s.base s.base_flags st) with h | h
      · exact ⟨[], by simpa using h, by simp⟩
      · exact ⟨_, h, by simp⟩
    obtain ⟨b, hb1, hb2⟩ := h2
    refine ⟨(a ++ b) ++ [Event.complete ret], ?_, rfl, a ++ b, rfl, ?_⟩
    · simp only [exit_restore_reopen, RunState.log]
      rw [hb1, ha1]
      simp
    · intro e he
      rcases List.mem_append.mp he with h | h
      · exact ha2 e h
      · exact hb2 e h

theorem bodyPopulate_events {W : Type} (A : BlockLayer W) (s : CommitBlockJob)
    (sector_num delay_ms : Int) (st : RunState W) :
    ((bodyPopulate A s sector_num delay_ms st).1 ≠ 0 ∧
      (bodyPopulate A s sector_num delay_ms st).2.2 =
        [Event.read s.top sector_num (bodyQuery A s sector_num delay_ms st).1.2
          (bodyPopulate A s sector_num delay_ms st).1]) ∨
    ((bodyPopulate A s sector_num delay_ms st).2.2 =
        [Event.read s.top sector_num (bodyQuery A s sector_num delay_ms st).1.2 0,
         Event.write s.base sector_num (bodyQuery A s sector_num delay_ms st).1.2
          (bodyPopulate A s sector_num delay_ms st).1]) := by
  unfold bodyPopulate
  rcases commit_populate_cases A s.top s.base sector_num
    (bodyQuery A s sector_num delay_ms st).1.2 (bodyQuery A s sector_num delay_ms st).2 with
    ⟨h1, h2⟩ | ⟨_, h2⟩
  · left
    rw [h2]
    exact ⟨h1, rfl⟩
  · right
    rw [h2]

theorem quiet_bodyHead {W : Type} (A : BlockLayer W) (s : CommitBlockJob)
    (sector_num delay_ms : Int) (st : RunState W)
    (h : ¬ ((bodyQuery A s sector_num delay_ms st).1.1 < 0 ∧
      stop_on_error s.on_error (bodyQuery A s sector_num delay_ms st).1.1 = true)) :
    ∀ e ∈ bodyHead A s sector_num delay_ms st, e.quiet s.on_error = true := by
  intro e he
  simp only [bodyHead, List.mem_cons, List.mem_singleton, List.not_mem_nil, or_false] at he
  rcases he with rfl | rfl | rfl
  · rfl
  · rfl
  · simp only [Event.quiet, Bool.not_eq_true', Bool.and_eq_false_imp, decide_eq_true_eq]
    intro h1
    by_contra h2
    exact h ⟨h1, by simpa using h2⟩

theorem quiet_populate_soft {W : Type} (A : BlockLayer W) (s : CommitBlockJob)
    (sector_num delay_ms : Int) (st : RunState W)
    (h : ¬ ((bodyPopulate A s sector_num delay_ms st).1 < 0 ∧
      stop_on_error s.on_error (bodyPopulate A s sector_num delay_ms st).1 = true)) :
    ∀ e ∈ (bodyPopulate A s sector_num delay_ms st).2.2, e.quiet s.on_error = true := by
  intro e he
  have hq : ∀ b sec nb, (Event.read b sec nb (bodyPopulate A s sector_num delay_ms st).1).quiet
      s.on_error = true ∧ (Event.write b sec nb (bodyPopulate A s sector_num delay_ms st).1).quiet
      s.on_error = true := by
    intro b sec nb
    simp only [Event.quiet, Bool.not_eq_true', Bool.and_eq_false_imp, decide_eq_true_eq, and_self]
    intro h1
    by_contra h2
    exact h ⟨h1, by simpa using h2⟩
  rcases bodyPopulate_events A s sector_num delay_ms st with ⟨_, h2⟩ | h2
  · rw [h2] at he
    simp only [List.mem_singleton] at he
    subst he
    exact (hq _ _ _).1
  · rw [h2] at he
    simp only [List.mem_cons, List.mem_singleton, List.not_mem_nil, or_false] at he
    rcases he with rfl | rfl
    · simp [Event.quiet]
    · exact (hq _ _ _).2

/-- The events of one pass through the loop body. -/
theorem commit_body_events {W : Type} (A : BlockLayer W) (s : CommitBlockJob)
    (sector_num delay_ms : Int) (st : RunState W) :
    ∃ q t, (commit_body A s sector_num delay_ms st).state.trace = st.trace ++ (q ++ t) ∧
      (∀ e ∈ q, e.quiet s.on_error = true) ∧
      match commit_body A s sector_num delay_ms st with
      | BodyResult.goto_wait _ _ => t = []
      | BodyResult.next _ => t = []
      | BodyResult.cancelled st1 => LoopTail A s LoopExit.cancelled st1 t
      | BodyResult.exit_free_buf ret st1 => LoopTail A s (LoopExit.error ret) st1 t := by
  have hspec := commit_body_spec A s sector_num delay_ms st
  generalize commit_body A s sector_num delay_ms st = r at hspec
  cases hspec with
  | cancelled st1 hc hp =>
    refine ⟨[Event.sleep (toInt64 delay_ms)], [Event.is_cancelled true], ?_, ?_, ?_⟩
    · simpa [BodyResult.state] using hp.trace_eq
    · intro e he
      simp at he
      subst he
      rfl
    · exact ⟨rfl, by rw [hp.w_eq]; exact hc⟩
  | wait st1 hc hq hs hd hp =>
    refine ⟨bodyHead A s sector_num delay_ms st, [], ?_, ?_, rfl⟩
    · simpa [BodyResult.state] using hp.trace_eq
    · exact quiet_bodyHead A s sector_num delay_ms st (by omega)
  | query_stop st1 hc hq hs hp =>
    refine ⟨[Event.sleep (toInt64 delay_ms), Event.is_cancelled false],
      [Event.is_allocated_above sector_num (bodyQuery A s sector_num delay_ms st).1.1
        (bodyQuery A s sector_num delay_ms st).1.2], ?_, ?_, ?_⟩
    · simpa [BodyResult.state, bodyHead] using hp.trace_eq
    · intro e he
      simp at he
      rcases he with rfl | rfl <;> rfl
    · exact ⟨_, rfl, by simp [Event.stopCode, hq, hs], rfl, hq⟩
  | query_retry st1 hc hq hs hp =>
    refine ⟨bodyHead A s sector_num delay_ms st, [], ?_, ?_, rfl⟩
    · simpa [BodyResult.state] using hp.trace_eq
    · exact quiet_bodyHead A s sector_num delay_ms st (by simp [hs])
  | skip st1 hc hq hq0 hp =>
    refine ⟨bodyHead A s sector_num delay_ms st, [], ?_, ?_, rfl⟩
    · simpa [BodyResult.state] using hp.trace_eq
    · exact quiet_bodyHead A s sector_num delay_ms st (by omega)
  | copy_stop st1 hc hq hd hr hs hp =>
    have hh := quiet_bodyHead A s sector_num delay_ms st (by omega)
    rcases bodyPopulate_events A s sector_num delay_ms st with ⟨_, h2⟩ | h2
    · refine ⟨bodyHead A s sector_num delay_ms st, (bodyPopulate A s sector_num delay_ms st).2.2,
        ?_, hh, ?_⟩
      · simpa [BodyResult.state] using hp.trace_eq
      · exact ⟨_, h2, by simp [Event.stopCode, hr, hs], rfl, hr⟩
    · refine ⟨bodyHead A s sector_num delay_ms st ++
          [Event.read s.top sector_num (bodyQuery A s sector_num delay_ms st).1.2 0],
        [Event.write s.base sector_num (bodyQuery A s sector_num delay_ms st).1.2
          (bodyPopulate A s sector_num delay_ms st).1], ?_, ?_, ?_⟩
      · simpa [BodyResult.state, h2] using hp.trace_eq
      · intro e he
        rcases List.mem_append.mp he with h | h
        · exact hh e h
        · simp at h
          subst h
          simp [Event.quiet]
      · exact ⟨_, rfl, by simp [Event.stopCode, hr, hs], rfl, hr⟩
  | copy_retry st1 hc hq hd hr hs hp =>
    refine ⟨bodyHead A s sector_num delay_ms st ++ (bodyPopulate A s sector_num delay_ms st).2.2,
      [], ?_, ?_, rfl⟩
    · simpa [BodyResult.state] using hp.trace_eq
    · intro e he
      rcases List.mem_append.mp he with h | h
      · exact quiet_bodyHead A s sector_num delay_ms st (by omega) e h
      · exact quiet_populate_soft A s sector_num delay_ms st (by simp [hs]) e h
  | copy_done st1 hc hq hd hr hp =>
    refine ⟨bodyHead A s sector_num delay_ms st ++ (bodyPopulate A s sector_num delay_ms st).2.2,
      [], ?_, ?_, rfl⟩
    · simpa [BodyResult.state] using hp.trace_eq
    · intro e he
      rcases List.mem_append.mp he with h | h
      · exact quiet_bodyHead A s sector_num delay_ms st (by omega) e h
      · exact quiet_populate_soft A s sector_num delay_ms st (by omega) e h

/-- The events of the copy loop: events after which the loop goes on, then
the event that made it stop, if any. -/
theorem commit_loop_events {W : Type} (A : BlockLayer W) (s : CommitBlockJob) (end_ : Int)
    (fuel : Nat) (sec d : Int) (st : RunState W) (ex : LoopExit) (sec1 : Int)
    (st1 : RunState W) (h : commit_loop A s end_ fuel sec d st = some (ex, sec1, st1)) :
    ∃ q t, st1.trace = st.trace ++ (q ++ t) ∧ (∀ e ∈ q, e.quiet s.on_error = true) ∧
      LoopTail A s ex st1 t := by
  refine commit_loop_rule A s end_
    (fun _ _ st2 => ∃ q, st2.trace = st.trace ++ q ∧ ∀ e ∈ q, e.quiet s.on_error = true)
    (fun ex2 _ st2 => ∃ q t, st2.trace = st.trace ++ (q ++ t) ∧
      (∀ e ∈ q, e.quiet s.on_error = true) ∧ LoopTail A s ex2 st2 t)
    ?_ ?_ ?_ ?_ fuel sec d st ⟨[], by simp, by simp⟩ ex sec1 st1 h
  · intro sec d st2 d1 st3 ⟨q, hq, hqq⟩ hb
    obtain ⟨q2, t2, h1, h2, h3⟩ := commit_body_events A s sec d st2
    rw [hb] at h1 h3
    simp only [BodyResult.state] at h1
    simp only at h3
    subst h3
    refine ⟨q ++ q2, by rw [h1, hq]; simp, ?_⟩
    intro e he
    rcases List.mem_append.mp he with h | h
    · exact hqq e h
    · exact h2 e h
  · intro sec d st2 st3 ⟨q, hq, hqq⟩ hb
    obtain ⟨q2, t2, h1, h2, h3⟩ := commit_body_events A s sec d st2
    rw [hb] at h1 h3
    simp only [BodyResult.state] at h1
    refine ⟨q ++ q2, t2, by rw [h1, hq]; simp, ?_, h3⟩
    intro e he
    rcases List.mem_append.mp he with h | h
    · exact hqq e h
    · exact h2 e h
  · intro sec d st2 ret st3 ⟨q, hq, hqq⟩ hb
    obtain ⟨q2, t2, h1, h2, h3⟩ := commit_body_events A s sec d st2
    rw [hb] at h1 h3
    simp only [BodyResult.state] at h1
    refine ⟨q ++ q2, t2, by rw [h1, hq]; simp, ?_, h3⟩
    intro e he
    rcases List.mem_append.mp he with h | h
    · exact hqq e h
    · exact h2 e h
  · intro sec d st2 st3 ⟨q, hq, hqq⟩ hb
    obtain ⟨q2, t2, h1, h2, h3⟩ := commit_body_events A s sec d st2
    rw [hb] at h1 h3
    simp only [BodyResult.state] at h1
    simp only at h3
    subst h3
    have hq3 : ∀ e ∈ q ++ q2, e.quiet s.on_error = true := by
      intro e he
      rcases List.mem_append.mp he with h | h
      · exact hqq e h
      · exact h2 e h
    exact ⟨fun _ => ⟨q ++ q2, by rw [h1, hq]; simp, hq3⟩,
      fun _ => ⟨q ++ q2, [], by rw [h1, hq]; simp, hq3, rfl⟩⟩

theorem commit_walk_events {W : Type} (A : BlockLayer W) (s : CommitBlockJob) (fuel : Nat)
    (st : RunState W) (cr : CopyResult W) (h : commit_walk A s fuel st = some cr) :
    ∃ ov end_ ex sec st1, cr = CopyResult.loop_left ov end_ ex sec st1 ∧
      ov = A.bdrv_find_overlay s.active s.top st.w ∧ end_ = st.len / BDRV_SECTOR_SIZE ∧
      ∃ q t, st1.trace = st.trace ++ (q ++ t) ∧ (∀ e ∈ q, e.quiet s.on_error = true) ∧
        LoopTail A s ex st1 t := by
  unfold commit_walk at h
  by_cases h0 : 0 < st.len / BDRV_SECTOR_SIZE
  · simp only [h0, if_true] at h
    cases hl : commit_loop A s (st.len / BDRV_SECTOR_SIZE) fuel 0 0 st with
    | none => rw [hl] at h; simp at h
    | some r =>
      obtain ⟨ex, sec, st1⟩ := r
      rw [hl] at h
      simp only [Option.some.injEq] at h
      exact ⟨_, _, ex, sec, st1, h.symm, rfl, rfl, commit_loop_events A s _ fuel 0 0 st ex sec st1 hl⟩
  · simp only [h0, if_false, Option.some.injEq] at h
    exact ⟨_, _, LoopExit.finished, 0, st, h.symm, rfl, rfl, [], [], by simp, by simp, rfl⟩

/-- The events of lines 103 to 167. -/
theorem commit_copy_events {W : Type} (A : BlockLayer W) (s : CommitBlockJob) (fuel : Nat)
    (st : RunState W) (cr : CopyResult W) (h : commit_copy A s fuel st = some cr) :
    (∃ ret st1, cr = CopyResult.early ret st1 ∧
      ∃ q, st1.trace = st.trace ++ q ∧ ∀ e ∈ q, e.quiet s.on_error = true) ∨
    (∃ ov end_ ex sec st1, cr = CopyResult.loop_left ov end_ ex sec st1 ∧
      (∃ w, ov = A.bdrv_find_overlay s.active s.top w) ∧
      ∃ q t, st1.trace = st.trace ++ (q ++ t) ∧ (∀ e ∈ q, e.quiet s.on_error = true) ∧
        LoopTail A s ex st1 t) := by
  have key : ∀ (st3 : RunState W) (q0 : List Event), st3.trace = st.trace ++ q0 →
      (∀ e ∈ q0, e.quiet s.on_error = true) → commit_walk A s fuel st3 = some cr →
      ∃ ov end_ ex sec st1, cr = CopyResult.loop_left ov end_ ex sec st1 ∧
      (∃ w, ov = A.bdrv_find_overlay s.active s.top w) ∧
      ∃ q t, st1.trace = st.trace ++ (q ++ t) ∧ (∀ e ∈ q, e.quiet s.on_error = true) ∧
        LoopTail A s ex st1 t := by
    intro st3 q0 h0 hq0 hw
    obtain ⟨ov, end_, ex, sec, st1, h1, h2, _, q, t, h4, h5, h6⟩ :=
      commit_walk_events A s fuel st3 cr hw
    refine ⟨ov, end_, ex, sec, st1, h1, ⟨_, h2⟩, q0 ++ q, t, by rw [h4, h0]; simp, ?_, h6⟩
    intro e he
    rcases List.mem_append.mp he with h | h
    · exact hq0 e h
    · exact h5 e h
  unfold commit_copy at h
  simp only [RunState.log] at h
  by_cases h1 : (A.bdrv_getlength s.top st.w).1 < 0
  · simp only [h1, if_true, Option.some.injEq] at h
    exact Or.inl ⟨_, _, h.symm, _, rfl, by simp [Event.quiet]⟩
  simp only [h1, if_false] at h
  by_cases h2 : (A.bdrv_getlength s.base (A.bdrv_getlength s.top st.w).2).1 < 0
  · simp only [h2, if_true, Option.some.injEq] at h
    exact Or.inl ⟨_, _, h.symm, _, by simp only [List.append_assoc]; rfl, by simp [Event.quiet]⟩
  simp only [h2, if_false] at h
  by_cases h3 : (A.bdrv_getlength s.base (A.bdrv_getlength s.top st.w).2).1 <
      (A.bdrv_getlength s.top st.w).1
  · simp only [h3, if_true] at h
    by_cases h4 : (A.bdrv_truncate s.base (A.bdrv_getlength s.top st.w).1
        (A.bdrv_getlength s.base (A.bdrv_getlength s.top st.w).2).2).1 = 0
    · simp only [h4, ne_eq, not_true_eq_false, if_false] at h
      exact Or.inr (key _ _ (by simp only [List.append_assoc]; rfl) (by simp [Event.quiet]) h)
    · simp only [h4, ne_eq, not_false_eq_true, if_true, Option.some.injEq] at h
      exact Or.inl ⟨_, _, h.symm, _, by simp only [List.append_assoc]; rfl,
        by simp [Event.quiet]⟩
  · simp only [h3, if_false] at h
    exact Or.inr (key _ _ (by simp only [List.append_assoc]; rfl) (by simp [Event.quiet]) h)

/-- The end of `commit_run` when `bdrv_drop_intermediate` is not called. -/
theorem commit_finish_no_drop {W : Type} (A : BlockLayer W) (s : CommitBlockJob)
    (ov : Option Nat) (end_ : Int) (ex : LoopExit) (sec : Int) (st : RunState W)
    (hex : ∀ ret, ex ≠ LoopExit.error ret)
    (hc : A.block_job_is_cancelled st.w = true ∨ sec ≠ end_) :
    ∃ td, (commit_finish A s ov end_ ex sec st).st.trace =
        st.trace ++ (Event.is_cancelled (A.block_job_is_cancelled st.w) :: td) ∧
      Teardown ov 0 (commit_finish A s ov end_ ex sec st).terminal td := by
  have hcond : ¬ (¬ A.block_job_is_cancelled st.w = true ∧ sec = end_) := by
    rintro ⟨h1, h2⟩
    rcases hc with h | h
    · exact h1 h
    · exact h h2
  have hfin : commit_finish A s ov end_ ex sec st =
      exit_restore_reopen A s ov 0
        (st.log (Event.is_cancelled (A.block_job_is_cancelled st.w))) := by
    cases ex with
    | error ret => exact absurd rfl (hex ret)
    | cancelled => simp only [commit_finish, RunState.log, hcond, if_false]
    | finished => simp only [commit_finish, RunState.log, hcond, if_false]
  obtain ⟨td, h1, h2⟩ := exit_restore_reopen_trace A s ov 0
    (st.log (Event.is_cancelled (A.block_job_is_cancelled st.w)))
  rw [hfin]
  exact ⟨td, by rw [h1]; simp [RunState.log], h2⟩

/-- The end of `commit_run` when `bdrv_drop_intermediate` is called. -/
theorem commit_finish_drop {W : Type} (A : BlockLayer W) (s : CommitBlockJob)
    (ov : Option Nat) (end_ : Int) (ex : LoopExit) (sec : Int) (st : RunState W)
    (hex : ∀ ret, ex ≠ LoopExit.error ret)
    (hc : A.block_job_is_cancelled st.w = false) (hsec : sec = end_) :
    ∃ td, (commit_finish A s ov end_ ex sec st).st.trace =
        st.trace ++ (Event.is_cancelled false ::
          Event.drop_intermediate s.active s.top s.base
            (A.bdrv_drop_intermediate s.active s.top s.base st.w).1 :: td) ∧
      Teardown ov (A.bdrv_drop_intermediate s.active s.top s.base st.w).1
        (commit_finish A s ov end_ ex sec st).terminal td ∧
      (commit_finish A s ov end_ ex sec st) = exit_restore_reopen A s ov
        (A.bdrv_drop_intermediate s.active s.top s.base st.w).1
        { st with
          w := (A.bdrv_drop_intermediate s.active s.top s.base st.w).2
          trace := st.trace ++ [Event.is_cancelled false,
            Event.drop_intermediate s.active s.top s.base
              (A.bdrv_drop_intermediate s.active s.top s.base st.w).1] } := by
  have hfin : commit_finish A s ov end_ ex sec st =
      exit_restore_reopen A s ov (A.bdrv_drop_intermediate s.active s.top s.base st.w).1
        { st with
          w := (A.bdrv_drop_intermediate s.active s.top s.base st.w).2
          trace := st.trace ++ [Event.is_cancelled false,
            Event.drop_intermediate s.active s.top s.base
              (A.bdrv_drop_intermediate s.active s.top s.base st.w).1] } := by
    cases ex with
    | error ret => exact absurd rfl (hex ret)
    | cancelled => simp [commit_finish, RunState.log, hc, hsec]
    | finished => simp [commit_finish, RunState.log, hc, hsec]
  obtain ⟨td, h1, h2⟩ := exit_restore_reopen_trace A s ov
    (A.bdrv_drop_intermediate s.active s.top s.base st.w).1
    { st with
      w := (A.bdrv_drop_intermediate s.active s.top s.base st.w).2
      trace := st.trace ++ [Event.is_cancelled false,
        Event.drop_intermediate s.active s.top s.base
          (A.bdrv_drop_intermediate s.active s.top s.base st.w).1] }
  rw [hfin]
  exact ⟨td, by rw [h1]; simp, h2, rfl⟩

/-- The run of `commit_run` in terms of lines 103 to 167 and the end. -/
theorem commit_run_cases {W : Type} (A : BlockLayer W) (s : CommitBlockJob) (fuel : Nat)
    (st : RunState W) (res : RunResult W) (h : commit_run A s fuel st = some res) :
    (∃ ret st1, commit_copy A s fuel st = some (CopyResult.early ret st1) ∧
      res = exit_restore_reopen A s none ret st1) ∨
    (∃ ov end_ ex sec st1, commit_copy A s fuel st = some (CopyResult.loop_left ov end_ ex sec st1) ∧
      res = commit_finish A s ov end_ ex sec st1) := by
  unfold commit_run at h
  cases hc : commit_copy A s fuel st with
  | none => rw [hc] at h; simp at h
  | some cr =>
    rw [hc] at h
    cases cr with
    | early ret st1 =>
      simp only [Option.some.injEq] at h
      exact Or.inl ⟨ret, st1, rfl, h.symm⟩
    | loop_left ov end_ ex sec st1 =>
      simp only [Option.some.injEq] at h
      exact Or.inr ⟨ov, end_, ex, sec, st1, rfl, h.symm⟩

/-- The shape of the trace of a run of `commit_run`: events after which the
run goes on, then one of the endings of `RunTail`. -/
theorem commit_run_shape {W : Type} (A : BlockLayer W) (s : CommitBlockJob) (fuel : Nat)
    (st : RunState W) (res : RunResult W) (h : commit_run A s fuel st = some res) :
    ∃ q t, res.st.trace = st.trace ++ (q ++ t) ∧ (∀ e ∈ q, e.quiet s.on_error = true) ∧
      RunTail A s res.terminal t := by
  rcases commit_run_cases A s fuel st res h with ⟨ret, st1, hc, rfl⟩ | ⟨ov, end_, ex, sec, st1, hc, rfl⟩
  · rcases commit_copy_events A s fuel st _ hc with ⟨ret2, st2, he, q, hq1, hq2⟩ | ⟨_, _, _, _, _, he, _⟩
    · cases he
      obtain ⟨td, h1, h2⟩ := exit_restore_reopen_trace A s none ret st1
      exact ⟨q, td, by rw [h1, hq1]; simp, hq2, RunTail.early ret td h2⟩
    · cases he
  · rcases commit_copy_events A s fuel st _ hc with ⟨_, _, he, _⟩ |
      ⟨ov2, end2, ex2, sec2, st2, he, ⟨w, hw⟩, q, t, hq1, hq2, hq3⟩
    · cases he
    · cases he
      subst hw
      cases ex with
      | error ret =>
        obtain ⟨ev, rfl, hev, hio, hneg⟩ := hq3
        obtain ⟨td, h1, h2⟩ := exit_restore_reopen_trace A s
          (A.bdrv_find_overlay s.active s.top w) ret st1
        refine ⟨q, ev :: td, ?_, hq2, RunTail.stopped w ev ret td hev hio hneg h2⟩
        simp only [commit_finish]
        rw [h1, hq1]
        simp
      | cancelled =>
        obtain ⟨rfl, hcan⟩ := hq3
        obtain ⟨td, h1, h2⟩ := commit_finish_no_drop A s (A.bdrv_find_overlay s.active s.top w)
          end_ LoopExit.cancelled sec st1 (by intro r; simp) (Or.inl hcan)
        refine ⟨q, _, ?_, hq2, RunTail.cancelled w td h2⟩
        rw [h1, hq1, hcan]
        simp
      | finished =>
        simp only [LoopTail] at hq3
        subst hq3
        by_cases hcan : A.block_job_is_cancelled st1.w = true
        · obtain ⟨td, h1, h2⟩ := commit_finish_no_drop A s (A.bdrv_find_overlay s.active s.top w)
            end_ LoopExit.finished sec st1 (by intro r; simp) (Or.inl hcan)
          refine ⟨q, _, ?_, hq2, RunTail.cancelled_late w td h2⟩
          rw [h1, hq1, hcan]
          simp
        · have hcan0 : A.block_job_is_cancelled st1.w = false := by simpa using hcan
          by_cases hsec : sec = end_
          · obtain ⟨td, h1, h2, _⟩ := commit_finish_drop A s
              (A.bdrv_find_overlay s.active s.top w) end_ LoopExit.finished sec st1
              (by intro r; simp) hcan0 hsec
            refine ⟨q, _, ?_, hq2, RunTail.dropped w _ td h2⟩
            rw [h1, hq1]
            simp
          · obtain ⟨td, h1, h2⟩ := commit_finish_no_drop A s
              (A.bdrv_find_overlay s.active s.top w) end_ LoopExit.finished sec st1
              (by intro r; simp) (Or.inr hsec)
            refine ⟨q, _, ?_, hq2, RunTail.overshoot w td h2⟩
            rw [h1, hq1, hcan0]
            simp

/-- The calls of one pass through the loop body, with the world they leave. -/
theorem commit_body_ops {W : Type} (A : BlockLayer W) (s : CommitBlockJob)
    (sec d : Int) (st : RunState W) :
    ((commit_body A s sec d st).state.w = bodySleep A d st ∧
      A.block_job_is_cancelled (bodySleep A d st) = true ∧
      (commit_body A s sec d st).state.trace =
        st.trace ++ [Event.sleep (toInt64 d), Event.is_cancelled true]) ∨
    ((commit_body A s sec d st).state.w = (bodyQuery A s sec d st).2 ∧
      (commit_body A s sec d st).state.trace = st.trace ++ bodyHead A s sec d st) ∨
    ((commit_body A s sec d st).state.w =
        (A.bdrv_read s.top sec (bodyQuery A s sec d st).1.2 (bodyQuery A s sec d st).2).2 ∧
      (bodyQuery A s sec d st).1.1 = 1 ∧
      (A.bdrv_read s.top sec (bodyQuery A s sec d st).1.2 (bodyQuery A s sec d st).2).1.1 ≠ 0 ∧
      (commit_body A s sec d st).state.trace = st.trace ++ (bodyHead A s sec d st ++
        [Event.read s.top sec (bodyQuery A s sec d st).1.2
          (A.bdrv_read s.top sec (bodyQuery A s sec d st).1.2 (bodyQuery A s sec d st).2).1.1])) ∨
    ((commit_body A s sec d st).state.w =
        (A.bdrv_write s.base sec
          (A.bdrv_read s.top sec (bodyQuery A s sec d st).1.2 (bodyQuery A s sec d st).2).1.2
          (bodyQuery A s sec d st).1.2
          (A.bdrv_read s.top sec (bodyQuery A s sec d st).1.2 (bodyQuery A s sec d st).2).2).2 ∧
      (bodyQuery A s sec d st).1.1 = 1 ∧
      (A.bdrv_read s.top sec (bodyQuery A s sec d st).1.2 (bodyQuery A s sec d st).2).1.1 = 0 ∧
      (commit_body A s sec d st).state.trace = st.trace ++ (bodyHead A s sec d st ++
        [Event.read s.top sec (bodyQuery A s sec d st).1.2 0,
         Event.write s.base sec (bodyQuery A s sec d st).1.2
          (A.bdrv_write s.base sec
            (A.bdrv_read s.top sec (bodyQuery A s sec d st).1.2 (bodyQuery A s sec d st).2).1.2
            (bodyQuery A s sec d st).1.2
            (A.bdrv_read s.top sec (bodyQuery A s sec d st).1.2
              (bodyQuery A s sec d st).2).2).1])) := by
  have hpop : ∀ st1 : RunState W, st1.w = (bodyPopulate A s sec d st).2.1 →
      st1.trace = st.trace ++ (bodyHead A s sec d st ++ (bodyPopulate A s sec d st).2.2) →
      (bodyQuery A s sec d st).1.1 = 1 →
      (st1.w =
        (A.bdrv_read s.top sec (bodyQuery A s sec d st).1.2 (bodyQuery A s sec d st).2).2 ∧
      (bodyQuery A s sec d st).1.1 = 1 ∧
      (A.bdrv_read s.top sec (bodyQuery A s sec d st).1.2 (bodyQuery A s sec d st).2).1.1 ≠ 0 ∧
      st1.trace = st.trace ++ (bodyHead A s sec d st ++
        [Event.read s.top sec (bodyQuery A s sec d st).1.2
          (A.bdrv_read s.top sec (bodyQuery A s sec d st).1.2 (bodyQuery A s sec d st).2).1.1])) ∨
      (st1.w =
        (A.bdrv_write s.base sec
          (A.bdrv_read s.top sec (bodyQuery A s sec d st).1.2 (bodyQuery A s sec d st).2).1.2
          (bodyQuery A s sec d st).1.2
          (A.bdrv_read s.top sec (bodyQuery A s sec d st).1.2 (bodyQuery A s sec d st).2).2).2 ∧
      (bodyQuery A s sec d st).1.1 = 1 ∧
      (A.bdrv_read s.top sec (bodyQuery A s sec d st).1.2 (bodyQuery A s sec d st).2).1.1 = 0 ∧
      st1.trace = st.trace ++ (bodyHead A s sec d st ++
        [Event.read s.top sec (bodyQuery A s sec d st).1.2 0,
         Event.write s.base sec (bodyQuery A s sec d st).1.2
          (A.bdrv_write s.base sec
            (A.bdrv_read s.top sec (bodyQuery A s sec d st).1.2 (bodyQuery A s sec d st).2).1.2
            (bodyQuery A s sec d st).1.2
            (A.bdrv_read s.top sec (bodyQuery A s sec d st).1.2
              (bodyQuery A s sec d st).2).2).1])) := by
    intro st1 hw ht hq
    unfold bodyPopulate at hw ht
    rcases commit_populate_cases A s.top s.base sec (bodyQuery A s sec d st).1.2
      (bodyQuery A s sec d st).2 with ⟨h1, h2⟩ | ⟨h1, h2⟩
    · left
      rw [h2] at hw ht
      exact ⟨hw, hq, h1, ht⟩
    · right
      rw [h2] at hw ht
      exact ⟨hw, hq, h1, ht⟩
  have hspec := commit_body_spec A s sec d st
  generalize commit_body A s sec d st = r at hspec
  cases hspec with
  | cancelled st1 hc hp => exact Or.inl ⟨hp.w_eq, hc, hp.trace_eq⟩
  | wait st1 hc hq hs hd hp => exact Or.inr (Or.inl ⟨hp.w_eq, hp.trace_eq⟩)
  | query_stop st1 hc hq hs hp => exact Or.inr (Or.inl ⟨hp.w_eq, hp.trace_eq⟩)
  | query_retry st1 hc hq hs hp => exact Or.inr (Or.inl ⟨hp.w_eq, hp.trace_eq⟩)
  | skip st1 hc hq hq0 hp => exact Or.inr (Or.inl ⟨hp.w_eq, hp.trace_eq⟩)
  | copy_stop st1 hc hq hd hr hs hp => exact Or.inr (Or.inr (hpop st1 hp.w_eq hp.trace_eq hq))
  | copy_retry st1 hc hq hd hr hs hp => exact Or.inr (Or.inr (hpop st1 hp.w_eq hp.trace_eq hq))
  | copy_done st1 hc hq hd hr hp => exact Or.inr (Or.inr (hpop st1 hp.w_eq hp.trace_eq hq))

/-- A relation between a list of events and the worlds before and after them
that holds of the empty list, of a concatenation, of every pass through the
loop body and of every other call of `commit_run`, holds of every run. -/
theorem commit_run_rel {W : Type} (A : BlockLayer W) (s : CommitBlockJob)
    (R : List Event → W → W → Prop)
    (hrefl : ∀ w, R [] w w)
    (htrans : ∀ a b w1 w2 w3, R a w1 w2 → R b w2 w3 → R (a ++ b) w1 w3)
    (hbody : ∀ sec d (st : RunState W), ∃ evs,
      (commit_body A s sec d st).state.trace = st.trace ++ evs ∧
      R evs st.w (commit_body A s sec d st).state.w)
    (hlen : ∀ bs w, R [Event.getlength bs (A.bdrv_getlength bs w).1] w (A.bdrv_getlength bs w).2)
    (htrunc : ∀ len w, R [Event.truncate s.base len (A.bdrv_truncate s.base len w).1] w
      (A.bdrv_truncate s.base len w).2)
    (hcanc : ∀ w, R [Event.is_cancelled (A.block_job_is_cancelled w)] w w)
    (hdrop : ∀ w, R [Event.drop_intermediate s.active s.top s.base
      (A.bdrv_drop_intermediate s.active s.top s.base w).1] w
      (A.bdrv_drop_intermediate s.active s.top s.base w).2)
    (hreopen : ∀ bs f w, R [Event.reopen bs f] w (A.bdrv_reopen bs f w))
    (hcomplete : ∀ ret w, R [Event.complete ret] w (A.block_job_complete ret w))
    (fuel : Nat) (st : RunState W) (res : RunResult W)
    (h : commit_run A s fuel st = some res) :
    ∃ added, res.st.trace = st.trace ++ added ∧ R added st.w res.st.w := by
  -- the loop
  have hloop : ∀ end_ fuel sec d (st0 : RunState W) ex sec1 st1,
      commit_loop A s end_ fuel sec d st0 = some (ex, sec1, st1) →
      ∃ added, st1.trace = st0.trace ++ added ∧ R added st0.w st1.w := by
    intro end_ fuel sec d st0 ex sec1 st1 hl
    have step : ∀ sec d (st2 : RunState W),
        (∃ a, st2.trace = st0.trace ++ a ∧ R a st0.w st2.w) →
        ∃ a, (commit_body A s sec d st2).state.trace = st0.trace ++ a ∧
          R a st0.w (commit_body A s sec d st2).state.w := by
      intro sec d st2 ⟨a, ha1, ha2⟩
      obtain ⟨evs, he1, he2⟩ := hbody sec d st2
      exact ⟨a ++ evs, by rw [he1, ha1]; simp, htrans _ _ _ _ _ ha2 he2⟩
    refine commit_loop_rule A s end_
      (fun _ _ st2 => ∃ a, st2.trace = st0.trace ++ a ∧ R a st0.w st2.w)
      (fun _ _ st2 => ∃ a, st2.trace = st0.trace ++ a ∧ R a st0.w st2.w)
      ?_ ?_ ?_ ?_ fuel sec d st0 ⟨[], by simp, hrefl _⟩ ex sec1 st1 hl
    · intro sec d st2 d1 st3 hP hb
      have := step sec d st2 hP
      rw [hb] at this
      exact this
    · intro sec d st2 st3 hP hb
      have := step sec d st2 hP
      rw [hb] at this
      exact this
    · intro sec d st2 ret st3 hP hb
      have := step sec d st2 hP
      rw [hb] at this
      exact this
    · intro sec d st2 st3 hP hb
      have := step sec d st2 hP
      rw [hb] at this
      exact ⟨fun _ => this, fun _ => this⟩
  -- the teardown
  have hrest : ∀ bs f (st0 : RunState W),
      ∃ a, (restore_flags A bs f st0).trace = st0.trace ++ a ∧
        R a st0.w (restore_flags A bs f st0).w := by
    intro bs f st0
    unfold restore_flags
    split_ifs
    · exact ⟨_, rfl, hreopen _ _ _⟩
    · exact ⟨[], by simp, hrefl _⟩
  have htear : ∀ ov ret (st0 : RunState W),
      ∃ added, (exit_restore_reopen A s ov ret st0).st.trace = st0.trace ++ added ∧
        R added st0.w (exit_restore_reopen A s ov ret st0).st.w := by
    intro ov ret st0
    obtain ⟨a, ha1, ha2⟩ := hrest s.base s.base_flags st0
    cases ov with
    | none => exact ⟨a, ha1, ha2⟩
    | some o =>
      obtain ⟨b, hb1, hb2⟩ := hrest o s.orig_overlay_flags
        (restore_flags A s.base s.base_flags st0)
      refine ⟨a ++ (b ++ [Event.complete ret]), ?_, ?_⟩
      · simp only [exit_restore_reopen, RunState.log]
        rw [hb1, ha1]
        simp
      · exact htrans _ _ _ _ _ ha2 (htrans _ _ _ _ _ hb2 (hcomplete _ _))
  -- the end of the function
  have hfin : ∀ ov end_ ex sec (st0 : RunState W),
      ∃ added, (commit_finish A s ov end_ ex sec st0).st.trace = st0.trace ++ added ∧
        R added st0.w (commit_finish A s ov end_ ex sec st0).st.w := by
    intro ov end_ ex sec st0
    have hnd : ∃ added, (exit_restore_reopen A s ov 0
          (st0.log (Event.is_cancelled (A.block_job_is_cancelled st0.w)))).st.trace =
          st0.trace ++ added ∧
        R added st0.w (exit_restore_reopen A s ov 0
          (st0.log (Event.is_cancelled (A.block_job_is_cancelled st0.w)))).st.w := by
      obtain ⟨a, ha1, ha2⟩ := htear ov 0
        (st0.log (Event.is_cancelled (A.block_job_is_cancelled st0.w)))
      exact ⟨[Event.is_cancelled (A.block_job_is_cancelled st0.w)] ++ a,
        by rw [ha1]; simp [RunState.log], htrans _ _ _ _ _ (hcanc _) ha2⟩
    have hd : ∃ added, (exit_restore_reopen A s ov
          (A.bdrv_drop_intermediate s.active s.top s.base st0.w).1
          ({ st0.log (Event.is_cancelled (A.block_job_is_cancelled st0.w)) with
              w := (A.bdrv_drop_intermediate s.active s.top s.base st0.w).2 }.log
            (Event.drop_intermediate s.active s.top s.base
              (A.bdrv_drop_intermediate s.active s.top s.base st0.w).1))).st.trace =
          st0.trace ++ added ∧
        R added st0.w (exit_restore_reopen A s ov
          (A.bdrv_drop_intermediate s.active s.top s.base st0.w).1
          ({ st0.log (Event.is_cancelled (A.block_job_is_cancelled st0.w)) with
              w := (A.bdrv_drop_intermediate s.active s.top s.base st0.w).2 }.log
            (Event.drop_intermediate s.active s.top s.base
              (A.bdrv_drop_intermediate s.active s.top s.base st0.w).1))).st.w := by
      obtain ⟨a, ha1, ha2⟩ := htear ov (A.bdrv_drop_intermediate s.active s.top s.base st0.w).1
          ({ st0.log (Event.is_cancelled (A.block_job_is_cancelled st0.w)) with
              w := (A.bdrv_drop_intermediate s.active s.top s.base st0.w).2 }.log
            (Event.drop_intermediate s.active s.top s.base
              (A.bdrv_drop_intermediate s.active s.top s.base st0.w).1))
      exact ⟨[Event.is_cancelled (A.block_job_is_cancelled st0.w)] ++
          ([Event.drop_intermediate s.active s.top s.base
            (A.bdrv_drop_intermediate s.active s.top s.base st0.w).1] ++ a),
        by rw [ha1]; simp [RunState.log],
        htrans _ _ _ _ _ (hcanc _) (htrans _ _ _ _ _ (hdrop _) ha2)⟩
    cases ex with
    | error ret => exact htear ov ret st0
    | cancelled =>
      simp only [commit_finish]
      split_ifs
      · exact hd
      · exact hnd
    | finished =>
      simp only [commit_finish]
      split_ifs
      · exact hd
      · exact hnd
  -- lines 122 to 167
  have hwalk : ∀ (st0 : RunState W) cr, commit_walk A s fuel st0 = some cr →
      ∃ ov end_ ex sec st1, cr = CopyResult.loop_left ov end_ ex sec st1 ∧
        ∃ added, st1.trace = st0.trace ++ added ∧ R added st0.w st1.w := by
    intro st0 cr hw
    unfold commit_walk at hw
    by_cases h0 : 0 < st0.len / BDRV_SECTOR_SIZE
    · simp only [h0, if_true] at hw
      cases hl : commit_loop A s (st0.len / BDRV_SECTOR_SIZE) fuel 0 0 st0 with
      | none => rw [hl] at hw; simp at hw
      | some r =>
        obtain ⟨ex, sec, st1⟩ := r
        rw [hl] at hw
        simp only [Option.some.injEq] at hw
        exact ⟨_, _, ex, sec, st1, hw.symm, hloop _ fuel 0 0 st0 ex sec st1 hl⟩
    · simp only [h0, if_false, Option.some.injEq] at hw
      exact ⟨_, _, LoopExit.finished, 0, st0, hw.symm, [], by simp, hrefl _⟩
  -- the whole function
  have hcopy : ∀ cr, commit_copy A s fuel st = some cr →
      (∃ ret st1, cr = CopyResult.early ret st1 ∧
        ∃ added, st1.trace = st.trace ++ added ∧ R added st.w st1.w) ∨
      (∃ ov end_ ex sec st1, cr = CopyResult.loop_left ov end_ ex sec st1 ∧
        ∃ added, st1.trace = st.trace ++ added ∧ R added st.w st1.w) := by
    intro cr hc
    unfold commit_copy at hc
    simp only [RunState.log] at hc
    have key : ∀ (st3 : RunState W) (a0 : List Event), st3.trace = st.trace ++ a0 →
        R a0 st.w st3.w → commit_walk A s fuel st3 = some cr →
        ∃ ov end_ ex sec st1, cr = CopyResult.loop_left ov end_ ex sec st1 ∧
          ∃ added, st1.trace = st.trace ++ added ∧ R added st.w st1.w := by
      intro st3 a0 h0 hR hw
      obtain ⟨ov, end_, ex, sec, st1, h1, a, h2, h3⟩ := hwalk st3 cr hw
      exact ⟨ov, end_, ex, sec, st1, h1, a0 ++ a, by rw [h2, h0]; simp,
        htrans _ _ _ _ _ hR h3⟩
    by_cases h1 : (A.bdrv_getlength s.top st.w).1 < 0
    · simp only [h1, if_true, Option.some.injEq] at hc
      exact Or.inl ⟨_, _, hc.symm, _, rfl, hlen _ _⟩
    simp only [h1, if_false] at hc
    by_cases h2 : (A.bdrv_getlength s.base (A.bdrv_getlength s.top st.w).2).1 < 0
    · simp only [h2, if_true, Option.some.injEq] at hc
      exact Or.inl ⟨_, _, hc.symm, _, by simp,
        htrans _ _ _ _ _ (hlen _ _) (hlen _ _)⟩
    simp only [h2, if_false] at hc
    by_cases h3 : (A.bdrv_getlength s.base (A.bdrv_getlength s.top st.w).2).1 <
        (A.bdrv_getlength s.top st.w).1
    · simp only [h3, if_true] at hc
      by_cases h4 : (A.bdrv_truncate s.base (A.bdrv_getlength s.top st.w).1
          (A.bdrv_getlength s.base (A.bdrv_getlength s.top st.w).2).2).1 = 0
      · rw [if_neg (not_not.mpr h4)] at hc
        exact Or.inr (key _ _ (by simp)
          (htrans _ _ _ _ _ (hlen _ _) (htrans _ _ _ _ _ (hlen _ _) (htrunc _ _))) hc)
      · rw [if_pos h4] at hc
        simp only [Option.some.injEq] at hc
        exact Or.inl ⟨_, _, hc.symm, _, by simp,
          htrans _ _ _ _ _ (hlen _ _) (htrans _ _ _ _ _ (hlen _ _) (htrunc _ _))⟩
    · simp only [h3, if_false] at hc
      exact Or.inr (key _ _ (by simp)
        (htrans _ _ _ _ _ (hlen _ _) (hlen _ _)) hc)
  rcases commit_run_cases A s fuel st res h with ⟨ret, st1, hc, rfl⟩ |
    ⟨ov, end_, ex, sec, st1, hc, rfl⟩
  · rcases hcopy _ hc with ⟨_, _, he, a, ha1, ha2⟩ | ⟨_, _, _, _, _, he, _⟩
    · cases he
      obtain ⟨b, hb1, hb2⟩ := htear none ret st1
      exact ⟨a ++ b, by rw [hb1, ha1]; simp, htrans _ _ _ _ _ ha2 hb2⟩
    · cases he
  · rcases hcopy _ hc with ⟨_, _, he, _⟩ | ⟨_, _, _, _, _, he, a, ha1, ha2⟩
    · cases he
    · cases he
      obtain ⟨b, hb1, hb2⟩ := hfin ov end_ ex sec st1
      exact ⟨a ++ b, by rw [hb1, ha1]; simp, htrans _ _ _ _ _ ha2 hb2⟩

/-! ## Where an event stands in the trace -/

theorem split_in_tail {α : Type} {p : α → Prop} {q t pre post : List α} {x : α}
    (hq : ∀ e ∈ q, ¬ p e) (hx : p x) (h : q ++ t = pre ++ x :: post) :
    ∃ m, pre = q ++ m ∧ t = m ++ x :: post := by
  rcases List.append_eq_append_iff.mp h with ⟨a, h1, h2⟩ | ⟨c, h1, h2⟩
  · exact ⟨a, h1, h2⟩
  · cases c with
    | nil => exact ⟨[], by simpa using h1.symm, by simpa using h2.symm⟩
    | cons y c =>
      simp only [List.cons_append, List.cons.injEq] at h2
      obtain ⟨rfl, _⟩ := h2
      exact absurd hx (hq x (by rw [h1]; simp))

theorem quiet_not_drop {oe : BlockErrorAction} {e : Event} (h : e.quiet oe = true) :
    e.isDrop = false := by
  cases e <;> simp_all [Event.quiet, Event.isDrop]

theorem stopCode_not_quiet {oe : BlockErrorAction} {e : Event} {ret : Int}
    (h : e.stopCode oe = some ret) : ¬ e.quiet oe = true := by
  cases e <;> simp only [Event.stopCode, reduceCtorEq] at h <;>
    (split_ifs at h with h1; simp [Event.quiet, h1.1, h1.2])

theorem stopCode_ret {oe : BlockErrorAction} {e : Event} {ret : Int}
    (h : e.stopCode oe = some ret) : e.isIO = true ∧ e.isDrop = false ∧ e.isTeardown = false := by
  cases e <;> simp_all [Event.stopCode, Event.isIO, Event.isDrop, Event.isTeardown]

theorem teardown_not_other (oe : BlockErrorAction) {e : Event} (h : e.isTeardown = true) :
    e.isDrop = false ∧ e.isIO = false ∧ e.stopCode oe = none ∧ e ≠ Event.is_cancelled true := by
  cases e <;> simp_all [Event.stopCode, Event.isIO, Event.isDrop, Event.isTeardown]

/-- With an overlay at hand the teardown ends with the completion callback. -/
theorem teardown_some {W : Type} {A : BlockLayer W} {s : CommitBlockJob}
    (hov : ∀ w, A.bdrv_find_overlay s.active s.top w ≠ none) {w : W} {ret : Int}
    {terminal : Terminal} {td : List Event}
    (h : Teardown (A.bdrv_find_overlay s.active s.top w) ret terminal td) :
    terminal = Terminal.completed ret ∧ ∃ td0, td = td0 ++ [Event.complete ret] := by
  cases ho : A.bdrv_find_overlay s.active s.top w with
  | none => exact absurd ho (hov w)
  | some o =>
    rw [ho] at h
    obtain ⟨h1, td0, h2, _⟩ := h
    exact ⟨h1, td0, h2⟩

/-- An allocation query, read or write that fails with a code on which the
policy stops is followed by the teardown only, and its code is the status of
the job. -/
theorem stop_event_ends_run {W : Type} (A : BlockLayer W) (s : CommitBlockJob) (fuel : Nat)
    (st : RunState W) (res : RunResult W)
    (hov : ∀ w, A.bdrv_find_overlay s.active s.top w ≠ none)
    (h : commit_run A s fuel st = some res) (pre post : List Event) (ev : Event) (e : Int)
    (htr : res.st.trace = st.trace ++ (pre ++ ev :: post))
    (hev : ev.stopCode s.on_error = some e) :
    res.terminal = Terminal.completed e ∧
      (∀ x ∈ pre ++ ev :: post, x.isDrop = false) ∧
      (∀ x ∈ post, x.isTeardown = true) ∧
      ∃ post0, post = post0 ++ [Event.complete e] := by
  obtain ⟨q, t, h1, hq, ht⟩ := commit_run_shape A s fuel st res h
  rw [h1] at htr
  have heq : q ++ t = pre ++ ev :: post := List.append_cancel_left htr
  obtain ⟨m, hm1, hm2⟩ := split_in_tail (p := fun x => ¬ x.quiet s.on_error = true)
    (fun x hx => not_not.mpr (hq x hx)) (stopCode_not_quiet hev) heq
  have hmem : ev ∈ t := by rw [hm2]; simp
  have contra : (∀ x ∈ t, x.stopCode s.on_error = none) → False := by
    intro hall
    rw [hall ev hmem] at hev
    cases hev
  cases ht with
  | early ret td htd =>
    exact (contra (fun x hx => (teardown_not_other s.on_error (teardown_isTeardown htd x hx)).2.2.1)).elim
  | stopped w ev0 ret td hev0 hio hneg htd =>
    have htdx : ∀ x ∈ td, x.isTeardown = true := teardown_isTeardown htd
    cases m with
    | nil =>
      simp only [List.nil_append, List.cons.injEq] at hm2
      obtain ⟨rfl, rfl⟩ := hm2
      rw [hev] at hev0
      cases hev0
      obtain ⟨hterm, td0, htd0⟩ := teardown_some hov htd
      refine ⟨hterm, ?_, htdx, td0, htd0⟩
      rw [← heq]
      intro x hx
      rcases List.mem_append.mp hx with hx | hx
      · exact quiet_not_drop (hq x hx)
      · rcases List.mem_cons.mp hx with rfl | hx
        · exact (stopCode_ret hev).2.1
        · exact (teardown_not_other s.on_error (htdx x hx)).1
    | cons y m =>
      simp only [List.cons_append, List.cons.injEq] at hm2
      have : ev ∈ td := by rw [hm2.2]; simp
      have h3 := (teardown_not_other s.on_error (htdx ev this)).2.2.1
      rw [h3] at hev
      cases hev
  | cancelled w td htd =>
    refine (contra ?_).elim
    intro x hx
    simp only [List.mem_cons] at hx
    rcases hx with rfl | rfl | hx
    · rfl
    · rfl
    · exact (teardown_not_other s.on_error (teardown_isTeardown htd x hx)).2.2.1
  | cancelled_late w td htd =>
    refine (contra ?_).elim
    intro x hx
    simp only [List.mem_cons] at hx
    rcases hx with rfl | hx
    · rfl
    · exact (teardown_not_other s.on_error (teardown_isTeardown htd x hx)).2.2.1
  | overshoot w td htd =>
    refine (contra ?_).elim
    intro x hx
    simp only [List.mem_cons] at hx
    rcases hx with rfl | hx
    · rfl
    · exact (teardown_not_other s.on_error (teardown_isTeardown htd x hx)).2.2.1
  | dropped w ret td htd =>
    refine (contra ?_).elim
    intro x hx
    simp only [List.mem_cons] at hx
    rcases hx with rfl | rfl | hx
    · rfl
    · rfl
    · exact (teardown_not_other s.on_error (teardown_isTeardown htd x hx)).2.2.1

/-! ## Writes and the content of Base -/

theorem writesJustified_of_no_write (s : CommitBlockJob) (l : List Event)
    (h : ∀ bs sec nb r, Event.write bs sec nb r ∉ l) : WritesJustified s l := by
  intro pre post bs sec nb r hl
  exact absurd (by rw [hl]; simp) (h bs sec nb r)

theorem writesJustified_append (s : CommitBlockJob) (a b : List Event)
    (ha : WritesJustified s a) (hb : WritesJustified s b) : WritesJustified s (a ++ b) := by
  intro pre post bs sec nb r hl
  rcases List.append_eq_append_iff.mp hl with ⟨m, h1, h2⟩ | ⟨m, h1, h2⟩
  · obtain ⟨hbs, pre0, hp⟩ := hb m post bs sec nb r h2
    exact ⟨hbs, a ++ pre0, by rw [h1, hp]; simp⟩
  · cases m with
    | nil =>
      simp only [List.nil_append] at h2
      obtain ⟨hbs, pre0, hp⟩ := hb [] post bs sec nb r h2.symm
      exact absurd hp (by simp)
    | cons y m =>
      simp only [List.cons_append, List.cons.injEq] at h2
      obtain ⟨rfl, _⟩ := h2
      exact ha pre m bs sec nb r h1

theorem writesJustified_copy (s : CommitBlockJob) (l : List Event) (sec nb r : Int)
    (h : ∀ bs sec nb r, Event.write bs sec nb r ∉ l) :
    WritesJustified s (l ++ [Event.is_allocated_above sec 1 nb, Event.read s.top sec nb 0,
      Event.write s.base sec nb r]) := by
  intro pre post bs sec1 nb1 r1 hl
  rcases List.append_eq_append_iff.mp hl with ⟨m, h1, h2⟩ | ⟨m, h1, h2⟩
  · rcases m with _ | ⟨y, _ | ⟨z, _ | ⟨u, m⟩⟩⟩
    · simp at h2
    · simp at h2
    · simp only [List.cons_append, List.nil_append, List.cons.injEq, Event.write.injEq] at h2
      obtain ⟨rfl, rfl, ⟨rfl, rfl, rfl, rfl⟩, _⟩ := h2
      exact ⟨rfl, l, h1⟩
    · simp at h2
  · cases m with
    | nil => simp at h2
    | cons y m =>
      simp only [List.cons_append, List.cons.injEq] at h2
      obtain ⟨rfl, _⟩ := h2
      exact absurd (by rw [h1]; simp) (h bs sec1 nb1 r1)

theorem reported_append (a b : List Event) (x : Int) :
    Reported (a ++ b) x ↔ Reported a x ∨ Reported b x := by
  unfold Reported
  constructor
  · rintro ⟨sec, nb, h1, h2⟩
    rcases List.mem_append.mp h1 with h | h
    · exact Or.inl ⟨sec, nb, h, h2⟩
    · exact Or.inr ⟨sec, nb, h, h2⟩
  · rintro (⟨sec, nb, h1, h2⟩ | ⟨sec, nb, h1, h2⟩)
    · exact ⟨sec, nb, List.mem_append.mpr (Or.inl h1), h2⟩
    · exact ⟨sec, nb, List.mem_append.mpr (Or.inr h1), h2⟩

/-- Every run of `commit_run` writes only what an allocation query reported,
and leaves the rest of Base as it was. -/
theorem commit_run_writes {W : Type} (A : BlockLayer W) (s : CommitBlockJob)
    (base_sector : W → Int → SectorData) (hF : BaseFrame A s base_sector)
    (fuel : Nat) (st : RunState W) (res : RunResult W)
    (h : commit_run A s fuel st = some res) :
    ∃ added, res.st.trace = st.trace ++ added ∧ WritesJustified s added ∧
      ∀ x, ¬ Reported added x → base_sector res.st.w x = base_sector st.w x := by
  have single : ∀ (e : Event) (w w1 : W), (∀ bs sec nb r, e ≠ Event.write bs sec nb r) →
      (∀ x, base_sector w1 x = base_sector w x) →
      WritesJustified s [e] ∧ ∀ x, ¬ Reported [e] x → base_sector w1 x = base_sector w x := by
    intro e w w1 he hw
    refine ⟨writesJustified_of_no_write s _ ?_, fun x _ => hw x⟩
    intro bs sec nb r hin
    simp only [List.mem_singleton] at hin
    exact he bs sec nb r hin.symm
  refine commit_run_rel A s
    (fun evs w w1 => WritesJustified s evs ∧
      ∀ x, ¬ Reported evs x → base_sector w1 x = base_sector w x)
    ?_ ?_ ?_ ?_ ?_ ?_ ?_ ?_ ?_ fuel st res h
  · intro w
    exact ⟨writesJustified_of_no_write s _ (by simp), fun x _ => rfl⟩
  · intro a b w1 w2 w3 ⟨ha1, ha2⟩ ⟨hb1, hb2⟩
    refine ⟨writesJustified_append s a b ha1 hb1, ?_⟩
    intro x hx
    rw [reported_append] at hx
    push_neg at hx
    rw [hb2 x hx.2, ha2 x hx.1]
  · intro sec d st0
    have hhead : ∀ bs sec1 nb r, Event.write bs sec1 nb r ∉
        [Event.sleep (toInt64 d), Event.is_cancelled false] := by simp
    rcases commit_body_ops A s sec d st0 with ⟨hw, _, ht⟩ | ⟨hw, ht⟩ | ⟨hw, hq, hr, ht⟩ |
      ⟨hw, hq, hr, ht⟩
    · refine ⟨_, ht, writesJustified_of_no_write s _ (by simp), ?_⟩
      intro x _
      rw [hw]
      exact hF.sleep _ _ _
    · refine ⟨_, ht, writesJustified_of_no_write s _ (by simp [bodyHead]), ?_⟩
      intro x _
      rw [hw]
      unfold bodyQuery bodySleep
      rw [hF.query, hF.sleep]
    · refine ⟨_, ht, writesJustified_of_no_write s _ (by simp [bodyHead]), ?_⟩
      intro x _
      rw [hw, hF.read]
      unfold bodyQuery bodySleep
      rw [hF.query, hF.sleep]
    · refine ⟨_, ht, ?_, ?_⟩
      · have := writesJustified_copy s [Event.sleep (toInt64 d), Event.is_cancelled false] sec
          (bodyQuery A s sec d st0).1.2
          (A.bdrv_write s.base sec
            (A.bdrv_read s.top sec (bodyQuery A s sec d st0).1.2 (bodyQuery A s sec d st0).2).1.2
            (bodyQuery A s sec d st0).1.2
            (A.bdrv_read s.top sec (bodyQuery A s sec d st0).1.2
              (bodyQuery A s sec d st0).2).2).1 hhead
        simpa [bodyHead, hq] using this
      · intro x hx
        have hout : x < sec ∨ sec + (bodyQuery A s sec d st0).1.2 ≤ x := by
          by_contra hin
          push_neg at hin
          apply hx
          exact ⟨sec, (bodyQuery A s sec d st0).1.2, by simp [bodyHead, hq], hin.1, hin.2⟩
        rw [hw, hF.write _ _ _ _ _ hout, hF.read]
        unfold bodyQuery bodySleep
        rw [hF.query, hF.sleep]
  · intro bs w
    exact single _ _ _ (by simp) (hF.getlength bs w)
  · intro len w
    exact single _ _ _ (by simp) (hF.truncate len w)
  · intro w
    exact single _ _ _ (by simp) (fun _ => rfl)
  · intro w
    exact single _ _ _ (by simp) (hF.drop w)
  · intro bs f w
    exact single _ _ _ (by simp) (hF.reopen bs f w)
  · intro ret w
    exact single _ _ _ (by simp) (hF.complete ret w)

/-! ## The entry into the loop and the content of Base after the walk -/

/-- The state in which `commit_run` enters the loop, when lines 103 to 167 end
past the loop. -/
theorem commit_copy_loop_left {W : Type} (A : BlockLayer W) (s : CommitBlockJob) (fuel : Nat)
    (st : RunState W) (ov : Option Nat) (end_ : Int) (ex : LoopExit) (sec : Int)
    (st1 : RunState W)
    (h : commit_copy A s fuel st = some (CopyResult.loop_left ov end_ ex sec st1)) :
    ∃ st0 : RunState W,
      (st0.w = (A.bdrv_getlength s.base (A.bdrv_getlength s.top st.w).2).2 ∨
        st0.w = (A.bdrv_truncate s.base (A.bdrv_getlength s.top st.w).1
          (A.bdrv_getlength s.base (A.bdrv_getlength s.top st.w).2).2).2 ∧
        (A.bdrv_truncate s.base (A.bdrv_getlength s.top st.w).1
          (A.bdrv_getlength s.base (A.bdrv_getlength s.top st.w).2).2).1 = 0) ∧
      st0.limit = st.limit ∧ st0.offset = st.offset ∧
      st0.len = (A.bdrv_getlength s.top st.w).1 ∧
      0 ≤ (A.bdrv_getlength s.top st.w).1 ∧
      0 ≤ (A.bdrv_getlength s.base (A.bdrv_getlength s.top st.w).2).1 ∧
      end_ = (A.bdrv_getlength s.top st.w).1 / BDRV_SECTOR_SIZE ∧
      ov = A.bdrv_find_overlay s.active s.top st0.w ∧
      (∃ pro, st0.trace = st.trace ++ pro ∧ ∀ e ∈ pro, e.isIO = false ∧ e.isDrop = false) ∧
      ((0 < end_ ∧ commit_loop A s end_ fuel 0 0 st0 = some (ex, sec, st1)) ∨
        (¬ 0 < end_ ∧ ex = LoopExit.finished ∧ sec = 0 ∧ st1 = st0)) := by
  have key : ∀ st0 : RunState W,
      commit_walk A s fuel st0 = some (CopyResult.loop_left ov end_ ex sec st1) →
      end_ = st0.len / BDRV_SECTOR_SIZE ∧ ov = A.bdrv_find_overlay s.active s.top st0.w ∧
      ((0 < end_ ∧ commit_loop A s end_ fuel 0 0 st0 = some (ex, sec, st1)) ∨
        (¬ 0 < end_ ∧ ex = LoopExit.finished ∧ sec = 0 ∧ st1 = st0)) := by
    intro st0 hw
    unfold commit_walk at hw
    by_cases h0 : 0 < st0.len / BDRV_SECTOR_SIZE
    · simp only [h0, if_true] at hw
      cases hl : commit_loop A s (st0.len / BDRV_SECTOR_SIZE) fuel 0 0 st0 with
      | none => rw [hl] at hw; simp at hw
      | some r =>
        obtain ⟨ex2, sec2, st2⟩ := r
        rw [hl] at hw
        simp only [Option.some.injEq, CopyResult.loop_left.injEq] at hw
        obtain ⟨rfl, rfl, rfl, rfl, rfl⟩ := hw
        exact ⟨rfl, rfl, Or.inl ⟨h0, hl⟩⟩
    · simp only [h0, if_false, Option.some.injEq, CopyResult.loop_left.injEq] at hw
      obtain ⟨rfl, rfl, rfl, rfl, rfl⟩ := hw
      exact ⟨rfl, rfl, Or.inr ⟨h0, rfl, rfl, rfl⟩⟩
  unfold commit_copy at h
  simp only [RunState.log] at h
  by_cases h1 : (A.bdrv_getlength s.top st.w).1 < 0
  · simp only [h1, if_true, Option.some.injEq, reduceCtorEq] at h
  simp only [h1, if_false] at h
  by_cases h2 : (A.bdrv_getlength s.base (A.bdrv_getlength s.top st.w).2).1 < 0
  · simp only [h2, if_true, Option.some.injEq, reduceCtorEq] at h
  simp only [h2, if_false] at h
  by_cases h3 : (A.bdrv_getlength s.base (A.bdrv_getlength s.top st.w).2).1 <
      (A.bdrv_getlength s.top st.w).1
  · simp only [h3, if_true] at h
    by_cases h4 : (A.bdrv_truncate s.base (A.bdrv_getlength s.top st.w).1
        (A.bdrv_getlength s.base (A.bdrv_getlength s.top st.w).2).2).1 = 0
    · rw [if_neg (not_not.mpr h4)] at h
      obtain ⟨k1, k2, k3⟩ := key _ h
      refine ⟨_, ?_, ?_, ?_, ?_, by omega, by omega, k1, k2,
        ⟨[Event.getlength s.top (A.bdrv_getlength s.top st.w).1,
          Event.getlength s.base (A.bdrv_getlength s.base (A.bdrv_getlength s.top st.w).2).1,
          Event.truncate s.base (A.bdrv_getlength s.top st.w).1
            (A.bdrv_truncate s.base (A.bdrv_getlength s.top st.w).1
              (A.bdrv_getlength s.base (A.bdrv_getlength s.top st.w).2).2).1], ?_, ?_⟩, k3⟩
      · exact Or.inr ⟨rfl, h4⟩
      · rfl
      · rfl
      · rfl
      · simp
      · simp [Event.isIO, Event.isDrop]
    · rw [if_pos h4] at h
      simp only [Option.some.injEq, reduceCtorEq] at h
  · simp only [h3, if_false] at h
    obtain ⟨k1, k2, k3⟩ := key _ h
    refine ⟨_, ?_, ?_, ?_, ?_, by omega, by omega, k1, k2,
      ⟨[Event.getlength s.top (A.bdrv_getlength s.top st.w).1,
        Event.getlength s.base (A.bdrv_getlength s.base (A.bdrv_getlength s.top st.w).2).1],
        ?_, ?_⟩, k3⟩
    · exact Or.inl rfl
    · rfl
    · rfl
    · rfl
    · simp
    · simp [Event.isIO, Event.isDrop]

/-- A quantity that `bdrv_reopen` and `block_job_complete` leave alone is left
alone by the teardown. -/
theorem exit_restore_reopen_keeps {W : Type} {α : Type} (A : BlockLayer W) (s : CommitBlockJob)
    (f : W → α) (hre : ∀ bs fl w, f (A.bdrv_reopen bs fl w) = f w)
    (hco : ∀ r w, f (A.block_job_complete r w) = f w)
    (ov : Option Nat) (ret : Int) (st : RunState W) :
    f (exit_restore_reopen A s ov ret st).st.w = f st.w := by
  have hr : ∀ bs fl (st0 : RunState W), f (restore_flags A bs fl st0).w = f st0.w := by
    intro bs fl st0
    unfold restore_flags
    split_ifs
    · exact hre _ _ _
    · rfl
  cases ov with
  | none => exact hr _ _ _
  | some o =>
    simp only [exit_restore_reopen, RunState.log]
    rw [hco, hr, hr]

/-- The allocation queries among the events of a pass that copies. -/
theorem query_mem_body_events {W : Type} (A : BlockLayer W) (s : CommitBlockJob)
    (sec d : Int) (st : RunState W) (sec1 nb : Int)
    (h : Event.is_allocated_above sec1 1 nb ∈
      bodyHead A s sec d st ++ (bodyPopulate A s sec d st).2.2) :
    sec1 = sec ∧ (bodyQuery A s sec d st).1.1 = 1 ∧ nb = (bodyQuery A s sec d st).1.2 := by
  rcases List.mem_append.mp h with h | h
  · simp only [bodyHead, List.mem_cons, reduceCtorEq, Event.is_allocated_above.injEq,
      List.mem_singleton, List.not_mem_nil, or_false, false_or] at h
    exact ⟨h.1, h.2.1.symm, h.2.2⟩
  · rcases bodyPopulate_events A s sec d st with ⟨_, h2⟩ | h2
    · rw [h2] at h
      simp at h
    · rw [h2] at h
      simp at h

/-- One pass through the loop body keeps the sectors below `sector_num` that
hold the content of Top, reports only allocated sectors of Top, and, when it
advances, has copied the allocated sectors that it advances over. -/
theorem commit_body_conserves {W : Type} (A : BlockLayer W) (s : CommitBlockJob) (end_ : Int)
    (alloc : Int → Bool) (top0 : Int → SectorData) (base_sector : W → Int → SectorData)
    (hC : Consistent A s end_ alloc top0 base_sector) (sec d : Int) (st : RunState W)
    (h0 : 0 ≤ sec) (h1 : sec < end_)
    (hinv : ∀ x, 0 ≤ x → x < sec → alloc x = true → base_sector st.w x = top0 x) :
    (∀ x, 0 ≤ x → x < sec → alloc x = true →
      base_sector (commit_body A s sec d st).state.w x = top0 x) ∧
    (∃ evs, (commit_body A s sec d st).state.trace = st.trace ++ evs ∧
      ∀ x, Reported evs x → alloc x = true ∧ 0 ≤ x ∧ x < end_) ∧
    (∀ st1, commit_body A s sec d st = BodyResult.next st1 →
      0 ≤ st1.n ∧ sec + st1.n ≤ end_ ∧
      ∀ x, 0 ≤ x → x < sec + st1.n → alloc x = true → base_sector st1.w x = top0 x) := by
  have hF := hC.frame
  -- the world after the query holds what the world before the pass held
  have hwq : ∀ x, base_sector (bodyQuery A s sec d st).2 x = base_sector st.w x := by
    intro x
    unfold bodyQuery bodySleep
    rw [hF.query, hF.sleep]
  have hrun := hC.query_run sec (bodySleep A d st) h0 h1
  -- the world after `commit_populate`
  have hpop : ∀ x, x < sec → base_sector (bodyPopulate A s sec d st).2.1 x = base_sector st.w x := by
    intro x hx
    unfold bodyPopulate
    rcases commit_populate_cases A s.top s.base sec (bodyQuery A s sec d st).1.2
      (bodyQuery A s sec d st).2 with ⟨_, h2⟩ | ⟨_, h2⟩
    · rw [h2]
      simp only
      rw [hF.read, hwq]
    · rw [h2]
      simp only
      rw [hF.write _ _ _ _ _ (Or.inl hx), hF.read, hwq]
  have hrep_head : ∀ x, Reported (bodyHead A s sec d st) x → alloc x = true ∧ 0 ≤ x ∧ x < end_ := by
    rintro x ⟨sec1, nb, hin, hx1, hx2⟩
    simp only [bodyHead, List.mem_cons, reduceCtorEq, Event.is_allocated_above.injEq,
      List.mem_singleton, List.not_mem_nil, or_false, false_or] at hin
    obtain ⟨rfl, hq, rfl⟩ := hin
    have hq1 : (bodyQuery A s sec1 d st).1.1 = 1 := hq.symm
    obtain ⟨_, k2, k3⟩ := hrun (by unfold bodyQuery at hq1; omega)
    exact ⟨(k3 x hx1 hx2).mpr hq1, by omega, by unfold bodyQuery at hx2; omega⟩
  have hrep_pop : ∀ x, Reported (bodyHead A s sec d st ++ (bodyPopulate A s sec d st).2.2) x →
      alloc x = true ∧ 0 ≤ x ∧ x < end_ := by
    rintro x ⟨sec1, nb, hin, hx1, hx2⟩
    obtain ⟨rfl, hq1, rfl⟩ := query_mem_body_events A s sec d st sec1 nb hin
    obtain ⟨_, k2, k3⟩ := hrun (by unfold bodyQuery at hq1; omega)
    exact ⟨(k3 x hx1 hx2).mpr hq1, by omega, by unfold bodyQuery at hx2; omega⟩
  have hspec := commit_body_spec A s sec d st
  generalize commit_body A s sec d st = r at hspec
  cases hspec with
  | cancelled st1 hc hp =>
    refine ⟨?_, ⟨_, hp.trace_eq, ?_⟩, ?_⟩
    · intro x hx0 hx1 ha
      simp only [BodyResult.state]
      rw [hp.w_eq]
      unfold bodySleep
      rw [hF.sleep]
      exact hinv x hx0 hx1 ha
    · rintro x ⟨sec1, nb, hin, _⟩
      simp at hin
    · intro st2 h2
      cases h2
  | wait st1 hc hq hs hd hp =>
    refine ⟨?_, ⟨_, hp.trace_eq, hrep_head⟩, ?_⟩
    · intro x hx0 hx1 ha
      simp only [BodyResult.state]
      rw [hp.w_eq, hwq]
      exact hinv x hx0 hx1 ha
    · intro st2 h2
      cases h2
  | query_stop st1 hc hq hs hp =>
    refine ⟨?_, ⟨_, hp.trace_eq, hrep_head⟩, ?_⟩
    · intro x hx0 hx1 ha
      simp only [BodyResult.state]
      rw [hp.w_eq, hwq]
      exact hinv x hx0 hx1 ha
    · intro st2 h2
      cases h2
  | query_retry st1 hc hq hs hp =>
    have hkeep : ∀ x, 0 ≤ x → x < sec → alloc x = true → base_sector st1.w x = top0 x := by
      intro x hx0 hx1 ha
      rw [hp.w_eq, hwq]
      exact hinv x hx0 hx1 ha
    refine ⟨hkeep, ⟨_, hp.trace_eq, hrep_head⟩, ?_⟩
    intro st2 h2
    cases h2
    rw [hp.n_eq]
    exact ⟨le_refl 0, by omega, by simpa using hkeep⟩
  | skip st1 hc hq hq0 hp =>
    have hkeep : ∀ x, 0 ≤ x → x < sec → alloc x = true → base_sector st1.w x = top0 x := by
      intro x hx0 hx1 ha
      rw [hp.w_eq, hwq]
      exact hinv x hx0 hx1 ha
    refine ⟨hkeep, ⟨_, hp.trace_eq, hrep_head⟩, ?_⟩
    intro st2 h2
    cases h2
    obtain ⟨k1, k2, k3⟩ := hrun (by unfold bodyQuery at hq0; exact hq0)
    rw [hp.n_eq]
    refine ⟨by unfold bodyQuery; omega, by unfold bodyQuery; omega, ?_⟩
    intro x hx0 hx1 ha
    by_cases hlt : x < sec
    · exact hkeep x hx0 hlt ha
    · exact absurd ((k3 x (by omega) (by unfold bodyQuery at hx1; exact hx1)).mp ha) hq
  | copy_stop st1 hc hq hd hr hs hp =>
    refine ⟨?_, ⟨_, hp.trace_eq, hrep_pop⟩, ?_⟩
    · intro x hx0 hx1 ha
      simp only [BodyResult.state]
      rw [hp.w_eq, hpop x hx1]
      exact hinv x hx0 hx1 ha
    · intro st2 h2
      cases h2
  | copy_retry st1 hc hq hd hr hs hp =>
    have hkeep : ∀ x, 0 ≤ x → x < sec → alloc x = true → base_sector st1.w x = top0 x := by
      intro x hx0 hx1 ha
      rw [hp.w_eq, hpop x hx1]
      exact hinv x hx0 hx1 ha
    refine ⟨hkeep, ⟨_, hp.trace_eq, hrep_pop⟩, ?_⟩
    intro st2 h2
    cases h2
    rw [hp.n_eq]
    exact ⟨le_refl 0, by omega, by simpa using hkeep⟩
  | copy_done st1 hc hq hd hr hp =>
    have hkeep : ∀ x, 0 ≤ x → x < sec → alloc x = true → base_sector st1.w x = top0 x := by
      intro x hx0 hx1 ha
      rw [hp.w_eq, hpop x hx1]
      exact hinv x hx0 hx1 ha
    refine ⟨hkeep, ⟨_, hp.trace_eq, hrep_pop⟩, ?_⟩
    intro st2 h2
    cases h2
    obtain ⟨k1, k2, k3⟩ := hrun (by unfold bodyQuery at hq; omega)
    rw [hp.n_eq]
    refine ⟨by unfold bodyQuery; omega, by unfold bodyQuery; omega, ?_⟩
    intro x hx0 hx1 ha
    by_cases hlt : x < sec
    · exact hkeep x hx0 hlt ha
    · -- the sector was copied in this pass
      rw [hp.w_eq]
      unfold bodyPopulate at hr ⊢
      rcases commit_populate_cases A s.top s.base sec (bodyQuery A s sec d st).1.2
        (bodyQuery A s sec d st).2 with ⟨g1, g2⟩ | ⟨g1, g2⟩
      · rw [g2] at hr
        simp only at hr
        have := hC.read_ret sec (bodyQuery A s sec d st).1.2 (bodyQuery A s sec d st).2
        omega
      · rw [g2] at hr ⊢
        simp only at hr ⊢
        have hw0 := hC.write_ret sec
          (A.bdrv_read s.top sec (bodyQuery A s sec d st).1.2 (bodyQuery A s sec d st).2).1.2
          (bodyQuery A s sec d st).1.2
          (A.bdrv_read s.top sec (bodyQuery A s sec d st).1.2 (bodyQuery A s sec d st).2).2
        rw [hC.write_base _ _ _ _ x (by omega) (by omega) hx1,
          hC.read_top _ _ _ (x - sec) g1 (by omega) (by omega)]
        congr 1
        omega

/-- The copy loop keeps the invariant of `commit_body_conserves`. -/
theorem commit_loop_conserves {W : Type} (A : BlockLayer W) (s : CommitBlockJob) (end_ : Int)
    (alloc : Int → Bool) (top0 : Int → SectorData) (base_sector : W → Int → SectorData)
    (hC : Consistent A s end_ alloc top0 base_sector) (fuel : Nat) (sec d : Int)
    (st : RunState W) (ex : LoopExit) (sec1 : Int) (st1 : RunState W)
    (hl : commit_loop A s end_ fuel sec d st = some (ex, sec1, st1))
    (h0 : 0 ≤ sec) (h1 : sec < end_)
    (hinv : ∀ x, 0 ≤ x → x < sec → alloc x = true → base_sector st.w x = top0 x) :
    (∀ x, 0 ≤ x → x < sec1 → alloc x = true → base_sector st1.w x = top0 x) ∧
    sec1 ≤ end_ ∧
    ∃ a, st1.trace = st.trace ++ a ∧ ∀ x, Reported a x → alloc x = true ∧ 0 ≤ x ∧ x < end_ := by
  have happ : ∀ (st2 : RunState W) (evs : List Event) (tr : List Event),
      (∃ a, st2.trace = st.trace ++ a ∧ ∀ x, Reported a x → alloc x = true ∧ 0 ≤ x ∧ x < end_) →
      tr = st2.trace ++ evs → (∀ x, Reported evs x → alloc x = true ∧ 0 ≤ x ∧ x < end_) →
      ∃ a, tr = st.trace ++ a ∧ ∀ x, Reported a x → alloc x = true ∧ 0 ≤ x ∧ x < end_ := by
    rintro st2 evs tr ⟨a, ha1, ha2⟩ htr hevs
    refine ⟨a ++ evs, by rw [htr, ha1]; simp, ?_⟩
    intro x hx
    rcases (reported_append a evs x).mp hx with h | h
    · exact ha2 x h
    · exact hevs x h
  refine commit_loop_rule A s end_
    (fun sec2 _ st2 => 0 ≤ sec2 ∧ sec2 < end_ ∧
      (∀ x, 0 ≤ x → x < sec2 → alloc x = true → base_sector st2.w x = top0 x) ∧
      ∃ a, st2.trace = st.trace ++ a ∧ ∀ x, Reported a x → alloc x = true ∧ 0 ≤ x ∧ x < end_)
    (fun _ sec2 st2 =>
      (∀ x, 0 ≤ x → x < sec2 → alloc x = true → base_sector st2.w x = top0 x) ∧
      sec2 ≤ end_ ∧
      ∃ a, st2.trace = st.trace ++ a ∧ ∀ x, Reported a x → alloc x = true ∧ 0 ≤ x ∧ x < end_)
    ?_ ?_ ?_ ?_ fuel sec d st ⟨h0, h1, hinv, [], by simp, by rintro x ⟨_, _, h, _⟩; simp at h⟩
    ex sec1 st1 hl
  · intro sec2 d2 st2 d3 st3 ⟨g0, g1, g2, g3⟩ hb
    obtain ⟨k1, ⟨evs, k2, k3⟩, _⟩ :=
      commit_body_conserves A s end_ alloc top0 base_sector hC sec2 d2 st2 g0 g1 g2
    rw [hb] at k1 k2
    exact ⟨g0, g1, k1, happ st2 evs _ g3 k2 k3⟩
  · intro sec2 d2 st2 st3 ⟨g0, g1, g2, g3⟩ hb
    obtain ⟨k1, ⟨evs, k2, k3⟩, _⟩ :=
      commit_body_conserves A s end_ alloc top0 base_sector hC sec2 d2 st2 g0 g1 g2
    rw [hb] at k1 k2
    exact ⟨k1, le_of_lt g1, happ st2 evs _ g3 k2 k3⟩
  · intro sec2 d2 st2 ret st3 ⟨g0, g1, g2, g3⟩ hb
    obtain ⟨k1, ⟨evs, k2, k3⟩, _⟩ :=
      commit_body_conserves A s end_ alloc top0 base_sector hC sec2 d2 st2 g0 g1 g2
    rw [hb] at k1 k2
    exact ⟨k1, le_of_lt g1, happ st2 evs _ g3 k2 k3⟩
  · intro sec2 d2 st2 st3 ⟨g0, g1, g2, g3⟩ hb
    obtain ⟨_, ⟨evs, k2, k3⟩, k4⟩ :=
      commit_body_conserves A s end_ alloc top0 base_sector hC sec2 d2 st2 g0 g1 g2
    rw [hb] at k2
    obtain ⟨m1, m2, m3⟩ := k4 st3 hb
    have htr := happ st2 evs _ g3 k2 k3
    exact ⟨fun hlt => ⟨by omega, hlt, m3, htr⟩, fun _ => ⟨m3, m2, htr⟩⟩

/-! ## Retry and progress -/

/-- The limiter keeps `next_slice_time` in the range of `int64_t`, and a
delay it asks for at a clock value of the range, from zero on, is not
negative. -/
theorem ratelimit_keeps_range (limit : RateLimit) (n now : Int)
    (hl : isInt64 limit.next_slice_time) (h0 : 0 ≤ now) (h1 : now < 9223372036854775808) :
    isInt64 (ratelimit_calculate_delay limit n now).2.next_slice_time ∧
    0 ≤ (ratelimit_calculate_delay limit n now).1 ∧
    (ratelimit_calculate_delay limit n now).1 < 9223372036854775808 := by
  unfold isInt64 at hl ⊢
  unfold ratelimit_calculate_delay
  simp only [toInt64, toUInt64, SLICE_TIME]
  split_ifs <;> dsimp only at * <;> omega

/-- What a pass through the loop body does to the count of faults left. -/
theorem commit_body_faults {W : Type} (A : BlockLayer W) (s : CommitBlockJob) (end_ : Int)
    (alloc : Int → Bool) (top0 : Int → SectorData) (base_sector : W → Int → SectorData)
    (faults : W → Nat) (hC : Consistent A s end_ alloc top0 base_sector)
    (hT : Transient A s faults) (sec d : Int) (st : RunState W) :
    faults (bodyQuery A s sec d st).2 ≤ faults st.w ∧
    ((bodyQuery A s sec d st).1.1 < 0 → faults (bodyQuery A s sec d st).2 < faults st.w) ∧
    faults (bodyPopulate A s sec d st).2.1 ≤ faults st.w ∧
    ((bodyPopulate A s sec d st).1 < 0 → faults (bodyPopulate A s sec d st).2.1 < faults st.w) ∧
    stop_on_error s.on_error (bodyPopulate A s sec d st).1 = false ∧
    (0 ≤ (bodyPopulate A s sec d st).1 → (bodyPopulate A s sec d st).1 = 0) := by
  have hs := hT.faults_sleep (toInt64 d) st.w
  have hq := hT.faults_query sec (COMMIT_BUFFER_SIZE / BDRV_SECTOR_SIZE) (bodySleep A d st)
  have hq1 : faults (bodyQuery A s sec d st).2 ≤ faults st.w := by
    unfold bodyQuery
    unfold bodySleep at hq ⊢
    omega
  refine ⟨hq1, ?_, ?_⟩
  · intro h
    unfold bodyQuery at h ⊢
    have := hq.2 h
    unfold bodySleep at this ⊢
    omega
  · have hr := hT.faults_read sec (bodyQuery A s sec d st).1.2 (bodyQuery A s sec d st).2
    have hrr := hC.read_ret sec (bodyQuery A s sec d st).1.2 (bodyQuery A s sec d st).2
    unfold bodyPopulate
    rcases commit_populate_cases A s.top s.base sec (bodyQuery A s sec d st).1.2
      (bodyQuery A s sec d st).2 with ⟨g1, g2⟩ | ⟨g1, g2⟩
    · rw [g2]
      simp only
      refine ⟨by omega, ?_, hT.soft_read _ _ _, by intro h; omega⟩
      intro h
      have := hr.2 h
      omega
    · rw [g2]
      simp only
      have hw := hT.faults_write sec
        (A.bdrv_read s.top sec (bodyQuery A s sec d st).1.2 (bodyQuery A s sec d st).2).1.2
        (bodyQuery A s sec d st).1.2
        (A.bdrv_read s.top sec (bodyQuery A s sec d st).1.2 (bodyQuery A s sec d st).2).2
      have hwr := hC.write_ret sec
        (A.bdrv_read s.top sec (bodyQuery A s sec d st).1.2 (bodyQuery A s sec d st).2).1.2
        (bodyQuery A s sec d st).1.2
        (A.bdrv_read s.top sec (bodyQuery A s sec d st).1.2 (bodyQuery A s sec d st).2).2
      refine ⟨by omega, ?_, hT.soft_write _ _ _ _, by intro h; omega⟩
      intro h
      have := hw.2 h
      omega

/-- With transient faults only, the copy loop reaches `sector_num == end`:
from a state at the label `wait:` with `2 * (sectors left + faults left) <= k`,
or one more when the limiter is sure to let the next request pass, `k` passes
are enough. -/
theorem commit_loop_live {W : Type} (A : BlockLayer W) (s : CommitBlockJob) (end_ : Int)
    (alloc : Int → Bool) (top0 : Int → SectorData) (base_sector : W → Int → SectorData)
    (faults : W → Nat) (hC : Consistent A s end_ alloc top0 base_sector)
    (hT : Transient A s faults) :
    ∀ (k fuel : Nat) (sec d : Int) (st : RunState W), k ≤ fuel → 0 ≤ sec → sec < end_ →
      isInt64 st.limit.next_slice_time →
      (2 * ((end_ - sec).toNat + faults st.w) ≤ k ∨
        (2 * ((end_ - sec).toNat + faults st.w) ≤ k + 1 ∧
          st.limit.next_slice_time ≤ A.qemu_get_clock (bodySleep A d st))) →
      ∃ st1, commit_loop A s end_ fuel sec d st = some (LoopExit.finished, end_, st1) := by
  intro k
  induction k with
  | zero =>
    intro fuel sec d st _ h0 h1 _ hm
    exfalso
    have : 1 ≤ (end_ - sec).toNat := by omega
    have hpos : 2 ≤ 2 * ((end_ - sec).toNat + faults st.w) := by omega
    rcases hm with hm | ⟨hm, _⟩ <;> omega
  | succ k ih =>
    intro fuel sec d st hfuel h0 h1 hnext hm
    obtain ⟨f, rfl⟩ : ∃ f, fuel = f + 1 := ⟨fuel - 1, by omega⟩
    have hf : k ≤ f := by omega
    obtain ⟨fq, fq1, fp, fp1, fsoft, fzero⟩ :=
      commit_body_faults A s end_ alloc top0 base_sector faults hC hT sec d st
    have hrun := hC.query_run sec (bodySleep A d st) h0 h1
    have hclk := hT.clock_range (bodyQuery A s sec d st).2
    have hkeep : isInt64 (bodyDelay A s sec d st).2.next_slice_time ∧
        0 ≤ (bodyDelay A s sec d st).1 ∧ (bodyDelay A s sec d st).1 < 9223372036854775808 :=
      ratelimit_keeps_range st.limit (toUInt64 (bodyQuery A s sec d st).1.2)
        (A.qemu_get_clock (bodyQuery A s sec d st).2) hnext hclk.1 hclk.2
    have hlim : isInt64 (bodyLimit A s sec d st).next_slice_time := by
      unfold bodyLimit
      split_ifs
      · exact hkeep.1
      · exact hnext
    -- the step to the next iteration, after a pass that ends the body
    have advance : ∀ st1 : RunState W, commit_body A s sec d st = BodyResult.next st1 →
        isInt64 st1.limit.next_slice_time → 0 ≤ st1.n → sec + st1.n ≤ end_ →
        (sec + st1.n < end_ → 2 * ((end_ - (sec + st1.n)).toNat + faults st1.w) ≤ k) →
        ∃ st2, commit_loop A s end_ (f + 1) sec d st = some (LoopExit.finished, end_, st2) := by
      intro st1 hb hl1 hn0 hn1 hmeas
      rw [commit_loop, hb]
      by_cases hlt : sec + st1.n < end_
      · simp only [hlt, if_true]
        exact ih f (sec + st1.n) 0 st1 hf (by omega) hlt hl1 (Or.inl (hmeas hlt))
      · simp only [hlt, if_false]
        have : sec + st1.n = end_ := by omega
        rw [this]
        exact ⟨st1, rfl⟩
    have hM : 2 * ((end_ - sec).toNat + faults st.w) ≤ k + 2 := by
      rcases hm with hm | ⟨hm, _⟩ <;> omega
    have hspec := commit_body_spec A s sec d st
    generalize hb : commit_body A s sec d st = r at hspec
    cases hspec with
    | cancelled st1 hc hp =>
      rw [hT.not_cancelled] at hc
      cases hc
    | wait st1 hc hq hs hd hp =>
      -- the limiter was not known to let the request pass
      have hnot : ¬ st.limit.next_slice_time ≤ A.qemu_get_clock (bodySleep A d st) := by
        intro hle
        have hle2 : st.limit.next_slice_time ≤ A.qemu_get_clock (bodyQuery A s sec d st).2 :=
          le_trans hle (hT.query_clock _ _ _)
        have := ratelimit_zero_of_le st.limit (toUInt64 (bodyQuery A s sec d st).1.2) _ hle2
        unfold bodyDelay at hd
        rw [this] at hd
        simp [toUInt64] at hd
      have hm1 : 2 * ((end_ - sec).toNat + faults st.w) ≤ k + 1 := by
        rcases hm with hm | ⟨_, hle⟩
        · exact hm
        · exact absurd hle hnot
      rw [commit_loop, hb]
      simp only
      have hdpos : 0 < (bodyDelay A s sec d st).1 := by
        have key : ∀ dl : Int, 0 ≤ dl → 0 < toUInt64 dl → 0 < dl := by
          intro dl g1 g2
          unfold toUInt64 at g2
          omega
        exact key _ hkeep.2.1 hd
      have hback : toInt64 (toUInt64 (bodyDelay A s sec d st).1) = (bodyDelay A s sec d st).1 := by
        have key : ∀ dl : Int, 0 ≤ dl → dl < 9223372036854775808 →
            toInt64 (toUInt64 dl) = dl := by
          intro dl g1 g2
          unfold toInt64 toUInt64
          omega
        exact key _ hkeep.2.1 hkeep.2.2
      refine ih f sec _ st1 hf h0 h1 (by rw [hp.limit_eq]; exact hkeep.1) (Or.inr ⟨?_, ?_⟩)
      · rw [hp.w_eq]
        omega
      · unfold bodySleep
        rw [hback, hp.w_eq, hp.limit_eq]
        refine hT.sleep_clock _ _ _ hkeep.1 ?_
        exact ratelimit_next_slice_le st.limit _ _ hnext ⟨by omega, hclk.2⟩ hdpos
    | query_stop st1 hc hq hs hp =>
      have := hT.soft_query sec (COMMIT_BUFFER_SIZE / BDRV_SECTOR_SIZE) (bodySleep A d st)
      unfold bodyQuery at hs
      rw [this] at hs
      cases hs
    | query_retry st1 hc hq hs hp =>
      refine advance st1 hb (by rw [hp.limit_eq]; exact hnext) (by rw [hp.n_eq])
        (by rw [hp.n_eq]; omega) ?_
      intro _
      rw [hp.n_eq, hp.w_eq]
      have := fq1 hq
      omega
    | skip st1 hc hq hq0 hp =>
      obtain ⟨k1, k2, _⟩ := hrun (by unfold bodyQuery at hq0; exact hq0)
      refine advance st1 hb (by rw [hp.limit_eq]; exact hnext)
        (by rw [hp.n_eq]; unfold bodyQuery; omega) (by rw [hp.n_eq]; unfold bodyQuery; omega) ?_
      intro _
      rw [hp.n_eq, hp.w_eq]
      unfold bodyQuery at fq ⊢
      omega
    | copy_stop st1 hc hq hd hr hs hp =>
      rw [fsoft] at hs
      cases hs
    | copy_retry st1 hc hq hd hr hs hp =>
      refine advance st1 hb (by rw [hp.limit_eq]; exact hlim) (by rw [hp.n_eq])
        (by rw [hp.n_eq]; omega) ?_
      intro _
      rw [hp.n_eq, hp.w_eq]
      have := fp1 hr
      omega
    | copy_done st1 hc hq hd hr hp =>
      obtain ⟨k1, k2, _⟩ := hrun (by unfold bodyQuery at hq; omega)
      refine advance st1 hb (by rw [hp.limit_eq]; exact hlim)
        (by rw [hp.n_eq]; unfold bodyQuery; omega) (by rw [hp.n_eq]; unfold bodyQuery; omega) ?_
      intro _
      rw [hp.n_eq, hp.w_eq]
      unfold bodyQuery
      omega

/-- A pass that is not cancelled issues the allocation query on its sector. -/
theorem commit_body_queries {W : Type} (A : BlockLayer W) (s : CommitBlockJob)
    (sec d : Int) (st : RunState W)
    (hc : A.block_job_is_cancelled (bodySleep A d st) = false) :
    ∃ r n rest, (commit_body A s sec d st).state.trace = st.trace ++
      (Event.sleep (toInt64 d) :: Event.is_cancelled false ::
        Event.is_allocated_above sec r n :: rest) := by
  rcases commit_body_ops A s sec d st with ⟨_, h1, _⟩ | ⟨_, ht⟩ | ⟨_, _, _, ht⟩ | ⟨_, _, _, ht⟩
  · rw [hc] at h1
    cases h1
  · exact ⟨_, _, [], by rw [ht]; rfl⟩
  · exact ⟨_, _, _, by rw [ht]; rfl⟩
  · exact ⟨_, _, _, by rw [ht]; rfl⟩

/-- A pass in which a read or a write fails with a code on which the policy
does not stop ends by `n = 0; continue`. -/
theorem commit_body_retry {W : Type} (A : BlockLayer W) (s : CommitBlockJob)
    (sec d : Int) (st : RunState W) (evs : List Event) (bs : Nat) (secx nb e : Int)
    (htr : (commit_body A s sec d st).state.trace = st.trace ++ evs)
    (hev : Event.read bs secx nb e ∈ evs ∨ Event.write bs secx nb e ∈ evs)
    (hneg : e < 0) (hsoft : stop_on_error s.on_error e = false) :
    ∃ st1, commit_body A s sec d st = BodyResult.next st1 ∧ st1.n = 0 ∧
      st1.offset = st.offset := by
  -- the failed call is the last of `commit_populate`, which returns its code
  have hpop : Event.read bs secx nb e ∈
        bodyHead A s sec d st ++ (bodyPopulate A s sec d st).2.2 ∨
      Event.write bs secx nb e ∈
        bodyHead A s sec d st ++ (bodyPopulate A s sec d st).2.2 →
      (bodyPopulate A s sec d st).1 = e := by
    intro h
    rcases bodyPopulate_events A s sec d st with ⟨_, h2⟩ | h2
    · rw [h2] at h
      simp only [bodyHead, List.cons_append, List.nil_append, List.mem_cons, reduceCtorEq,
        Event.read.injEq, List.mem_singleton, List.not_mem_nil, or_false, false_or] at h
      exact h.2.2.2.symm
    · rw [h2] at h
      simp only [bodyHead, List.cons_append, List.nil_append, List.mem_cons, reduceCtorEq,
        Event.read.injEq, Event.write.injEq, List.mem_singleton, List.not_mem_nil, or_false,
        false_or] at h
      rcases h with h | h
      · omega
      · exact h.2.2.2.symm
  have hhead : ¬ (Event.read bs secx nb e ∈ bodyHead A s sec d st ∨
      Event.write bs secx nb e ∈ bodyHead A s sec d st) := by
    simp [bodyHead]
  have hspec := commit_body_spec A s sec d st
  generalize hb : commit_body A s sec d st = r at hspec htr
  cases hspec with
  | cancelled st1 hc hp =>
    have := List.append_cancel_left (htr.symm.trans hp.trace_eq)
    rw [this] at hev
    simp at hev
  | wait st1 hc hq hs hd hp =>
    have := List.append_cancel_left (htr.symm.trans hp.trace_eq)
    rw [this] at hev
    exact absurd hev hhead
  | query_stop st1 hc hq hs hp =>
    have := List.append_cancel_left (htr.symm.trans hp.trace_eq)
    rw [this] at hev
    exact absurd hev hhead
  | query_retry st1 hc hq hs hp =>
    have := List.append_cancel_left (htr.symm.trans hp.trace_eq)
    rw [this] at hev
    exact absurd hev hhead
  | skip st1 hc hq hq0 hp =>
    have := List.append_cancel_left (htr.symm.trans hp.trace_eq)
    rw [this] at hev
    exact absurd hev hhead
  | copy_stop st1 hc hq hd hr hs hp =>
    have := List.append_cancel_left (htr.symm.trans hp.trace_eq)
    rw [this] at hev
    rw [hpop hev, hsoft] at hs
    cases hs
  | copy_retry st1 hc hq hd hr hs hp =>
    exact ⟨st1, rfl, hp.n_eq, hp.offset_eq⟩
  | copy_done st1 hc hq hd hr hp =>
    have := List.append_cancel_left (htr.symm.trans hp.trace_eq)
    rw [this] at hev
    rw [hpop hev] at hr
    omega

/-- With transient faults only, a consistent block layer and an overlay of
Top in the chain, `commit_run` ends, given enough fuel; it ends with the call
of `bdrv_drop_intermediate` and status 0, and Base holds the content of every
allocated sector of Top. -/
theorem commit_run_live {W : Type} (A : BlockLayer W) (s : CommitBlockJob) (end_ : Int)
    (alloc : Int → Bool) (top0 : Int → SectorData) (base_sector : W → Int → SectorData)
    (faults : W → Nat) (hC : Consistent A s end_ alloc top0 base_sector)
    (hT : Transient A s faults)
    (hov : ∀ w, A.bdrv_find_overlay s.active s.top w ≠ none)
    (htrunc : ∀ len w, (A.bdrv_truncate s.base len w).1 = 0)
    (st : RunState W)
    (hlen0 : 0 ≤ (A.bdrv_getlength s.top st.w).1)
    (hlen : (A.bdrv_getlength s.top st.w).1 / BDRV_SECTOR_SIZE = end_)
    (hbase : 0 ≤ (A.bdrv_getlength s.base (A.bdrv_getlength s.top st.w).2).1)
    (hnext : isInt64 st.limit.next_slice_time) :
    ∃ N, ∀ fuel, N ≤ fuel → ∃ res, commit_run A s fuel st = some res ∧
      res.terminal = Terminal.completed 0 ∧
      (∃ added, res.st.trace = st.trace ++ added ∧
        Event.drop_intermediate s.active s.top s.base 0 ∈ added) ∧
      ∀ x, 0 ≤ x → x < end_ → alloc x = true → base_sector res.st.w x = top0 x := by
  have hF := hC.frame
  have hend0 : 0 ≤ end_ := by
    rw [← hlen]
    simp only [BDRV_SECTOR_SIZE]
    omega
  -- from the entry of the loop on
  have walk : ∀ st0 : RunState W, st0.len = (A.bdrv_getlength s.top st.w).1 →
      st0.limit = st.limit → (∃ pro, st0.trace = st.trace ++ pro) →
      ∀ fuel, 2 * (end_.toNat + faults st0.w) ≤ fuel →
      commit_copy A s fuel st = commit_walk A s fuel st0 →
      ∃ res, commit_run A s fuel st = some res ∧
      res.terminal = Terminal.completed 0 ∧
      (∃ added, res.st.trace = st.trace ++ added ∧
        Event.drop_intermediate s.active s.top s.base 0 ∈ added) ∧
      ∀ x, 0 ≤ x → x < end_ → alloc x = true → base_sector res.st.w x = top0 x := by
    intro st0 hl0 hlim0 ⟨pro, hpro⟩ fuel hfuel hcopy
    have hend : st0.len / BDRV_SECTOR_SIZE = end_ := by rw [hl0, hlen]
    -- the loop
    have hloop : ∃ st1, commit_walk A s fuel st0 = some (CopyResult.loop_left
          (A.bdrv_find_overlay s.active s.top st0.w) end_ LoopExit.finished end_ st1) ∧
        (∃ a, st1.trace = st0.trace ++ a) ∧
        ∀ x, 0 ≤ x → x < end_ → alloc x = true → base_sector st1.w x = top0 x := by
      unfold commit_walk
      rw [hend]
      by_cases hpos : 0 < end_
      · obtain ⟨st1, hl⟩ := commit_loop_live A s end_ alloc top0 base_sector faults hC hT
          (2 * (end_.toNat + faults st0.w)) fuel 0 0 st0 hfuel (le_refl 0) hpos
          (by rw [hlim0]; exact hnext) (Or.inl (by simp))
        obtain ⟨k1, _, a, k3, _⟩ := commit_loop_conserves A s end_ alloc top0 base_sector hC
          fuel 0 0 st0 _ _ st1 hl (le_refl 0) hpos (by intro x h0 h1; omega)
        simp only [hpos, if_true, hl]
        exact ⟨st1, rfl, ⟨a, k3⟩, k1⟩
      · have : end_ = 0 := by omega
        subst this
        simp only [hpos, if_false]
        exact ⟨st0, rfl, ⟨[], by simp⟩, by intro x h0 h1; omega⟩
    obtain ⟨st1, hw, ⟨a, ha⟩, hcont⟩ := hloop
    cases hovw : A.bdrv_find_overlay s.active s.top st0.w with
    | none => exact absurd hovw (hov _)
    | some ov =>
      rw [hovw] at hw
      obtain ⟨td, g1, g2, g3⟩ := commit_finish_drop A s (some ov) end_ LoopExit.finished end_ st1
        (by intro r; simp) (hT.not_cancelled _) rfl
      rw [hT.drop_ok] at g1 g2 g3
      refine ⟨commit_finish A s (some ov) end_ LoopExit.finished end_ st1, ?_, g2.1, ?_, ?_⟩
      · unfold commit_run
        rw [hcopy, hw]
      · refine ⟨pro ++ a ++ (Event.is_cancelled false ::
          Event.drop_intermediate s.active s.top s.base 0 :: td), ?_, by simp⟩
        rw [g1, ha, hpro]
        simp
      · intro x hx0 hx1 hal
        rw [g3, exit_restore_reopen_keeps A s (fun w => base_sector w x)
          (fun bs fl w => hF.reopen bs fl w x) (fun r w => hF.complete r w x)]
        simp only
        rw [hF.drop]
        exact hcont x hx0 hx1 hal
  -- the length queries and the extension of Base
  have h1 : ¬ (A.bdrv_getlength s.top st.w).1 < 0 := by omega
  have h2 : ¬ (A.bdrv_getlength s.base (A.bdrv_getlength s.top st.w).2).1 < 0 := by omega
  by_cases h3 : (A.bdrv_getlength s.base (A.bdrv_getlength s.top st.w).2).1 <
      (A.bdrv_getlength s.top st.w).1
  · refine ⟨_, fun fuel hfuel => walk
      { st with
        w := (A.bdrv_truncate s.base (A.bdrv_getlength s.top st.w).1
          (A.bdrv_getlength s.base (A.bdrv_getlength s.top st.w).2).2).2
        len := (A.bdrv_getlength s.top st.w).1
        n := 0
        bytes_written := 0
        trace := st.trace ++ [Event.getlength s.top (A.bdrv_getlength s.top st.w).1] ++
          [Event.getlength s.base (A.bdrv_getlength s.base (A.bdrv_getlength s.top st.w).2).1] ++
          [Event.truncate s.base (A.bdrv_getlength s.top st.w).1
            (A.bdrv_truncate s.base (A.bdrv_getlength s.top st.w).1
              (A.bdrv_getlength s.base (A.bdrv_getlength s.top st.w).2).2).1] }
      rfl rfl
      ⟨[Event.getlength s.top (A.bdrv_getlength s.top st.w).1,
        Event.getlength s.base (A.bdrv_getlength s.base (A.bdrv_getlength s.top st.w).2).1,
        Event.truncate s.base (A.bdrv_getlength s.top st.w).1
          (A.bdrv_truncate s.base (A.bdrv_getlength s.top st.w).1
            (A.bdrv_getlength s.base (A.bdrv_getlength s.top st.w).2).2).1], by simp⟩
      fuel hfuel ?_⟩
    unfold commit_copy
    simp only [RunState.log, h1, h2, h3, if_false, if_true]
    rw [if_neg (not_not.mpr (htrunc _ _))]
  · refine ⟨_, fun fuel hfuel => walk
      { st with
        w := (A.bdrv_getlength s.base (A.bdrv_getlength s.top st.w).2).2
        len := (A.bdrv_getlength s.top st.w).1
        n := 0
        bytes_written := 0
        trace := st.trace ++ [Event.getlength s.top (A.bdrv_getlength s.top st.w).1] ++
          [Event.getlength s.base (A.bdrv_getlength s.base (A.bdrv_getlength s.top st.w).2).1] }
      rfl rfl
      ⟨[Event.getlength s.top (A.bdrv_getlength s.top st.w).1,
        Event.getlength s.base (A.bdrv_getlength s.base (A.bdrv_getlength s.top st.w).2).1],
        by simp⟩
      fuel hfuel ?_⟩
    unfold commit_copy
    simp only [RunState.log, h1, h2, h3, if_false]

/-! ## The simulated block layer is consistent -/

theorem runLen_le (alloc : Int → Bool) (sec : Int) (k : Nat) : runLen alloc sec k ≤ k := by
  induction k with
  | zero => simp [runLen]
  | succ k ih =>
    simp only [runLen]
    split_ifs <;> push_cast <;> omega

theorem runLen_nonneg (alloc : Int → Bool) (sec : Int) (k : Nat) : 0 ≤ runLen alloc sec k := by
  induction k with
  | zero => simp [runLen]
  | succ k ih =>
    simp only [runLen]
    split_ifs <;> omega

theorem runLen_pos (alloc : Int → Bool) (sec : Int) (k : Nat) (hk : 1 ≤ k) :
    1 ≤ runLen alloc sec k := by
  induction k with
  | zero => omega
  | succ k ih =>
    simp only [runLen]
    cases k with
    | zero => simp [runLen]
    | succ k =>
      have := ih (by omega)
      split_ifs <;> omega

theorem runLen_const (alloc : Int → Bool) (sec : Int) (k : Nat) (x : Int) (h0 : sec ≤ x)
    (h1 : x < sec + runLen alloc sec k) : alloc x = alloc sec := by
  induction k with
  | zero => simp [runLen] at h1; omega
  | succ k ih =>
    simp only [runLen] at h1
    split_ifs at h1 with hc
    · by_cases hx : x < sec + runLen alloc sec k
      · exact ih hx
      · have : x = sec + k := by omega
        rw [this]
        exact hc.2
    · exact ih h1

theorem scriptHead_nonpos (l : List Int) : scriptHead l ≤ 0 := by
  cases l with
  | nil => simp [scriptHead]
  | cons r l => simp [scriptHead]

theorem simLayer_baseFrame (c : SimConfig) (s : CommitBlockJob) :
    BaseFrame (simLayer c) s (fun w x => w.base_data x) where
  getlength := by intro bs w x; rfl
  truncate := by
    intro len w x
    simp only [simLayer]
    split_ifs <;> rfl
  sleep := by intro ms w x; rfl
  query := by intro sec nb w x; rfl
  read := by intro sec nb w x; rfl
  write := by
    intro sec buf nb w x hx
    have : ¬ (sec ≤ x ∧ x < sec + nb) := by omega
    simp [simLayer, this]
  drop := by
    intro w x
    simp only [simLayer]
    split_ifs <;> rfl
  reopen := by intro bs f w x; rfl
  complete := by intro ret w x; rfl

theorem simLayer_consistent (c : SimConfig) (s : CommitBlockJob) :
    Consistent (simLayer c) s c.end_ c.alloc c.top_data (fun w x => w.base_data x) where
  frame := simLayer_baseFrame c s
  query_run := by
    intro sec w h0 h1 hret
    have hs := scriptHead_nonpos w.query_script
    simp only [simLayer] at hret ⊢
    have hz : scriptHead w.query_script = 0 := by
      by_contra hne
      rw [if_neg hne] at hret
      omega
    simp only [hz, if_true]
    have hk : 1 ≤ (min (COMMIT_BUFFER_SIZE / BDRV_SECTOR_SIZE) (c.end_ - sec)).toNat := by
      have : (1 : Int) ≤ min (COMMIT_BUFFER_SIZE / BDRV_SECTOR_SIZE) (c.end_ - sec) := by
        simp only [COMMIT_BUFFER_SIZE, BDRV_SECTOR_SIZE]
        omega
      omega
    refine ⟨runLen_pos _ _ _ hk, ?_, ?_⟩
    · have := runLen_le c.alloc sec (min (COMMIT_BUFFER_SIZE / BDRV_SECTOR_SIZE) (c.end_ - sec)).toNat
      omega
    · intro x hx0 hx1
      rw [runLen_const c.alloc sec _ x hx0 hx1]
      cases c.alloc sec <;> simp
  read_ret := by intro sec nb w; exact scriptHead_nonpos _
  write_ret := by intro sec buf nb w; exact scriptHead_nonpos _
  read_top := by intro sec nb w i _ _ _; rfl
  write_base := by
    intro sec buf nb w x hret h0 h1
    simp only [simLayer] at hret ⊢
    simp [hret, h0, h1]

theorem scriptHead_neg_tail (l : List Int) (h : scriptHead l < 0) : l.tail.length < l.length := by
  cases l with
  | nil => simp [scriptHead] at h
  | cons r l => simp

theorem stop_on_error_ignore (e : Int) : stop_on_error BLOCK_ERR_IGNORE e = false := by
  simp [stop_on_error]

theorem simLayer_transient (c : SimConfig) (s : CommitBlockJob) (hc : c.cancel_after = none)
    (hd : c.drop_ret = 0) (hs : s.on_error = BLOCK_ERR_IGNORE) :
    Transient (simLayer c) s simFaults where
  not_cancelled := by
    intro w
    simp [simLayer, hc]
  drop_ok := by
    intro w
    exact hd
  soft_query := by
    intro sec nb w
    rw [hs]
    exact stop_on_error_ignore _
  soft_read := by
    intro sec nb w
    rw [hs]
    exact stop_on_error_ignore _
  soft_write := by
    intro sec buf nb w
    rw [hs]
    exact stop_on_error_ignore _
  faults_sleep := by
    intro ms w
    exact le_refl _
  faults_query := by
    intro sec nb w
    have h1 := List.length_tail w.query_script
    refine ⟨by simp only [simLayer, simFaults]; omega, ?_⟩
    intro h
    simp only [simLayer] at h
    have h2 : scriptHead w.query_script < 0 := by
      by_contra hn
      have h0 : scriptHead w.query_script = 0 := by
        have := scriptHead_nonpos w.query_script
        omega
      rw [if_pos h0] at h
      split_ifs at h <;> omega
    have := scriptHead_neg_tail _ h2
    simp only [simLayer, simFaults]
    omega
  faults_read := by
    intro sec nb w
    have h1 := List.length_tail w.read_script
    refine ⟨by simp only [simLayer, simFaults]; omega, ?_⟩
    intro h
    have := scriptHead_neg_tail _ h
    simp only [simLayer, simFaults]
    omega
  faults_write := by
    intro sec buf nb w
    have h1 := List.length_tail w.write_script
    refine ⟨by simp only [simLayer, simFaults]; omega, ?_⟩
    intro h
    have := scriptHead_neg_tail _ h
    simp only [simLayer, simFaults]
    omega
  clock_range := by
    intro w
    simp only [simLayer]
    omega
  sleep_clock := by
    intro ms w t ht h
    unfold isInt64 at ht
    simp only [simLayer] at h ⊢
    push_cast
    omega
  query_clock := by
    intro sec nb w
    exact le_refl _

/-! ## Error dispatch and cancellation -/

/-- C4 (stop-class error dispatch): in every run of `commit_run` (with an
overlay of Top in the chain), when a read or a write returns a negative code
`e` and the policy is STOP_ANY or REPORT, or STOP_ENOSPC with `e = -ENOSPC`,
the status of the job is exactly `e`, `bdrv_drop_intermediate` is never
called, and the events after the failed call are those of the teardown only
(reopens and, last, the completion callback with `e`): no further sleep,
allocation query, read or write. -/
theorem stop_class_error_is_terminal {W : Type} (A : BlockLayer W) (s : CommitBlockJob)
    (fuel : Nat) (st : RunState W) (res : RunResult W)
    (hov : ∀ w, A.bdrv_find_overlay s.active s.top w ≠ none)
    (h : commit_run A s fuel st = some res) (pre post : List Event) (ev : Event) (e : Int)
    (htr : res.st.trace = st.trace ++ (pre ++ ev :: post))
    (hev : (∃ bs sec nb, ev = Event.read bs sec nb e) ∨ (∃ bs sec nb, ev = Event.write bs sec nb e))
    (hneg : e < 0)
    (hpol : s.on_error = BLOCK_ERR_STOP_ANY ∨ s.on_error = BLOCK_ERR_REPORT ∨
      (s.on_error = BLOCK_ERR_STOP_ENOSPC ∧ e = -ENOSPC)) :
    res.terminal = Terminal.completed e ∧
      (∀ x ∈ pre ++ ev :: post, x.isDrop = false) ∧
      (∀ x ∈ post, x.isIO = false) ∧
      (∀ x ∈ post, x.isTeardown = true) ∧
      ∃ post0, post = post0 ++ [Event.complete e] := by
  have hstop : stop_on_error s.on_error e = true := by
    simp only [stop_on_error, Bool.decide_or, Bool.decide_and, Bool.or_eq_true,
      Bool.and_eq_true, decide_eq_true_eq]
    tauto
  have hcode : ev.stopCode s.on_error = some e := by
    rcases hev with ⟨bs, sec, nb, rfl⟩ | ⟨bs, sec, nb, rfl⟩ <;>
      simp [Event.stopCode, hneg, hstop]
  obtain ⟨h1, h2, h3, h4⟩ := stop_event_ends_run A s fuel st res hov h pre post ev e htr hcode
  exact ⟨h1, h2, fun x hx => (teardown_not_other s.on_error (h3 x hx)).2.1, h3, h4⟩

theorem simLayer_overlay (alloc : Int → Bool) (end_ : Int) (w : Sim) :
    (simLayer (simConfig alloc end_)).bdrv_find_overlay 3 1 w = some 2 := by
  rfl

/-- Witness of C4: the third write fails with `-ENOSPC` under STOP_ENOSPC; the
status is `-ENOSPC` and only the completion callback follows. -/
theorem stop_class_error_is_terminal_witness :
    commit_run (simLayer (simConfig (fun x => x % 2 = 0) 6)) (simJob BLOCK_ERR_STOP_ENOSPC 0) 10
        enospcState = some enospcRun ∧
    enospcRun.st.trace = enospcState.trace ++
      ([Event.getlength 1 3072, Event.getlength 0 3072,
        Event.sleep 0, Event.is_cancelled false, Event.is_allocated_above 0 1 1,
        Event.read 1 0 1 0, Event.write 0 0 1 0,
        Event.sleep 0, Event.is_cancelled false, Event.is_allocated_above 1 0 1,
        Event.sleep 0, Event.is_cancelled false, Event.is_allocated_above 2 1 1,
        Event.read 1 2 1 0, Event.write 0 2 1 0,
        Event.sleep 0, Event.is_cancelled false, Event.is_allocated_above 3 0 1,
        Event.sleep 0, Event.is_cancelled false, Event.is_allocated_above 4 1 1,
        Event.read 1 4 1 0] ++ Event.write 0 4 1 (-28) :: [Event.complete (-28)]) ∧
    enospcRun.terminal = Terminal.completed (-28) :=
  ⟨rfl, by decide,
   (stop_class_error_is_terminal (simLayer (simConfig (fun x => x % 2 = 0) 6))
      (simJob BLOCK_ERR_STOP_ENOSPC 0) 10 enospcState enospcRun
      (fun w => by rw [show (simJob BLOCK_ERR_STOP_ENOSPC 0).active = 3 from rfl,
        show (simJob BLOCK_ERR_STOP_ENOSPC 0).top = 1 from rfl, simLayer_overlay]; simp)
      rfl
      [Event.getlength 1 3072, Event.getlength 0 3072,
        Event.sleep 0, Event.is_cancelled false, Event.is_allocated_above 0 1 1,
        Event.read 1 0 1 0, Event.write 0 0 1 0,
        Event.sleep 0, Event.is_cancelled false, Event.is_allocated_above 1 0 1,
        Event.sleep 0, Event.is_cancelled false, Event.is_allocated_above 2 1 1,
        Event.read 1 2 1 0, Event.write 0 2 1 0,
        Event.sleep 0, Event.is_cancelled false, Event.is_allocated_above 3 0 1,
        Event.sleep 0, Event.is_cancelled false, Event.is_allocated_above 4 1 1,
        Event.read 1 4 1 0]
      [Event.complete (-28)] (Event.write 0 4 1 (-28)) (-28) (by decide)
      (Or.inr ⟨0, 4, 1, rfl⟩) (by decide) (Or.inr (Or.inr ⟨rfl, by decide⟩))).1⟩

/-- Counterexample to C6 as stated: under the policy IGNORE an allocation
query that fails with `-EIO` is not fatal.  The query is issued again on the
same sector, the two sectors are read and written, `bdrv_drop_intermediate` is
called and the status of the job is 0, not `-EIO`. -/
theorem query_error_is_retried_under_ignore :
    (commit_run queryFaultLayer (simJob BLOCK_ERR_IGNORE 0) 10 queryFaultState).map
      (fun r => (r.terminal, r.st.trace)) =
    some (Terminal.completed 0,
      [Event.getlength 1 1024, Event.getlength 0 1024,
       Event.sleep 0, Event.is_cancelled false, Event.is_allocated_above 0 (-5) 0,
       Event.sleep 0, Event.is_cancelled false, Event.is_allocated_above 0 1 2,
       Event.read 1 0 2 0, Event.write 0 0 2 0,
       Event.is_cancelled false, Event.drop_intermediate 3 1 0 0, Event.complete 0]) := by
  decide

/-- C6, amended (query errors go through the on-error policy): in every run
of `commit_run` (with an overlay of Top in the chain), when the allocation
query returns a negative code `e` and the policy is STOP_ANY or REPORT, or
STOP_ENOSPC with `e = -ENOSPC`, the status of the job is exactly `e`,
`bdrv_drop_intermediate` is never called, and the events after the failed
query are those of the teardown only: no further allocation query, read or
write. -/
theorem query_error_is_terminal_on_stop {W : Type} (A : BlockLayer W) (s : CommitBlockJob)
    (fuel : Nat) (st : RunState W) (res : RunResult W)
    (hov : ∀ w, A.bdrv_find_overlay s.active s.top w ≠ none)
    (h : commit_run A s fuel st = some res) (pre post : List Event) (sec nb e : Int)
    (htr : res.st.trace = st.trace ++ (pre ++ Event.is_allocated_above sec e nb :: post))
    (hneg : e < 0)
    (hpol : s.on_error = BLOCK_ERR_STOP_ANY ∨ s.on_error = BLOCK_ERR_REPORT ∨
      (s.on_error = BLOCK_ERR_STOP_ENOSPC ∧ e = -ENOSPC)) :
    res.terminal = Terminal.completed e ∧
      (∀ x ∈ pre ++ Event.is_allocated_above sec e nb :: post, x.isDrop = false) ∧
      (∀ x ∈ post, x.isIO = false) ∧
      (∀ x ∈ post, x.isTeardown = true) ∧
      ∃ post0, post = post0 ++ [Event.complete e] := by
  have hstop : stop_on_error s.on_error e = true := by
    simp only [stop_on_error, Bool.decide_or, Bool.decide_and, Bool.or_eq_true,
      Bool.and_eq_true, decide_eq_true_eq]
    tauto
  have hcode : (Event.is_allocated_above sec e nb).stopCode s.on_error = some e := by
    simp [Event.stopCode, hneg, hstop]
  obtain ⟨h1, h2, h3, h4⟩ := stop_event_ends_run A s fuel st res hov h pre post _ e htr hcode
  exact ⟨h1, h2, fun x hx => (teardown_not_other s.on_error (h3 x hx)).2.1, h3, h4⟩

/-- Witness of C6, amended: under REPORT the first allocation query fails with
`-EIO`; the status is `-EIO` and only the completion callback follows. -/
theorem query_error_is_terminal_on_stop_witness :
    commit_run queryFaultLayer (simJob BLOCK_ERR_REPORT 0) 10 queryFaultState =
      some queryFaultRun ∧
    queryFaultRun.st.trace = queryFaultState.trace ++
      ([Event.getlength 1 1024, Event.getlength 0 1024, Event.sleep 0,
        Event.is_cancelled false] ++ Event.is_allocated_above 0 (-5) 0 ::
        [Event.complete (-5)]) ∧
    queryFaultRun.terminal = Terminal.completed (-5) :=
  ⟨rfl, by decide,
   (query_error_is_terminal_on_stop queryFaultLayer (simJob BLOCK_ERR_REPORT 0) 10
      queryFaultState queryFaultRun
      (fun w => by rw [show (simJob BLOCK_ERR_REPORT 0).active = 3 from rfl,
        show (simJob BLOCK_ERR_REPORT 0).top = 1 from rfl, queryFaultLayer,
        simLayer_overlay]; simp)
      rfl
      [Event.getlength 1 1024, Event.getlength 0 1024, Event.sleep 0, Event.is_cancelled false]
      [Event.complete (-5)] 0 0 (-5) (by decide) (by decide) (Or.inr (Or.inl rfl))).1⟩

/-- C7 (cancellation): in every run of `commit_run` (with an overlay of Top in
the chain), once a call of `block_job_is_cancelled` has returned true, be it
the check after the sleep or the check of line 171 after the last sector was
copied, every later event is a repeated cancellation check that returns true
or an event of the teardown: no allocation query, read, write or sleep
follows, `bdrv_drop_intermediate` is never called in the run, the teardown
runs to the completion callback, and the status of the job is 0. -/
theorem cancel_ends_run_with_status_zero {W : Type} (A : BlockLayer W) (s : CommitBlockJob)
    (fuel : Nat) (st : RunState W) (res : RunResult W)
    (hov : ∀ w, A.bdrv_find_overlay s.active s.top w ≠ none)
    (h : commit_run A s fuel st = some res) (pre post : List Event)
    (htr : res.st.trace = st.trace ++ (pre ++ Event.is_cancelled true :: post)) :
    res.terminal = Terminal.completed 0 ∧
      (∀ x ∈ pre ++ Event.is_cancelled true :: post, x.isDrop = false) ∧
      (∀ x ∈ post, x = Event.is_cancelled true ∨ x.isTeardown = true) ∧
      (∀ x ∈ post, x.isIO = false) ∧
      ∃ post0, post = post0 ++ [Event.complete 0] := by
  obtain ⟨q, t, h1, hq, ht⟩ := commit_run_shape A s fuel st res h
  rw [h1] at htr
  have heq : q ++ t = pre ++ Event.is_cancelled true :: post := List.append_cancel_left htr
  obtain ⟨m, hm1, hm2⟩ := split_in_tail (p := fun x => ¬ x.quiet s.on_error = true)
    (fun x hx => not_not.mpr (hq x hx)) (by simp [Event.quiet]) heq
  have hmem : Event.is_cancelled true ∈ t := by rw [hm2]; simp
  have hio : ∀ x, x = Event.is_cancelled true ∨ x.isTeardown = true → x.isIO = false := by
    intro x hx
    rcases hx with rfl | hx
    · rfl
    · exact (teardown_not_other s.on_error hx).2.1
  have hdrop : (∀ x ∈ t, x.isDrop = false) →
      ∀ x ∈ pre ++ Event.is_cancelled true :: post, x.isDrop = false := by
    intro ht x hx
    rw [← heq] at hx
    rcases List.mem_append.mp hx with hx | hx
    · exact quiet_not_drop (hq x hx)
    · exact ht x hx
  have notin : ∀ td : List Event, (∀ x ∈ td, x.isTeardown = true) →
      Event.is_cancelled true ∉ td := by
    intro td htd hin
    exact (teardown_not_other s.on_error (htd _ hin)).2.2.2 rfl
  cases ht with
  | early ret td htd => exact absurd hmem (notin _ (teardown_isTeardown htd))
  | stopped w ev0 ret td hev0 hio0 hneg htd =>
    rcases List.mem_cons.mp hmem with h2 | h2
    · rw [← h2] at hio0
      cases hio0
    · exact absurd h2 (notin td (teardown_isTeardown htd))
  | overshoot w td htd =>
    rcases List.mem_cons.mp hmem with h2 | h2
    · cases h2
    · exact absurd h2 (notin td (teardown_isTeardown htd))
  | dropped w ret td htd =>
    rcases List.mem_cons.mp hmem with h2 | h2
    · cases h2
    · rcases List.mem_cons.mp h2 with h3 | h3
      · cases h3
      · exact absurd h3 (notin td (teardown_isTeardown htd))
  | cancelled w td htd =>
    have htdx := teardown_isTeardown htd
    obtain ⟨hterm, td0, htd0⟩ := teardown_some hov htd
    have hd := hdrop (by
      intro x hx
      simp only [List.mem_cons] at hx
      rcases hx with rfl | rfl | hx
      · rfl
      · rfl
      · exact (teardown_not_other s.on_error (htdx x hx)).1)
    have hpost : post = Event.is_cancelled true :: td ∨ post = td := by
      rcases m with _ | ⟨y, _ | ⟨z, m⟩⟩
      · simp only [List.nil_append, List.cons.injEq, true_and] at hm2
        exact Or.inl hm2.symm
      · simp only [List.cons_append, List.nil_append, List.cons.injEq, true_and] at hm2
        exact Or.inr hm2.2.symm
      · simp only [List.cons_append, List.cons.injEq] at hm2
        exact absurd (by rw [hm2.2.2]; simp) (notin td htdx)
    rcases hpost with hp | hp
    · refine ⟨hterm, hd, ?_, ?_, Event.is_cancelled true :: td0, by rw [hp, htd0]; simp⟩
      · intro x hx
        rw [hp] at hx
        rcases List.mem_cons.mp hx with rfl | hx
        · exact Or.inl rfl
        · exact Or.inr (htdx x hx)
      · intro x hx
        rw [hp] at hx
        rcases List.mem_cons.mp hx with rfl | hx
        · rfl
        · exact hio x (Or.inr (htdx x hx))
    · exact ⟨hterm, hd, fun x hx => Or.inr (htdx x (hp ▸ hx)),
        fun x hx => hio x (Or.inr (htdx x (hp ▸ hx))), td0, by rw [hp, htd0]⟩
  | cancelled_late w td htd =>
    have htdx := teardown_isTeardown htd
    obtain ⟨hterm, td0, htd0⟩ := teardown_some hov htd
    have hd := hdrop (by
      intro x hx
      simp only [List.mem_cons] at hx
      rcases hx with rfl | hx
      · rfl
      · exact (teardown_not_other s.on_error (htdx x hx)).1)
    have hp : post = td := by
      rcases m with _ | ⟨y, m⟩
      · simp only [List.nil_append, List.cons.injEq, true_and] at hm2
        exact hm2.symm
      · simp only [List.cons_append, List.cons.injEq] at hm2
        exact absurd (by rw [hm2.2]; simp) (notin td htdx)
    exact ⟨hterm, hd, fun x hx => Or.inr (htdx x (hp ▸ hx)),
      fun x hx => hio x (Or.inr (htdx x (hp ▸ hx))), td0, by rw [hp, htd0]⟩

/-- Witness of C7: the second check after a sleep sees the cancel; the check
of line 171 and the completion callback with status 0 follow, nothing else. -/
theorem cancel_ends_run_with_status_zero_witness :
    commit_run cancelLayer (simJob BLOCK_ERR_REPORT 0) 10 cancelState = some cancelRun ∧
    cancelRun.st.trace = cancelState.trace ++
      ([Event.getlength 1 2048, Event.getlength 0 2048, Event.sleep 0,
        Event.is_cancelled false, Event.is_allocated_above 0 1 1, Event.read 1 0 1 0,
        Event.write 0 0 1 0, Event.sleep 0] ++ Event.is_cancelled true ::
        [Event.is_cancelled true, Event.complete 0]) ∧
    cancelRun.terminal = Terminal.completed 0 :=
  ⟨rfl, by decide,
   (cancel_ends_run_with_status_zero cancelLayer (simJob BLOCK_ERR_REPORT 0) 10
      cancelState cancelRun (fun w => by simp [cancelLayer, simLayer, simConfig, simJob, chainOverlay])
      rfl
      [Event.getlength 1 2048, Event.getlength 0 2048, Event.sleep 0,
        Event.is_cancelled false, Event.is_allocated_above 0 1 1, Event.read 1 0 1 0,
        Event.write 0 0 1 0, Event.sleep 0]
      [Event.is_cancelled true, Event.complete 0] (by decide)).1⟩

/-! ## Completion -/

theorem teardown_complete_ret {ov : Option Nat} {ret : Int} {terminal : Terminal}
    {td : List Event} (h : Teardown ov ret terminal td) :
    (∀ r, Event.complete r ∈ td → r = ret) ∧
      (terminal = Terminal.completed ret ∨ terminal = Terminal.null_overlay) ∧
      (ov ≠ none → terminal = Terminal.completed ret ∧ Event.complete ret ∈ td) := by
  cases ov with
  | none =>
    refine ⟨?_, Or.inr h.1, fun hne => absurd rfl hne⟩
    intro r hr
    obtain ⟨bs, f, hb⟩ := h.2 _ hr
    cases hb
  | some o =>
    obtain ⟨h1, td0, h2, h3⟩ := h
    refine ⟨?_, Or.inl h1, fun _ => ⟨h1, by rw [h2]; simp⟩⟩
    intro r hr
    rw [h2] at hr
    rcases List.mem_append.mp hr with hr | hr
    · obtain ⟨bs, f, hb⟩ := h3 _ hr
      cases hb
    · simp only [List.mem_singleton, Event.complete.injEq] at hr
      exact hr

/-- C3 (completion): in every run of `commit_run`, `bdrv_drop_intermediate` is
called if and only if lines 103 to 167 were left through the loop with
`sector_num == end`, the job not cancelled and no error exit.  When it is
called, it is called on `(active, top, base)` and once, every event after it
is an event of the teardown (so it comes after every write), and the status
passed to `block_job_complete` is its return value (the status of the job,
whenever an overlay of Top is in the chain). -/
theorem drop_intermediate_iff_clean_finish {W : Type} (A : BlockLayer W) (s : CommitBlockJob)
    (fuel : Nat) (st : RunState W) (res : RunResult W)
    (h : commit_run A s fuel st = some res) :
    ∃ added, res.st.trace = st.trace ++ added ∧
      ((∃ x ∈ added, x.isDrop = true) ↔
        ∃ ov end_ ex sec st1,
          commit_copy A s fuel st = some (CopyResult.loop_left ov end_ ex sec st1) ∧
          sec = end_ ∧ A.block_job_is_cancelled st1.w = false ∧
          ∀ e, ex ≠ LoopExit.error e) ∧
      ∀ pre post x, added = pre ++ x :: post → x.isDrop = true →
        (∀ y ∈ pre, y.isDrop = false) ∧ (∀ y ∈ post, y.isTeardown = true) ∧
        ∃ r, x = Event.drop_intermediate s.active s.top s.base r ∧
          (∀ r1, Event.complete r1 ∈ added → r1 = r) ∧
          (res.terminal = Terminal.completed r ∨ res.terminal = Terminal.null_overlay) ∧
          ((∀ w, A.bdrv_find_overlay s.active s.top w ≠ none) →
            res.terminal = Terminal.completed r ∧ Event.complete r ∈ post) := by
  have nodrop : ∀ added : List Event, (∀ x ∈ added, x.isDrop = false) →
      (¬ ∃ x ∈ added, x.isDrop = true) ∧
      ∀ pre post x, added = pre ++ x :: post → x.isDrop = true →
        (∀ y ∈ pre, y.isDrop = false) ∧ (∀ y ∈ post, y.isTeardown = true) ∧
        ∃ r, x = Event.drop_intermediate s.active s.top s.base r ∧
          (∀ r1, Event.complete r1 ∈ added → r1 = r) ∧
          (res.terminal = Terminal.completed r ∨ res.terminal = Terminal.null_overlay) ∧
          ((∀ w, A.bdrv_find_overlay s.active s.top w ≠ none) →
            res.terminal = Terminal.completed r ∧ Event.complete r ∈ post) := by
    intro added hno
    refine ⟨?_, ?_⟩
    · rintro ⟨x, hx, hd⟩
      rw [hno x hx] at hd
      cases hd
    · intro pre post x hsplit hd
      rw [hno x (by rw [hsplit]; simp)] at hd
      cases hd
  have tdno : ∀ (ov : Option Nat) (ret : Int) (td : List Event),
      Teardown ov ret res.terminal td → ∀ x ∈ td, x.isDrop = false :=
    fun ov ret td htd x hx => (teardown_not_other s.on_error (teardown_isTeardown htd x hx)).1
  rcases commit_run_cases A s fuel st res h with ⟨ret, st1, hc, hres⟩ |
    ⟨ov, end_, ex, sec, st1, hc, hres⟩
  · -- a length query or the truncation failed
    rcases commit_copy_events A s fuel st _ hc with ⟨_, _, he, q, hq1, hq2⟩ |
      ⟨_, _, _, _, _, he, _⟩
    · cases he
      obtain ⟨td, h1, h2⟩ := exit_restore_reopen_trace A s none ret st1
      rw [← hres] at h1 h2
      have hno : ∀ x ∈ q ++ td, x.isDrop = false := by
        intro x hx
        rcases List.mem_append.mp hx with hx | hx
        · exact quiet_not_drop (hq2 x hx)
        · exact tdno _ _ _ h2 x hx
      refine ⟨q ++ td, by rw [h1, hq1]; simp, ?_, (nodrop _ hno).2⟩
      constructor
      · intro hx
        exact absurd hx (nodrop _ hno).1
      · rintro ⟨_, _, _, _, _, h3, _⟩
        rw [hc] at h3
        cases h3
    · cases he
  · rcases commit_copy_events A s fuel st _ hc with ⟨_, _, he, _⟩ |
      ⟨_, _, _, _, _, he, _, q, t, hq1, hq2, hq3⟩
    · cases he
    cases he
    have hqno : ∀ x ∈ q, x.isDrop = false := fun x hx => quiet_not_drop (hq2 x hx)
    by_cases hcond : sec = end_ ∧ A.block_job_is_cancelled st1.w = false ∧
        ∀ e, ex ≠ LoopExit.error e
    · -- the call is made
      obtain ⟨hsec, hcan, hex⟩ := hcond
      have ht : t = [] := by
        cases ex with
        | error ret => exact absurd rfl (hex ret)
        | cancelled =>
          have := hq3.2
          rw [hcan] at this
          cases this
        | finished => exact hq3
      subst ht
      obtain ⟨td, h1, h2, _⟩ := commit_finish_drop A s ov end_ ex sec st1 hex hcan hsec
      rw [← hres] at h1 h2
      have htdx := teardown_isTeardown h2
      obtain ⟨hcr, hterm, hsome⟩ := teardown_complete_ret h2
      refine ⟨q ++ (Event.is_cancelled false ::
        Event.drop_intermediate s.active s.top s.base
          (A.bdrv_drop_intermediate s.active s.top s.base st1.w).1 :: td),
        by rw [h1, hq1]; simp, ?_, ?_⟩
      · constructor
        · intro _
          exact ⟨ov, end_, ex, sec, st1, hc, hsec, hcan, hex⟩
        · intro _
          exact ⟨Event.drop_intermediate s.active s.top s.base
            (A.bdrv_drop_intermediate s.active s.top s.base st1.w).1, by simp, rfl⟩
      · intro pre post x hsplit hd
        obtain ⟨m, hm1, hm2⟩ := split_in_tail (p := fun x => x.isDrop = true)
          (fun x hx => by simp [hqno x hx]) hd hsplit
        rcases m with _ | ⟨y, _ | ⟨z, m⟩⟩
        · simp only [List.nil_append, List.cons.injEq] at hm2
          rw [← hm2.1] at hd
          cases hd
        · simp only [List.cons_append, List.nil_append, List.cons.injEq] at hm2
          obtain ⟨rfl, rfl, rfl⟩ := hm2
          refine ⟨?_, htdx, _, rfl, ?_, hterm, ?_⟩
          · intro y hy
            rw [hm1] at hy
            rcases List.mem_append.mp hy with hy | hy
            · exact hqno y hy
            · simp only [List.mem_singleton] at hy
              subst hy
              rfl
          · intro r1 hr1
            rcases List.mem_append.mp hr1 with hr1 | hr1
            · have := hq2 _ hr1
              simp [Event.quiet] at this
            · simp only [List.mem_cons, reduceCtorEq, false_or] at hr1
              exact hcr r1 hr1
          · intro hov
            cases hov2 : ov with
            | none =>
              obtain ⟨_, _, _, _, _, he2, ⟨w, hw⟩, _⟩ :=
                (commit_copy_events A s fuel st _ hc).resolve_left (by
                  rintro ⟨_, _, he3, _⟩
                  cases he3)
              cases he2
              exact absurd (hw.symm.trans hov2) (hov w)
            | some o => exact hsome (by rw [hov2]; simp)
        · simp only [List.cons_append, List.cons.injEq] at hm2
          have hx : x ∈ td := by rw [hm2.2.2]; simp
          rw [(teardown_not_other s.on_error (htdx x hx)).1] at hd
          cases hd
    · -- the call is not made
      have hrhs : ¬ ∃ ov end_ ex sec st1,
          commit_copy A s fuel st = some (CopyResult.loop_left ov end_ ex sec st1) ∧
          sec = end_ ∧ A.block_job_is_cancelled st1.w = false ∧
          ∀ e, ex ≠ LoopExit.error e := by
        rintro ⟨_, _, _, _, _, h3, h4⟩
        rw [hc] at h3
        cases h3
        exact hcond h4
      have hfin : ∃ added, res.st.trace = st.trace ++ added ∧ ∀ x ∈ added, x.isDrop = false := by
        cases ex with
        | error ret =>
          obtain ⟨ev, rfl, hev, _, _⟩ := hq3
          obtain ⟨td, h1, h2⟩ := exit_restore_reopen_trace A s ov ret st1
          have hres2 : res = exit_restore_reopen A s ov ret st1 := hres
          rw [← hres2] at h1 h2
          refine ⟨(q ++ [ev]) ++ td, by rw [h1, hq1]; simp, ?_⟩
          intro x hx
          rcases List.mem_append.mp hx with hx | hx
          · rcases List.mem_append.mp hx with hx | hx
            · exact hqno x hx
            · simp only [List.mem_singleton] at hx
              subst hx
              exact (stopCode_ret hev).2.1
          · exact tdno _ _ _ h2 x hx
        | cancelled =>
          obtain ⟨rfl, hcan⟩ := hq3
          obtain ⟨td, h1, h2⟩ := commit_finish_no_drop A s ov end_ LoopExit.cancelled sec st1
            (by intro r; simp) (Or.inl hcan)
          rw [← hres] at h1 h2
          refine ⟨(q ++ [Event.is_cancelled true]) ++
            (Event.is_cancelled (A.block_job_is_cancelled st1.w) :: td), by rw [h1, hq1]; simp, ?_⟩
          intro x hx
          rcases List.mem_append.mp hx with hx | hx
          · rcases List.mem_append.mp hx with hx | hx
            · exact hqno x hx
            · simp only [List.mem_singleton] at hx
              subst hx
              rfl
          · rcases List.mem_cons.mp hx with rfl | hx
            · rfl
            · exact tdno _ _ _ h2 x hx
        | finished =>
          have ht : t = [] := hq3
          subst ht
          have hor : A.block_job_is_cancelled st1.w = true ∨ sec ≠ end_ := by
            by_cases hcan : A.block_job_is_cancelled st1.w = true
            · exact Or.inl hcan
            · right
              intro hsec
              exact hcond ⟨hsec, by simpa using hcan, by intro e; simp⟩
          obtain ⟨td, h1, h2⟩ := commit_finish_no_drop A s ov end_ LoopExit.finished sec st1
            (by intro r; simp) hor
          rw [← hres] at h1 h2
          refine ⟨q ++ (Event.is_cancelled (A.block_job_is_cancelled st1.w) :: td),
            by rw [h1, hq1]; simp, ?_⟩
          intro x hx
          rcases List.mem_append.mp hx with hx | hx
          · exact hqno x hx
          · rcases List.mem_cons.mp hx with rfl | hx
            · rfl
            · exact tdno _ _ _ h2 x hx
      obtain ⟨added, ha1, ha2⟩ := hfin
      refine ⟨added, ha1, ?_, (nodrop _ ha2).2⟩
      constructor
      · intro hx
        exact absurd hx (nodrop _ ha2).1
      · intro hx
        exact absurd hx hrhs

/-! ## The content of Base -/

/-- C1 (conservation, P1): over a consistent block layer (`Consistent`: fixed
allocation map `alloc` and content `top0` of Top, allocation queries that
return runs with `1 <= n <= end - sector_num`, writes that change exactly
their range of Base), for every run of `commit_run` over a Top of `end_`
sectors that ends successfully (`bdrv_drop_intermediate` was called, which
happens only when the job is not cancelled and no error left the loop, and
returned 0, which is then the status of the job), every sector `x` of `[0, end_)` that is allocated
above Base or was reported so by an allocation query of the run holds in
Base, after the run, the content `top0 x` that a read of Top returns. -/
theorem allocated_sectors_conserved {W : Type} (A : BlockLayer W) (s : CommitBlockJob)
    (end_ : Int) (alloc : Int → Bool) (top0 : Int → SectorData)
    (base_sector : W → Int → SectorData)
    (hC : Consistent A s end_ alloc top0 base_sector)
    (fuel : Nat) (st : RunState W) (res : RunResult W)
    (h : commit_run A s fuel st = some res)
    (hlen : (A.bdrv_getlength s.top st.w).1 / BDRV_SECTOR_SIZE = end_)
    (added : List Event) (htr : res.st.trace = st.trace ++ added)
    (hdrop : Event.drop_intermediate s.active s.top s.base 0 ∈ added) :
    ∀ x, 0 ≤ x → x < end_ → (alloc x = true ∨ Reported added x) →
      base_sector res.st.w x = top0 x := by
  have hF := hC.frame
  have hkeep : ∀ ov ret (st0 : RunState W) x,
      base_sector (exit_restore_reopen A s ov ret st0).st.w x = base_sector st0.w x :=
    fun ov ret st0 x => exit_restore_reopen_keeps A s (fun w => base_sector w x)
      (fun bs fl w => hF.reopen bs fl w x) (fun r w => hF.complete r w x) ov ret st0
  rcases commit_run_cases A s fuel st res h with ⟨ret, st1, hc, hres⟩ |
    ⟨ov, end2, ex, sec, st1, hc, hres⟩
  · -- no drop on the early exits
    exfalso
    rcases commit_copy_events A s fuel st _ hc with ⟨_, _, he, q, hq1, hq2⟩ |
      ⟨_, _, _, _, _, he, _⟩
    · cases he
      obtain ⟨td, g1, g2⟩ := exit_restore_reopen_trace A s none ret st1
      rw [← hres, hq1, htr, List.append_assoc] at g1
      have := List.append_cancel_left g1
      rw [this] at hdrop
      rcases List.mem_append.mp hdrop with hd | hd
      · have := quiet_not_drop (hq2 _ hd)
        cases this
      · have := (teardown_not_other s.on_error (teardown_isTeardown g2 _ hd)).1
        cases this
    · cases he
  · obtain ⟨st0, hw0, _, _, hlen0, hl0, _, hend, _, ⟨pro, hpro1, hpro2⟩, hloop⟩ :=
      commit_copy_loop_left A s fuel st ov end2 ex sec st1 hc
    have hend2 : end2 = end_ := by rw [hend, hlen]
    subst hend2
    -- the events up to the end of the loop hold no drop
    obtain ⟨q, t, hq1, hq2, hq3⟩ : ∃ q t, st1.trace = st.trace ++ (q ++ t) ∧
        (∀ e ∈ q, e.quiet s.on_error = true) ∧ LoopTail A s ex st1 t := by
      rcases commit_copy_events A s fuel st _ hc with ⟨_, _, he, _⟩ |
        ⟨_, _, _, _, _, he, _, q, t, g1, g2, g3⟩
      · cases he
      · cases he
        exact ⟨q, t, g1, g2, g3⟩
    have hqt : ∀ e ∈ q ++ t, e.isDrop = false := by
      intro e he
      rcases List.mem_append.mp he with he | he
      · exact quiet_not_drop (hq2 e he)
      · cases ex with
        | finished =>
          have ht : t = [] := hq3
          rw [ht] at he
          simp at he
        | cancelled =>
          rw [hq3.1] at he
          simp only [List.mem_singleton] at he
          subst he
          rfl
        | error ret =>
          obtain ⟨ev, g1, g2, _⟩ := hq3
          rw [g1] at he
          simp only [List.mem_singleton] at he
          subst he
          exact (stopCode_ret g2).2.1
    -- so the drop is that of line 173
    have hcond : sec = end2 ∧ A.block_job_is_cancelled st1.w = false ∧
        ∀ e, ex ≠ LoopExit.error e := by
      by_contra hcond
      have hno : ∃ td, res.st.trace = st1.trace ++ td ∧ ∀ e ∈ td, e.isDrop = false := by
        cases ex with
        | error ret =>
          obtain ⟨td, g1, g2⟩ := exit_restore_reopen_trace A s ov ret st1
          have hres2 : res = exit_restore_reopen A s ov ret st1 := hres
          rw [← hres2] at g1 g2
          exact ⟨td, g1, fun e he =>
            (teardown_not_other s.on_error (teardown_isTeardown g2 e he)).1⟩
        | cancelled =>
          obtain ⟨td, g1, g2⟩ := commit_finish_no_drop A s ov end2 LoopExit.cancelled sec st1
            (by intro r; simp) (Or.inl hq3.2)
          rw [← hres] at g1 g2
          refine ⟨_, g1, ?_⟩
          intro e he
          rcases List.mem_cons.mp he with rfl | he
          · rfl
          · exact (teardown_not_other s.on_error (teardown_isTeardown g2 e he)).1
        | finished =>
          have hor : A.block_job_is_cancelled st1.w = true ∨ sec ≠ end2 := by
            by_cases hcan : A.block_job_is_cancelled st1.w = true
            · exact Or.inl hcan
            · right
              intro hsec
              exact hcond ⟨hsec, by simpa using hcan, by intro e; simp⟩
          obtain ⟨td, g1, g2⟩ := commit_finish_no_drop A s ov end2 LoopExit.finished sec st1
            (by intro r; simp) hor
          rw [← hres] at g1 g2
          refine ⟨_, g1, ?_⟩
          intro e he
          rcases List.mem_cons.mp he with rfl | he
          · rfl
          · exact (teardown_not_other s.on_error (teardown_isTeardown g2 e he)).1
      obtain ⟨td, g1, g2⟩ := hno
      rw [hq1, htr, List.append_assoc] at g1
      have := List.append_cancel_left g1
      rw [this] at hdrop
      rcases List.mem_append.mp hdrop with hd | hd
      · have := hqt _ hd
        cases this
      · have := g2 _ hd
        cases this
    obtain ⟨hsec, hcan, hex⟩ := hcond
    obtain ⟨td, g1, g2, g3⟩ := commit_finish_drop A s ov end2 ex sec st1 hex hcan hsec
    rw [← hres] at g1 g2 g3
    -- the content of Base at the entry of the loop is of no concern
    have hbase : ∀ x, 0 ≤ x → x < end2 → alloc x = true → base_sector st1.w x = top0 x ∧
        ∃ a, st1.trace = st0.trace ++ a ∧ ∀ x, Reported a x → alloc x = true ∧ 0 ≤ x ∧ x < end2 := by
      intro x hx0 hx1 ha
      rcases hloop with ⟨hpos, hl⟩ | ⟨hneg, _, _, _⟩
      · obtain ⟨k1, _, k3⟩ := commit_loop_conserves A s end2 alloc top0 base_sector hC fuel 0 0
          st0 ex sec st1 hl (le_refl 0) hpos (by intro x h0 h1; omega)
        exact ⟨k1 x hx0 (by omega) ha, k3⟩
      · omega
    have hrep : ∀ x, Reported added x → alloc x = true := by
      intro x hx
      rcases hloop with ⟨hpos, hl⟩ | ⟨hneg, _, _, hst⟩
      · obtain ⟨_, _, a, k3, k4⟩ := commit_loop_conserves A s end2 alloc top0 base_sector hC
          fuel 0 0 st0 ex sec st1 hl (le_refl 0) hpos (by intro x h0 h1; omega)
        rw [k3, hpro1, htr, List.append_assoc, List.append_assoc] at g1
        have hadd := List.append_cancel_left g1
        rw [hadd] at hx
        obtain ⟨sec1, nb, hin, hr⟩ := hx
        rcases List.mem_append.mp hin with hin | hin
        · have := (hpro2 _ hin).1
          cases this
        · rcases List.mem_append.mp hin with hin | hin
          · exact (k4 x ⟨sec1, nb, hin, hr⟩).1
          · simp only [List.mem_cons, reduceCtorEq, false_or] at hin
            have := (teardown_not_other s.on_error (teardown_isTeardown g2 _ hin)).2.1
            cases this
      · rw [hst, hpro1, htr, List.append_assoc] at g1
        have hadd := List.append_cancel_left g1
        rw [hadd] at hx
        obtain ⟨sec1, nb, hin, hr⟩ := hx
        rcases List.mem_append.mp hin with hin | hin
        · have := (hpro2 _ hin).1
          cases this
        · simp only [List.mem_cons, reduceCtorEq, false_or] at hin
          have := (teardown_not_other s.on_error (teardown_isTeardown g2 _ hin)).2.1
          cases this
    intro x hx0 hx1 hx
    have ha : alloc x = true := by
      rcases hx with hx | hx
      · exact hx
      · exact hrep x hx
    rw [g3, hkeep]
    simp only
    rw [hF.drop]
    exact (hbase x hx0 hx1 ha).1

/-- Witness of C1: in the run `cleanRun` over six sectors of which 0, 1, 4
and 5 are allocated, these sectors of Base hold the content of Top. -/
theorem allocated_sectors_conserved_witness :
    commit_run cleanLayer (simJob BLOCK_ERR_REPORT 0) 10 cleanState = some cleanRun ∧
    cleanRun.st.trace = cleanState.trace ++ cleanTrace ∧
    (∀ x, 0 ≤ x → x < 6 → (decide (x < 2 ∨ 4 ≤ x) = true ∨ Reported cleanTrace x) →
      cleanRun.st.w.base_data x = (100 + x).toNat) ∧
    cleanRun.st.w.base_data 5 = 105 :=
  ⟨rfl, by decide,
   allocated_sectors_conserved cleanLayer (simJob BLOCK_ERR_REPORT 0) 6
    (fun x => decide (x < 2 ∨ 4 ≤ x)) (fun x => (100 + x).toNat) (fun w x => w.base_data x)
    (simLayer_consistent _ _) 10 cleanState cleanRun rfl (by decide) cleanTrace (by decide)
    (by decide), by decide⟩

/-- C2 (base sectors untouched, P2): over a block layer that changes the
content of Base only by a write to Base and only inside the range of the write
(`BaseFrame`), in every run of `commit_run`, whatever its outcome, each write
goes to Base and comes right after the allocation query of the same range
`[sector_num, sector_num + n)` that returned 1 and the read of that range from
Top; and every sector that no allocation query of the run reported allocated
holds in Base, after the run, what it held before. -/
theorem base_untouched_outside_allocated {W : Type} (A : BlockLayer W) (s : CommitBlockJob)
    (base_sector : W → Int → SectorData) (hF : BaseFrame A s base_sector)
    (fuel : Nat) (st : RunState W) (res : RunResult W)
    (h : commit_run A s fuel st = some res) :
    ∃ added, res.st.trace = st.trace ++ added ∧
      (∀ pre post bs sec nb r, added = pre ++ Event.write bs sec nb r :: post →
        bs = s.base ∧
        ∃ pre0, pre = pre0 ++ [Event.is_allocated_above sec 1 nb, Event.read s.top sec nb 0]) ∧
      ∀ x, (¬ ∃ sec nb, Event.is_allocated_above sec 1 nb ∈ added ∧ sec ≤ x ∧ x < sec + nb) →
        base_sector res.st.w x = base_sector st.w x := by
  obtain ⟨added, h1, h2, h3⟩ := commit_run_writes A s base_sector hF fuel st res h
  exact ⟨added, h1, h2, h3⟩

/-- Witness of C2: the run `cleanRun`; sectors 2 and 3 are not allocated and
keep their content. -/
theorem base_untouched_outside_allocated_witness :
    commit_run cleanLayer (simJob BLOCK_ERR_REPORT 0) 10 cleanState = some cleanRun ∧
    cleanRun.st.w.base_data 2 = cleanState.w.base_data 2 ∧
    ∃ added, cleanRun.st.trace = cleanState.trace ++ added ∧
      (∀ pre post bs sec nb r, added = pre ++ Event.write bs sec nb r :: post →
        bs = 0 ∧
        ∃ pre0, pre = pre0 ++ [Event.is_allocated_above sec 1 nb, Event.read 1 sec nb 0]) ∧
      ∀ x, (¬ ∃ sec nb, Event.is_allocated_above sec 1 nb ∈ added ∧ sec ≤ x ∧ x < sec + nb) →
        cleanRun.st.w.base_data x = cleanState.w.base_data x :=
  ⟨rfl, by decide,
   base_untouched_outside_allocated cleanLayer (simJob BLOCK_ERR_REPORT 0)
    (fun w x => w.base_data x) (simLayer_baseFrame _ _) 10 cleanState cleanRun rfl⟩

/-- Witness of C3: the run `cleanRun` leaves the loop at `sector_num == end`,
calls `bdrv_drop_intermediate` once and completes with its return value. -/
theorem drop_intermediate_iff_clean_finish_witness :
    commit_run cleanLayer (simJob BLOCK_ERR_REPORT 0) 10 cleanState = some cleanRun ∧
    cleanRun.st.trace = cleanState.trace ++ cleanTrace ∧
    ∃ added, cleanRun.st.trace = cleanState.trace ++ added ∧
      ((∃ x ∈ added, x.isDrop = true) ↔
        ∃ ov end_ ex sec st1,
          commit_copy cleanLayer (simJob BLOCK_ERR_REPORT 0) 10 cleanState =
            some (CopyResult.loop_left ov end_ ex sec st1) ∧
          sec = end_ ∧ cleanLayer.block_job_is_cancelled st1.w = false ∧
          ∀ e, ex ≠ LoopExit.error e) ∧
      ∀ pre post x, added = pre ++ x :: post → x.isDrop = true →
        (∀ y ∈ pre, y.isDrop = false) ∧ (∀ y ∈ post, y.isTeardown = true) ∧
        ∃ r, x = Event.drop_intermediate 3 1 0 r ∧
          (∀ r1, Event.complete r1 ∈ added → r1 = r) ∧
          (cleanRun.terminal = Terminal.completed r ∨
            cleanRun.terminal = Terminal.null_overlay) ∧
          ((∀ w, cleanLayer.bdrv_find_overlay 3 1 w ≠ none) →
            cleanRun.terminal = Terminal.completed r ∧ Event.complete r ∈ post) :=
  ⟨rfl, by decide,
   drop_intermediate_iff_clean_finish cleanLayer (simJob BLOCK_ERR_REPORT 0) 10 cleanState
    cleanRun rfl⟩

/-! ## Starting the job -/

/-- C9 (start-time validation): `commit_start` reports the error of the first
failing check, in the order (1) policy STOP_ANY or STOP_ENOSPC with iostatus
disabled on the active layer: InvalidParameterCombination, (2) `top == bs`:
TopIsActive, (3) `top == base`: TopAndBaseIdentical, (4) no overlay of Top
found from the active layer: TopNotFound.  In each case it returns with the
world unchanged and no event: no reopen, no job record, no coroutine, no
completion callback. -/
theorem commit_start_validation {W : Type} (A : BlockLayer W) (bs base top : Nat)
    (speed : Int) (on_error : BlockErrorAction) (fuel : Nat) (w : W) :
    (((on_error = BLOCK_ERR_STOP_ANY ∨ on_error = BLOCK_ERR_STOP_ENOSPC) ∧
        A.bdrv_iostatus_is_enabled bs w = false) →
      commit_start A bs base top speed on_error fuel w =
        StartResult.failed QError.INVALID_PARAMETER_COMBINATION w []) ∧
    (¬ ((on_error = BLOCK_ERR_STOP_ANY ∨ on_error = BLOCK_ERR_STOP_ENOSPC) ∧
        A.bdrv_iostatus_is_enabled bs w = false) →
      (top = bs →
        commit_start A bs base top speed on_error fuel w =
          StartResult.failed QError.TOP_IS_ACTIVE w []) ∧
      (top ≠ bs → top = base →
        commit_start A bs base top speed on_error fuel w =
          StartResult.failed QError.TOP_AND_BASE_IDENTICAL w []) ∧
      (top ≠ bs → top ≠ base → A.bdrv_find_overlay bs top w = none →
        commit_start A bs base top speed on_error fuel w =
          StartResult.failed QError.TOP_NOT_FOUND w [])) := by
  refine ⟨?_, ?_⟩
  · intro h1
    have h1' : (on_error = BLOCK_ERR_STOP_ANY ∨ on_error = BLOCK_ERR_STOP_ENOSPC) ∧
        ¬ A.bdrv_iostatus_is_enabled bs w = true := ⟨h1.1, by simp [h1.2]⟩
    unfold commit_start
    rw [if_pos h1']
  · intro h1
    have h1' : ¬ ((on_error = BLOCK_ERR_STOP_ANY ∨ on_error = BLOCK_ERR_STOP_ENOSPC) ∧
        ¬ A.bdrv_iostatus_is_enabled bs w = true) := by
      intro h
      exact h1 ⟨h.1, by simpa using h.2⟩
    refine ⟨?_, ?_, ?_⟩
    · intro h2
      unfold commit_start
      rw [if_neg h1', if_pos h2]
    · intro h2 h3
      unfold commit_start
      rw [if_neg h1', if_neg h2, if_pos h3]
    · intro h2 h3 h4
      unfold commit_start
      rw [if_neg h1', if_neg h2, if_neg h3]
      simp only [h4]

/-- Witness of C9: the four errors on the chain 3, 2, 1, 0 of the simulated
block layer; in the first call iostatus is disabled and the top is also the
active layer, and the first check wins. -/
theorem commit_start_validation_witness :
    commit_start startLayer 3 0 3 0 BLOCK_ERR_STOP_ANY 10 { simWorld 4 with iostatus := false } =
      StartResult.failed QError.INVALID_PARAMETER_COMBINATION
        { simWorld 4 with iostatus := false } [] ∧
    commit_start startLayer 3 3 3 0 BLOCK_ERR_STOP_ANY 10 (simWorld 4) =
      StartResult.failed QError.TOP_IS_ACTIVE (simWorld 4) [] ∧
    commit_start startLayer 3 1 1 0 BLOCK_ERR_REPORT 10 (simWorld 4) =
      StartResult.failed QError.TOP_AND_BASE_IDENTICAL (simWorld 4) [] ∧
    commit_start startLayer 3 0 7 0 BLOCK_ERR_REPORT 10 (simWorld 4) =
      StartResult.failed QError.TOP_NOT_FOUND (simWorld 4) [] :=
  ⟨(commit_start_validation startLayer 3 0 3 0 BLOCK_ERR_STOP_ANY 10
      { simWorld 4 with iostatus := false }).1 ⟨Or.inl rfl, rfl⟩,
   ((commit_start_validation startLayer 3 3 3 0 BLOCK_ERR_STOP_ANY 10 (simWorld 4)).2
      (by decide)).1 rfl,
   ((commit_start_validation startLayer 3 1 1 0 BLOCK_ERR_REPORT 10 (simWorld 4)).2
      (by decide)).2.1 (by decide) rfl,
   ((commit_start_validation startLayer 3 0 7 0 BLOCK_ERR_REPORT 10 (simWorld 4)).2
      (by decide)).2.2 (by decide) (by decide) rfl⟩

/-! ## Flag restoration -/

/-- Counterexample to C8 as stated: every reopen succeeds, Base (layer 0) and
the overlay (layer 2) are read-only (flags 0) before `commit_start`, and the
device already has a job.  `commit_start` reopens both layers read-write,
fails with DeviceInUse and returns with the flags still `BDRV_O_RDWR`. -/
theorem device_in_use_leaves_flags_widened :
    (commit_start startLayer 3 0 1 0 BLOCK_ERR_REPORT 10
        { simWorld 4 with in_use := true }).error = some QError.DEVICE_IN_USE ∧
    (startLayer.bdrv_get_flags 0 { simWorld 4 with in_use := true },
      startLayer.bdrv_get_flags 2 { simWorld 4 with in_use := true }) = (0, 0) ∧
    (commit_start startLayer 3 0 1 0 BLOCK_ERR_REPORT 10
        { simWorld 4 with in_use := true }).world.map
      (fun w => (startLayer.bdrv_get_flags 0 w, startLayer.bdrv_get_flags 2 w)) =
      some (2, 2) := by
  decide

theorem restore_flags_sets {W : Type} (A : BlockLayer W)
    (hre : ∀ bs f w l, A.bdrv_get_flags l (A.bdrv_reopen bs f w) =
      if l = bs then f else A.bdrv_get_flags l w)
    (bs f : Nat) (st : RunState W) (l : Nat) :
    A.bdrv_get_flags l (restore_flags A bs f st).w =
      if l = bs then f else A.bdrv_get_flags l st.w := by
  unfold restore_flags
  by_cases h : f ≠ A.bdrv_get_flags bs st.w
  · rw [if_pos h]
    exact hre _ _ _ _
  · rw [if_neg h]
    by_cases hl : l = bs
    · simp only [hl, if_true]
      exact (not_not.mp h).symm
    · simp only [hl, if_false]

/-- The teardown with an overlay at hand leaves Base and the overlay with the
flags saved in the job record, when the overlay is Base only if the saved
flags agree. -/
theorem exit_restore_reopen_flags {W : Type} (A : BlockLayer W) (s : CommitBlockJob)
    (hre : ∀ bs f w l, A.bdrv_get_flags l (A.bdrv_reopen bs f w) =
      if l = bs then f else A.bdrv_get_flags l w)
    (hco : ∀ r w l, A.bdrv_get_flags l (A.block_job_complete r w) = A.bdrv_get_flags l w)
    (ov : Nat) (ret : Int) (st : RunState W)
    (hsame : s.base = ov → s.base_flags = s.orig_overlay_flags) :
    A.bdrv_get_flags s.base (exit_restore_reopen A s (some ov) ret st).st.w = s.base_flags ∧
    A.bdrv_get_flags ov (exit_restore_reopen A s (some ov) ret st).st.w =
      s.orig_overlay_flags := by
  simp only [exit_restore_reopen, RunState.log]
  rw [hco, hco, restore_flags_sets A hre, restore_flags_sets A hre, restore_flags_sets A hre]
  simp only [if_true]
  by_cases h : s.base = ov
  · simp [h, hsame h]
  · simp [h]

/-- C8, amended (flag restoration, P5): assuming that every `bdrv_reopen`
sets the flags it is asked for (and those of no other layer), that the
completion callback leaves the flags alone and that the chain is stable, on
every exit path of the job started by `commit_start` that reaches
`block_job_complete` (successful completion, cancel, error in the loop,
failure of `bdrv_drop_intermediate`) the open flags of Base and of the overlay
at the end equal the flags they had immediately before `commit_start` was
called. -/
theorem flags_restored_at_completion {W : Type} (A : BlockLayer W)
    (hre : ∀ bs f w l, A.bdrv_get_flags l (A.bdrv_reopen bs f w) =
      if l = bs then f else A.bdrv_get_flags l w)
    (hco : ∀ r w l, A.bdrv_get_flags l (A.block_job_complete r w) = A.bdrv_get_flags l w)
    (bs base top : Nat) (speed : Int) (on_error : BlockErrorAction) (fuel : Nat) (w : W)
    (hchain : ∀ w1, A.bdrv_find_overlay bs top w1 = A.bdrv_find_overlay bs top w)
    (s : CommitBlockJob) (res : RunResult W) (ret : Int)
    (h : commit_start A bs base top speed on_error fuel w = StartResult.started s (some res))
    (hterm : res.terminal = Terminal.completed ret) :
    ∃ ov, A.bdrv_find_overlay bs top w = some ov ∧
      A.bdrv_get_flags base res.st.w = A.bdrv_get_flags base w ∧
      A.bdrv_get_flags ov res.st.w = A.bdrv_get_flags ov w := by
  unfold commit_start at h
  by_cases h1 : (on_error = BLOCK_ERR_STOP_ANY ∨ on_error = BLOCK_ERR_STOP_ENOSPC) ∧
      ¬ A.bdrv_iostatus_is_enabled bs w = true
  · rw [if_pos h1] at h
    cases h
  rw [if_neg h1] at h
  by_cases h2 : top = bs
  · rw [if_pos h2] at h
    cases h
  rw [if_neg h2] at h
  by_cases h3 : top = base
  · rw [if_pos h3] at h
    cases h
  rw [if_neg h3] at h
  cases hov : A.bdrv_find_overlay bs top w with
  | none => simp only [hov] at h; cases h
  | some ov =>
    simp only [hov] at h
    by_cases h4 : (commit_start_reopen A base ov (A.bdrv_get_flags base w)
        (A.bdrv_get_flags ov w) w).1 = true
    · rw [if_pos h4] at h
      cases h
    rw [if_neg h4] at h
    split at h
    · cases h
    · rename_i job_speed limit hj
      simp only [StartResult.started.injEq] at h
      obtain ⟨hs, hrun⟩ := h
      refine ⟨ov, rfl, ?_⟩
      have hsb : s.base = base := by rw [← hs]
      have hsa : s.active = bs := by rw [← hs]
      have hst : s.top = top := by rw [← hs]
      have hbf : s.base_flags = A.bdrv_get_flags base w := by rw [← hs]
      have hof : s.orig_overlay_flags = A.bdrv_get_flags ov w := by rw [← hs]
      have hsame : s.base = ov → s.base_flags = s.orig_overlay_flags := by
        intro he
        rw [hbf, hof, ← he, hsb]
      rw [hs] at hrun
      rcases commit_run_cases A s fuel _ res hrun with ⟨r1, st1, _, hres⟩ |
        ⟨ov2, end_, ex, sec, st1, hc, hres⟩
      · rw [hres] at hterm
        simp [exit_restore_reopen] at hterm
      · have hov2 : ov2 = some ov := by
          obtain ⟨st0, _, _, _, _, _, _, _, k, _⟩ :=
            commit_copy_loop_left A s fuel _ ov2 end_ ex sec st1 hc
          rw [k, hsa, hst, hchain, hov]
        subst hov2
        have hfin : ∃ r st2, res = exit_restore_reopen A s (some ov) r st2 := by
          rw [hres]
          unfold commit_finish
          cases ex with
          | error r => exact ⟨_, _, rfl⟩
          | cancelled =>
            simp only
            split_ifs
            · exact ⟨_, _, rfl⟩
            · exact ⟨_, _, rfl⟩
          | finished =>
            simp only
            split_ifs
            · exact ⟨_, _, rfl⟩
            · exact ⟨_, _, rfl⟩
        obtain ⟨r, st2, hr⟩ := hfin
        have := exit_restore_reopen_flags A s hre hco ov r st2 hsame
        rw [← hr, hsb, hbf, hof] at this
        exact this

/-- Witness of C8, amended: `commit_start` on read-only layers reopens Base
and the overlay read-write, the job runs to its end and the teardown reopens
both with the flags they had. -/
theorem flags_restored_at_completion_witness :
    commit_start startLayer 3 0 1 0 BLOCK_ERR_REPORT 10 (simWorld 4) =
      StartResult.started (simJob BLOCK_ERR_REPORT 0) (some startRun) ∧
    startRun.terminal = Terminal.completed 0 ∧
    Event.reopen_multiple [(0, 2), (2, 2)] ∈ startRun.st.trace ∧
    Event.reopen 0 0 ∈ startRun.st.trace ∧ Event.reopen 2 0 ∈ startRun.st.trace ∧
    ∃ ov, startLayer.bdrv_find_overlay 3 1 (simWorld 4) = some ov ∧
      startLayer.bdrv_get_flags 0 startRun.st.w = startLayer.bdrv_get_flags 0 (simWorld 4) ∧
      startLayer.bdrv_get_flags ov startRun.st.w = startLayer.bdrv_get_flags ov (simWorld 4) :=
  ⟨rfl, by decide, by decide, by decide, by decide,
   flags_restored_at_completion startLayer (fun _ _ _ _ => rfl) (fun _ _ _ => rfl)
    3 0 1 0 BLOCK_ERR_REPORT 10 (simWorld 4) (fun _ => rfl) (simJob BLOCK_ERR_REPORT 0)
    startRun 0 rfl (by decide)⟩

/-! ## Retry-class errors -/

/-- C5 (retry-class error dispatch).  First part: in a pass through the loop
body in which a read or a write returns a negative code `e`, under the policy
IGNORE, or STOP_ENOSPC with `e != -ENOSPC`, the body ends with `n = 0` and
`common.offset` unchanged, the loop goes on at the same `sector_num` (with
`delay_ms = 0`), and the next pass, unless it sees a cancel, issues the
allocation query on that same sector.  Second part: over a consistent block
layer whose faults are transient (`Transient`: at most `faults` calls fail,
all with codes on which the policy does not stop; no cancel), `commit_run`
ends, given enough fuel, having reached `sector_num == end`: it calls
`bdrv_drop_intermediate`, completes with status 0, and every allocated sector
of Top is copied into Base. -/
theorem retry_class_error_is_retried {W : Type} (A : BlockLayer W) (s : CommitBlockJob)
    (end_ : Int) (alloc : Int → Bool) (top0 : Int → SectorData)
    (base_sector : W → Int → SectorData) (faults : W → Nat) :
    (∀ (fuel : Nat) (sec d : Int) (st : RunState W) (evs : List Event) (bs : Nat)
        (secx nb e : Int),
      (commit_body A s sec d st).state.trace = st.trace ++ evs →
      (Event.read bs secx nb e ∈ evs ∨ Event.write bs secx nb e ∈ evs) → e < 0 →
      (s.on_error = BLOCK_ERR_IGNORE ∨ (s.on_error = BLOCK_ERR_STOP_ENOSPC ∧ e ≠ -ENOSPC)) →
      sec < end_ →
      ∃ st1, commit_body A s sec d st = BodyResult.next st1 ∧ st1.n = 0 ∧
        st1.offset = st.offset ∧
        commit_loop A s end_ (fuel + 1) sec d st = commit_loop A s end_ fuel sec 0 st1 ∧
        (A.block_job_is_cancelled (A.block_job_sleep 0 st1.w) = false →
          ∃ r n rest, (commit_body A s sec 0 st1).state.trace = st1.trace ++
            (Event.sleep 0 :: Event.is_cancelled false ::
              Event.is_allocated_above sec r n :: rest))) ∧
    (Consistent A s end_ alloc top0 base_sector → Transient A s faults →
      (∀ w, A.bdrv_find_overlay s.active s.top w ≠ none) →
      (∀ len w, (A.bdrv_truncate s.base len w).1 = 0) →
      ∀ st : RunState W, 0 ≤ (A.bdrv_getlength s.top st.w).1 →
      (A.bdrv_getlength s.top st.w).1 / BDRV_SECTOR_SIZE = end_ →
      0 ≤ (A.bdrv_getlength s.base (A.bdrv_getlength s.top st.w).2).1 →
      isInt64 st.limit.next_slice_time →
      ∃ N, ∀ fuel, N ≤ fuel → ∃ res, commit_run A s fuel st = some res ∧
        res.terminal = Terminal.completed 0 ∧
        (∃ added, res.st.trace = st.trace ++ added ∧
          Event.drop_intermediate s.active s.top s.base 0 ∈ added) ∧
        ∀ x, 0 ≤ x → x < end_ → alloc x = true → base_sector res.st.w x = top0 x) := by
  refine ⟨?_, ?_⟩
  · intro fuel sec d st evs bs secx nb e htr hev hneg hpol hlt
    have hsoft : stop_on_error s.on_error e = false := by
      rcases hpol with h | ⟨h, hne⟩
      · rw [h]
        simp [stop_on_error]
      · rw [h]
        simp [stop_on_error, hne]
    obtain ⟨st1, hb, hn, hoff⟩ := commit_body_retry A s sec d st evs bs secx nb e htr hev hneg hsoft
    have h0 : toInt64 0 = 0 := by decide
    refine ⟨st1, hb, hn, hoff, ?_, ?_⟩
    · rw [commit_loop, hb]
      simp only [hn, add_zero, hlt, if_true]
    · intro hc
      have := commit_body_queries A s sec 0 st1 (by unfold bodySleep; rw [h0]; exact hc)
      rw [h0] at this
      exact this
  · intro hC hT hov htrunc st hlen0 hlen hbase hnext
    exact commit_run_live A s end_ alloc top0 base_sector faults hC hT hov htrunc st hlen0 hlen
      hbase hnext

/-- Witness of C5: over six sectors of which 0, 1, 4 and 5 are allocated, the
first read fails with `-EIO` under IGNORE.  The pass ends with `n = 0`, the
next pass queries sector 0 again, and the run ends with status 0 and the
allocated sectors copied. -/
theorem retry_class_error_is_retried_witness :
    (commit_body cleanLayer (simJob BLOCK_ERR_IGNORE 0) 0 0 retryState).state.trace =
      retryState.trace ++ [Event.sleep 0, Event.is_cancelled false,
        Event.is_allocated_above 0 1 2, Event.read 1 0 2 (-5)] ∧
    (∃ st1, commit_body cleanLayer (simJob BLOCK_ERR_IGNORE 0) 0 0 retryState =
        BodyResult.next st1 ∧ st1.n = 0 ∧ st1.offset = retryState.offset ∧
        commit_loop cleanLayer (simJob BLOCK_ERR_IGNORE 0) 6 (9 + 1) 0 0 retryState =
          commit_loop cleanLayer (simJob BLOCK_ERR_IGNORE 0) 6 9 0 0 st1 ∧
        (cleanLayer.block_job_is_cancelled (cleanLayer.block_job_sleep 0 st1.w) = false →
          ∃ r n rest, (commit_body cleanLayer (simJob BLOCK_ERR_IGNORE 0) 0 0 st1).state.trace =
            st1.trace ++ (Event.sleep 0 :: Event.is_cancelled false ::
              Event.is_allocated_above 0 r n :: rest))) ∧
    (∃ N, ∀ fuel, N ≤ fuel → ∃ res,
        commit_run cleanLayer (simJob BLOCK_ERR_IGNORE 0) fuel retryState = some res ∧
        res.terminal = Terminal.completed 0 ∧
        (∃ added, res.st.trace = retryState.trace ++ added ∧
          Event.drop_intermediate 3 1 0 0 ∈ added) ∧
        ∀ x, 0 ≤ x → x < 6 → decide (x < 2 ∨ 4 ≤ x) = true →
          res.st.w.base_data x = (100 + x).toNat) ∧
    (commit_run cleanLayer (simJob BLOCK_ERR_IGNORE 0) 10 retryState).map
        (fun r => (r.terminal, r.st.offset, r.st.w.base_data 0, r.st.w.base_data 5)) =
      some (Terminal.completed 0, 3072, 100, 105) :=
  ⟨by decide,
   (retry_class_error_is_retried cleanLayer (simJob BLOCK_ERR_IGNORE 0) 6
      (fun x => decide (x < 2 ∨ 4 ≤ x)) (fun x => (100 + x).toNat) (fun w x => w.base_data x)
      simFaults).1 9 0 0 retryState
      [Event.sleep 0, Event.is_cancelled false, Event.is_allocated_above 0 1 2,
        Event.read 1 0 2 (-5)]
      1 0 2 (-5) (by decide) (Or.inl (by decide)) (by decide)
      (Or.inl rfl) (by decide),
   (retry_class_error_is_retried cleanLayer (simJob BLOCK_ERR_IGNORE 0) 6
      (fun x => decide (x < 2 ∨ 4 ≤ x)) (fun x => (100 + x).toNat) (fun w x => w.base_data x)
      simFaults).2 (simLayer_consistent _ _) (simLayer_transient _ _ rfl rfl rfl)
      (fun _ => by simp [cleanLayer, simLayer, simConfig, simJob, chainOverlay])
      (fun _ _ => rfl) retryState (by decide) (by decide) (by decide)
      ⟨by decide, by decide⟩,
   by decide⟩

/-! ## Rate limiter: speed, units, window, delay -/

/-- C14 (`commit_set_speed`): for every `speed < 0` it returns `-EINVAL` and
leaves the limiter (`slice_quota`, `dispatched`, `next_slice_time`) unchanged;
for every `speed >= 0` it returns 0 and changes `slice_quota` only. -/
theorem commit_set_speed_result (limit : RateLimit) (speed : Int) :
    (speed < 0 →
      (commit_set_speed limit speed).1 = -EINVAL ∧ (commit_set_speed limit speed).2 = limit) ∧
    (0 ≤ speed →
      (commit_set_speed limit speed).1 = 0 ∧
      (commit_set_speed limit speed).2.dispatched = limit.dispatched ∧
      (commit_set_speed limit speed).2.next_slice_time = limit.next_slice_time) := by
  unfold commit_set_speed
  refine ⟨?_, ?_⟩
  · intro h
    simp [h]
  · intro h
    have h1 : ¬ speed < 0 := by omega
    simp [h1, ratelimit_set_speed]

/-- Witness of C14: speed `-1` is rejected, speed 1 MiB/s gives a quota of
204 sectors per window. -/
theorem commit_set_speed_result_witness :
    commit_set_speed ⟨7, 8, 9⟩ (-1) = (-22, ⟨7, 8, 9⟩) ∧
    commit_set_speed ⟨7, 8, 9⟩ 1048576 = (0, ⟨7, 204, 9⟩) ∧
    ((commit_set_speed ⟨7, 8, 9⟩ (-1)).1 = -EINVAL ∧
      (commit_set_speed ⟨7, 8, 9⟩ (-1)).2 = ⟨7, 8, 9⟩) ∧
    ((commit_set_speed ⟨7, 8, 9⟩ 1048576).1 = 0 ∧
      (commit_set_speed ⟨7, 8, 9⟩ 1048576).2.dispatched = 9 ∧
      (commit_set_speed ⟨7, 8, 9⟩ 1048576).2.next_slice_time = 7) :=
  ⟨by decide, by decide,
   (commit_set_speed_result ⟨7, 8, 9⟩ (-1)).1 (by decide),
   (commit_set_speed_result ⟨7, 8, 9⟩ 1048576).2 (by decide)⟩

/-- The function `ratelimit_calculate_delay` in terms of its window step and
its admission test. -/
theorem ratelimit_calculate_delay_admits (limit : RateLimit) (n now : Int) :
    (ratelimit_admits (ratelimit_window limit now) n →
      ratelimit_calculate_delay limit n now =
        (0, { ratelimit_window limit now with
              dispatched := toUInt64 ((ratelimit_window limit now).dispatched + n) })) ∧
    (¬ ratelimit_admits (ratelimit_window limit now) n →
      ratelimit_calculate_delay limit n now =
        (toInt64 ((ratelimit_window limit now).next_slice_time - now),
          { ratelimit_window limit now with dispatched := n })) := by
  unfold ratelimit_admits ratelimit_window ratelimit_calculate_delay
  refine ⟨?_, ?_⟩
  · intro h
    simp only [h, if_true]
  · intro h
    simp only [h, if_false]

/-- The quota that `commit_set_speed` stores: sectors per window. -/
theorem commit_set_speed_quota (limit : RateLimit) (speed : Int) (h0 : 0 ≤ speed)
    (h1 : speed < 9223372036854775808) :
    (commit_set_speed limit speed).2.slice_quota = speed / 512 / 10 := by
  unfold commit_set_speed ratelimit_set_speed
  have h : ¬ speed < 0 := by omega
  simp only [h, if_false, toUInt64, BDRV_SECTOR_SIZE, SLICE_TIME]
  omega

/-- C16 (unit consistency of the limiter): for every speed `>= 0` (a value of
`int64_t`) and all sector counts `d, n >= 0` whose byte count fits 64 bits,
the quota that `commit_set_speed` stores is `(speed / 512) / 10` sectors, and
the admission test of the code on `d` sectors dispatched and a request of `n`
sectors holds exactly when the admission test of the specified byte limiter
holds on quota `speed / 10`, `512 * d` bytes dispatched and a request of
`512 * n` bytes; in numbers, `d + n <= (speed / 512) / 10` iff
`512 * (d + n) <= speed / 10`. -/
theorem limiter_units_agree (limit : RateLimit) (speed d n : Int) (h0 : 0 ≤ speed)
    (h1 : speed < 9223372036854775808) (hd : 0 ≤ d) (hn : 0 ≤ n)
    (hb : 512 * (d + n) < 18446744073709551616) :
    (commit_set_speed limit speed).2.slice_quota = speed / 512 / 10 ∧
    (ratelimit_admits { (commit_set_speed limit speed).2 with dispatched := d } n ↔
      spec_admits (spec_slice_quota speed) (512 * d) (512 * n)) ∧
    (d + n ≤ speed / 512 / 10 ↔ 512 * (d + n) ≤ speed / 10) := by
  have hq := commit_set_speed_quota limit speed h0 h1
  refine ⟨hq, ?_, by omega⟩
  unfold ratelimit_admits spec_admits spec_slice_quota
  simp only [hq, toUInt64]
  constructor
  · rintro (h | h)
    · left; omega
    · right; omega
  · rintro (h | h)
    · left; omega
    · right; omega

/-- Witness of C16: at 1 MiB/s the quota is 204 sectors; 200 sectors
dispatched and a request of 4 pass both tests, a request of 5 fails both. -/
theorem limiter_units_agree_witness :
    (commit_set_speed ⟨0, 0, 0⟩ 1048576).2.slice_quota = 204 ∧
    (200 + 4 ≤ (1048576 : Int) / 512 / 10 ↔ 512 * (200 + 4) ≤ (1048576 : Int) / 10) ∧
    (200 + 5 ≤ (1048576 : Int) / 512 / 10 ↔ 512 * (200 + 5) ≤ (1048576 : Int) / 10) ∧
    ¬ (200 + 5 ≤ (1048576 : Int) / 512 / 10) :=
  ⟨by decide,
   (limiter_units_agree ⟨0, 0, 0⟩ 1048576 200 4 (by decide) (by decide) (by decide)
      (by decide) (by decide)).2.2,
   (limiter_units_agree ⟨0, 0, 0⟩ 1048576 200 5 (by decide) (by decide) (by decide)
      (by decide) (by decide)).2.2,
   by decide⟩

/-- Counterexample to C17 as stated: a call at `now == next_slice_time` does
not start a new window.  With `next_slice_time = 100`, quota 10 and 5
dispatched, the call for 3 at `now = 100` leaves `next_slice_time` at 100 (not
200) and `dispatched` at 8 (not 3). -/
theorem window_kept_at_deadline :
    ratelimit_calculate_delay ⟨100, 10, 5⟩ 3 100 = (0, ⟨100, 10, 8⟩) := by
  decide

/-- C17, amended (window reset, I2): for every limiter state and every call
of `ratelimit_calculate_delay(n)` (`n` a value of `uint64_t`) at a clock value
`now > next_slice_time` (with `now + 100` a value of `int64_t`), the call
starts a new window before charging: afterwards `next_slice_time == now + 100`
and `dispatched == n`, and it returns 0.  At `now == next_slice_time` the
window is kept: `next_slice_time` is unchanged, and the call returns 0. -/
theorem window_reset_after_deadline (limit : RateLimit) (n now : Int)
    (hn0 : 0 ≤ n) (hn1 : n < 18446744073709551616)
    (hnow0 : -9223372036854775808 ≤ now) (hnow1 : now + 100 < 9223372036854775808) :
    (limit.next_slice_time < now →
      (ratelimit_calculate_delay limit n now).2.next_slice_time = now + 100 ∧
      (ratelimit_calculate_delay limit n now).2.dispatched = n ∧
      (ratelimit_calculate_delay limit n now).1 = 0) ∧
    (limit.next_slice_time = now →
      (ratelimit_calculate_delay limit n now).2.next_slice_time = limit.next_slice_time ∧
      (ratelimit_calculate_delay limit n now).1 = 0) := by
  unfold ratelimit_calculate_delay
  simp only [toInt64, toUInt64, SLICE_TIME]
  refine ⟨?_, ?_⟩
  · intro h
    split_ifs <;> dsimp only at * <;> omega
  · intro h
    split_ifs <;> dsimp only at * <;> omega

/-- Witness of C17, amended: the state of the counterexample, one tick
later. -/
theorem window_reset_after_deadline_witness :
    ratelimit_calculate_delay ⟨100, 10, 5⟩ 3 101 = (0, ⟨201, 10, 3⟩) ∧
    ((ratelimit_calculate_delay ⟨100, 10, 5⟩ 3 101).2.next_slice_time = 101 + 100 ∧
      (ratelimit_calculate_delay ⟨100, 10, 5⟩ 3 101).2.dispatched = 3 ∧
      (ratelimit_calculate_delay ⟨100, 10, 5⟩ 3 101).1 = 0) ∧
    ((ratelimit_calculate_delay ⟨100, 10, 5⟩ 3 100).2.next_slice_time = 100 ∧
      (ratelimit_calculate_delay ⟨100, 10, 5⟩ 3 100).1 = 0) :=
  ⟨by decide,
   (window_reset_after_deadline ⟨100, 10, 5⟩ 3 101 (by decide) (by decide) (by decide)
      (by decide)).1 (by decide),
   (window_reset_after_deadline ⟨100, 10, 5⟩ 3 100 (by decide) (by decide) (by decide)
      (by decide)).2 (by decide)⟩

/-- The range of a reachable limiter state: the window deadline is at most
100 ms after the last clock value, and neither is negative. -/
theorem limiterReach_range (limit : RateLimit) (t : Int) (h : LimiterReach limit t) :
    0 ≤ t ∧ 0 ≤ limit.next_slice_time ∧ limit.next_slice_time ≤ t + 100 := by
  induction h with
  | init => decide
  | set_speed limit t speed _ ih =>
    unfold commit_set_speed ratelimit_set_speed
    split_ifs <;> exact ih
  | call limit t n now _ hnow hmax hn0 hn1 ih =>
    unfold ratelimit_calculate_delay
    simp only [toInt64, toUInt64, SLICE_TIME]
    split_ifs <;> dsimp only at * <;> omega

/-- The returned delay of one call whose window deadline is at most 100 ms
ahead of the clock. -/
theorem ratelimit_delay_range (limit : RateLimit) (n now : Int)
    (hnext : limit.next_slice_time ≤ now + 100)
    (hmin : -9223372036854775808 ≤ now) (hmax : now + 100 < 9223372036854775808) :
    ((ratelimit_calculate_delay limit n now).1 = 0 ∨
      (0 < (ratelimit_calculate_delay limit n now).1 ∧
        (ratelimit_calculate_delay limit n now).1 ≤ 100)) ∧
    (0 < (ratelimit_calculate_delay limit n now).1 →
      (ratelimit_calculate_delay limit n now).2.dispatched = n ∧
      (ratelimit_calculate_delay limit n now).2.next_slice_time = limit.next_slice_time ∧
      (ratelimit_calculate_delay limit n now).1 = limit.next_slice_time - now) := by
  unfold ratelimit_calculate_delay
  simp only [toInt64, toUInt64, SLICE_TIME]
  refine ⟨?_, ?_⟩
  · split_ifs <;> dsimp only at * <;> omega
  · intro h
    split_ifs at h ⊢ <;> dsimp only at * <;> omega

/-- C20 (delay range): every limiter state reachable from the
zero-initialised state through calls at non-decreasing clock values (and
changes of the speed) has `next_slice_time <= now + 100` at the entry of a
further call at a clock value `now` not before the last one; and for every
limiter state with `next_slice_time <= now + 100` at entry, the value that
`ratelimit_calculate_delay(n)` returns is 0 or a delay `d` with `0 < d <= 100`,
never negative; when a positive delay is returned, `dispatched` is set to `n`,
`next_slice_time` is unchanged and the returned value is
`next_slice_time - now`.  (Clock values are values of `int64_t` with
`now + 100` representable.) -/
theorem delay_range_of_reachable (limit : RateLimit) (n now : Int)
    (hmin : -9223372036854775808 ≤ now) (hmax : now + 100 < 9223372036854775808) :
    (∀ t, LimiterReach limit t → t ≤ now → limit.next_slice_time ≤ now + 100) ∧
    (limit.next_slice_time ≤ now + 100 →
      ((ratelimit_calculate_delay limit n now).1 = 0 ∨
        (0 < (ratelimit_calculate_delay limit n now).1 ∧
          (ratelimit_calculate_delay limit n now).1 ≤ 100)) ∧
      (0 < (ratelimit_calculate_delay limit n now).1 →
        (ratelimit_calculate_delay limit n now).2.dispatched = n ∧
        (ratelimit_calculate_delay limit n now).2.next_slice_time = limit.next_slice_time ∧
        (ratelimit_calculate_delay limit n now).1 = limit.next_slice_time - now)) := by
  refine ⟨?_, ?_⟩
  · intro t h hnow
    have hr := limiterReach_range limit t h
    omega
  · intro hnext
    exact ratelimit_delay_range limit n now hnext hmin hmax

/-- Witness of C20: at 1 MiB/s (204 sectors per window), a first run of 1024
sectors at clock 5 opens the window that ends at 105; the next run, asked for
at clock 7, is refused with the delay 98. -/
theorem delay_range_of_reachable_witness :
    LimiterReach ⟨105, 204, 1024⟩ 5 ∧
    ratelimit_calculate_delay ⟨105, 204, 1024⟩ 1024 7 = (98, ⟨105, 204, 1024⟩) ∧
    (105 : Int) ≤ 7 + 100 ∧
    ((ratelimit_calculate_delay ⟨105, 204, 1024⟩ 1024 7).1 = 0 ∨
      (0 < (ratelimit_calculate_delay ⟨105, 204, 1024⟩ 1024 7).1 ∧
        (ratelimit_calculate_delay ⟨105, 204, 1024⟩ 1024 7).1 ≤ 100)) ∧
    (0 < (ratelimit_calculate_delay ⟨105, 204, 1024⟩ 1024 7).1 →
      (ratelimit_calculate_delay ⟨105, 204, 1024⟩ 1024 7).2.dispatched = 1024 ∧
      (ratelimit_calculate_delay ⟨105, 204, 1024⟩ 1024 7).2.next_slice_time = 105 ∧
      (ratelimit_calculate_delay ⟨105, 204, 1024⟩ 1024 7).1 = 105 - 7) :=
  ⟨LimiterReach.call _ 0 1024 5 (LimiterReach.set_speed _ 0 1048576 LimiterReach.init)
      (by decide) (by decide) (by decide) (by decide),
   by decide,
   (delay_range_of_reachable ⟨105, 204, 1024⟩ 1024 7 (by decide) (by decide)).1 5
      (LimiterReach.call _ 0 1024 5 (LimiterReach.set_speed _ 0 1048576 LimiterReach.init)
        (by decide) (by decide) (by decide) (by decide))
      (by decide),
   (delay_range_of_reachable ⟨105, 204, 1024⟩ 1024 7 (by decide) (by decide)).2 (by decide)⟩

/-- Counterexample to C11 as stated: at speed 1 MiB/s (204 sectors per
window) and runs of 1024 sectors, the calls at the clock values 1, 2, 101 and
102 return 0, 99, 0 and 0 (the refused call is retried when its delay has
elapsed), so 3072 sectors, 1.5 MiB, are admitted within 102 ms: more than
1.1 times 1 MiB for one second.  The 20 runs of a fully allocated Top of
10 MiB are all admitted by clock value 1010 with 990 ms of delay in all. -/
theorem rate_bound_exceeded_by_large_runs :
    limiter_delays (commit_set_speed ⟨0, 0, 0⟩ 1048576).2
      [(1024, 1), (1024, 2), (1024, 101), (1024, 102)] = [0, 99, 0, 0] ∧
    limiter_disciplined (commit_set_speed ⟨0, 0, 0⟩ 1048576).2
      [(1024, 1), (1024, 2), (1024, 101), (1024, 102)] ∧
    limiter_admitted (commit_set_speed ⟨0, 0, 0⟩ 1048576).2
      [(1024, 1), (1024, 2), (1024, 101), (1024, 102)] = 3072 ∧
    11 * (1048576 * 1) < 10 * (512 * (3072 : Int)) ∧
    limiter_disciplined (commit_set_speed ⟨0, 0, 0⟩ 1048576).2 fullTopCalls ∧
    limiter_admitted (commit_set_speed ⟨0, 0, 0⟩ 1048576).2 fullTopCalls * 512 =
      10 * 1024 * 1024 ∧
    (limiter_delays (commit_set_speed ⟨0, 0, 0⟩ 1048576).2 fullTopCalls).sum = 990 := by
  refine ⟨by decide, ?_, by decide, by decide, ?_, by decide, by decide⟩
  · simp only [limiter_disciplined]
    decide
  · simp only [limiter_disciplined, fullTopCalls]
    decide

/-- Inside an open window, the sectors dispatched so far plus the sectors
that the further calls admit stay below any bound on the quota and on the
sectors dispatched so far. -/
theorem limiter_admitted_in_window (M t0 : Int) (hM : M < 9223372036854775808) :
    ∀ (rest : List (Int × Int)) (lim : RateLimit),
      lim.next_slice_time = t0 + 100 → 1 ≤ lim.dispatched → lim.dispatched ≤ M →
      lim.slice_quota ≤ M →
      (∀ c ∈ rest, 1 ≤ c.1 ∧ c.1 ≤ 1024 ∧ t0 ≤ c.2 ∧ c.2 < t0 + 100) →
      limiter_disciplined lim rest →
      lim.dispatched + limiter_admitted lim rest ≤ M := by
  intro rest
  induction rest with
  | nil =>
    intro lim _ _ hD _ _ _
    simp only [limiter_admitted]
    omega
  | cons c rest ih =>
    intro lim hnext hD1 hD hQ hrest hdisc
    have hc := hrest c (List.mem_cons_self _ _)
    have hw : ratelimit_window lim c.2 = lim := by
      unfold ratelimit_window
      rw [if_neg (by omega)]
    have hcalc := ratelimit_calculate_delay_admits lim c.1 c.2
    rw [hw] at hcalc
    simp only [limiter_disciplined] at hdisc
    simp only [limiter_admitted]
    by_cases ha : ratelimit_admits lim c.1
    · have hr := hcalc.1 ha
      rw [hr] at hdisc ⊢
      have hsum : lim.dispatched + c.1 ≤ lim.slice_quota := by
        unfold ratelimit_admits toUInt64 at ha
        omega
      have hu : toUInt64 (lim.dispatched + c.1) = lim.dispatched + c.1 := by
        unfold toUInt64
        omega
      have h := ih { lim with dispatched := toUInt64 (lim.dispatched + c.1) } hnext
        (by simp only [hu]; omega) (by simp only [hu]; omega) hQ
        (fun c1 h1 => hrest c1 (List.mem_cons_of_mem _ h1)) hdisc.2
      simp only [hu] at h ⊢
      simp only [if_true]
      omega
    · have hr := hcalc.2 ha
      rw [hr] at hdisc ⊢
      have hd : toInt64 (lim.next_slice_time - c.2) = t0 + 100 - c.2 := by
        unfold toInt64
        omega
      have hnil : rest = [] := by
        cases rest with
        | nil => rfl
        | cons c1 rest1 =>
          have h1 := hdisc.1 c1 (List.mem_cons_self _ _)
          have h2 := hrest c1 (List.mem_cons_of_mem _ (List.mem_cons_self _ _))
          simp only [hd] at h1
          omega
      subst hnil
      simp only [hd, limiter_admitted]
      rw [if_neg (by omega)]
      omega

/-- C11, amended (the bound holds for one window, not for the rate): for
every limiter state and every sequence of calls of `ratelimit_calculate_delay`
that the engine makes inside one window, the first at a clock value
`t0 > next_slice_time`, which starts the window, the others at clock values
in `[t0, t0 + 100)`, every run of 1 to 1024 sectors and no call before the
delay of an earlier refused call has elapsed: the sectors of the calls that
return 0 add up to at most `max(slice_quota, n_first)`, where `n_first` is the
run of the first call.  A window admits the quota, or one whole run when the
run is larger than the quota. -/
theorem window_admits_quota_or_first_run (limit : RateLimit) (n1 t0 : Int)
    (rest : List (Int × Int))
    (hreset : limit.next_slice_time < t0)
    (hq : limit.slice_quota < 9223372036854775808)
    (ht0 : -9223372036854775808 ≤ t0) (ht1 : t0 + 100 < 9223372036854775808)
    (hn1 : 1 ≤ n1 ∧ n1 ≤ 1024)
    (hrest : ∀ c ∈ rest, 1 ≤ c.1 ∧ c.1 ≤ 1024 ∧ t0 ≤ c.2 ∧ c.2 < t0 + 100)
    (hdisc : limiter_disciplined limit ((n1, t0) :: rest)) :
    limiter_admitted limit ((n1, t0) :: rest) ≤ max limit.slice_quota n1 := by
  have hw : ratelimit_window limit t0 =
      { limit with next_slice_time := t0 + 100, dispatched := 0 } := by
    unfold ratelimit_window
    rw [if_pos hreset]
    have : toInt64 (toUInt64 t0 + SLICE_TIME) = t0 + 100 := by
      unfold toInt64 toUInt64 SLICE_TIME
      omega
    rw [this]
  have hcalc := (ratelimit_calculate_delay_admits limit n1 t0).1
    (by rw [hw]; exact Or.inl rfl)
  rw [hw] at hcalc
  have hu : toUInt64 (0 + n1) = n1 := by
    unfold toUInt64
    omega
  simp only [hu] at hcalc
  simp only [limiter_disciplined, limiter_admitted, hcalc] at hdisc ⊢
  have h := limiter_admitted_in_window (max limit.slice_quota n1) t0 (by omega) rest
    { limit with next_slice_time := t0 + 100, dispatched := n1 } rfl hn1.1
    (le_max_right _ _) (le_max_left _ _) hrest hdisc.2
  simp only [if_true]
  exact h

/-- Witness of C11, amended: at 204 sectors per window, a window that starts
with a run of 1024 sectors admits that run and refuses the next; a window of
runs of 100 sectors admits two of them and refuses the third. -/
theorem window_admits_quota_or_first_run_witness :
    limiter_admitted ⟨0, 204, 0⟩ [(1024, 1), (1024, 2)] = 1024 ∧
    limiter_admitted ⟨0, 204, 0⟩ [(100, 1), (100, 2), (100, 3)] = 200 ∧
    limiter_admitted ⟨0, 204, 0⟩ [(1024, 1), (1024, 2)] ≤ max 204 1024 ∧
    limiter_admitted ⟨0, 204, 0⟩ [(100, 1), (100, 2), (100, 3)] ≤ max 204 100 :=
  ⟨by decide, by decide,
   window_admits_quota_or_first_run ⟨0, 204, 0⟩ 1024 1 [(1024, 2)] (by decide) (by decide)
     (by decide) (by decide) (by decide) (by decide)
     (by simp only [limiter_disciplined]; decide),
   window_admits_quota_or_first_run ⟨0, 204, 0⟩ 100 1 [(100, 2), (100, 3)] (by decide)
     (by decide) (by decide) (by decide) (by decide) (by decide)
     (by simp only [limiter_disciplined]; decide)⟩

/-! ## `raw_parse_flags` -/

/-- A flag of one bit is set in a word iff the bit is. -/
theorem and_two_pow_ne_zero (x a : Nat) : x &&& 2 ^ a ≠ 0 ↔ x.testBit a = true := by
  rw [Nat.and_two_pow]
  cases h : x.testBit a <;> simp

/-- The bits of the mask of the access mode. -/
theorem testBit_three (i : Nat) : (3 : Nat).testBit i = decide (i < 2) :=
  Nat.testBit_two_pow_sub_one 2 i

/-- The bits of `O_RDWR`. -/
theorem testBit_two (i : Nat) : (2 : Nat).testBit i = decide (1 = i) :=
  Nat.testBit_two_pow (n := 1)

/-- The bits of the result of `raw_parse_flags`, for access mode constants
with the values of POSIX and one-bit flags `O_DIRECT` and `O_DSYNC`. -/
theorem raw_parse_flags_testBit (k : FlagBits) (bdrv_flags open_flags a b i : Nat)
    (hbin : k.O_BINARY = 0) (hacc : k.O_ACCMODE = 3) (hro : k.O_RDONLY = 0)
    (hrw : k.O_RDWR = 2) (hdirect : k.O_DIRECT = 2 ^ a) (hdsync : k.O_DSYNC = 2 ^ b) :
    (raw_parse_flags k bdrv_flags open_flags).testBit i =
      ((open_flags.testBit i && decide (2 ≤ i)) ||
       (decide (bdrv_flags &&& k.BDRV_O_RDWR ≠ 0) && decide (1 = i)) ||
       (decide (bdrv_flags &&& k.BDRV_O_NOCACHE ≠ 0) && decide (a = i)) ||
       (decide (bdrv_flags &&& k.BDRV_O_CACHE_WB = 0) && decide (b = i))) := by
  unfold raw_parse_flags clearBits
  simp only [hbin, hacc, hro, hrw, hdirect, hdsync]
  split_ifs with c1 c2 c3 c3 c2 c3 c3 <;>
    simp only [Nat.testBit_or, Nat.testBit_and, Nat.testBit_xor, Nat.testBit_two_pow,
      testBit_three, testBit_two, Nat.or_zero, Nat.zero_testBit, c1, c2, c3] <;>
    cases open_flags.testBit i <;>
    by_cases e1 : 1 = i <;> by_cases ea : a = i <;> by_cases eb : b = i <;>
    by_cases e2 : i < 2 <;>
    simp [e1, ea, eb, e2] <;> omega

/-- C15 (`raw_parse_flags`): for access mode constants with the values of
POSIX (`O_ACCMODE = 3`, `O_RDONLY = 0`, `O_RDWR = 2`, `O_BINARY = 0`) and
`O_DIRECT`, `O_DSYNC` two different one-bit flags outside `O_ACCMODE`, as on
Linux: for every `bdrv_flags` and every initial `open_flags` in which
`O_DIRECT` and `O_DSYNC` are clear, the result has `O_DIRECT` set iff
`BDRV_O_NOCACHE` is set, `O_DSYNC` set iff `BDRV_O_CACHE_WB` is clear, the
access mode `O_RDWR` iff `BDRV_O_RDWR` is set and `O_RDONLY` otherwise, and
every other bit outside `O_ACCMODE` as in the initial `open_flags`. -/
theorem raw_parse_flags_result (k : FlagBits) (bdrv_flags open_flags a b : Nat)
    (hbin : k.O_BINARY = 0) (hacc : k.O_ACCMODE = 3) (hro : k.O_RDONLY = 0)
    (hrw : k.O_RDWR = 2) (hdirect : k.O_DIRECT = 2 ^ a) (hdsync : k.O_DSYNC = 2 ^ b)
    (ha : 2 ≤ a) (hb : 2 ≤ b) (hab : a ≠ b)
    (hinit1 : open_flags &&& k.O_DIRECT = 0) (hinit2 : open_flags &&& k.O_DSYNC = 0) :
    (raw_parse_flags k bdrv_flags open_flags &&& k.O_DIRECT ≠ 0 ↔
      bdrv_flags &&& k.BDRV_O_NOCACHE ≠ 0) ∧
    (raw_parse_flags k bdrv_flags open_flags &&& k.O_DSYNC ≠ 0 ↔
      bdrv_flags &&& k.BDRV_O_CACHE_WB = 0) ∧
    (raw_parse_flags k bdrv_flags open_flags &&& k.O_ACCMODE =
      if bdrv_flags &&& k.BDRV_O_RDWR ≠ 0 then k.O_RDWR else k.O_RDONLY) ∧
    (∀ i, 2 ≤ i → i ≠ a → i ≠ b →
      (raw_parse_flags k bdrv_flags open_flags).testBit i = open_flags.testBit i) := by
  have hbits := raw_parse_flags_testBit k bdrv_flags open_flags a b
  have hia : open_flags.testBit a = false := by
    have h := and_two_pow_ne_zero open_flags a
    rw [← hdirect] at h
    cases hx : open_flags.testBit a
    · rfl
    · exact absurd hinit1 (h.mpr hx)
  have hib : open_flags.testBit b = false := by
    have h := and_two_pow_ne_zero open_flags b
    rw [← hdsync] at h
    cases hx : open_flags.testBit b
    · rfl
    · exact absurd hinit2 (h.mpr hx)
  refine ⟨?_, ?_, ?_, ?_⟩
  · rw [hdirect, and_two_pow_ne_zero, hbits a hbin hacc hro hrw hdirect hdsync, hia]
    have e1 : ¬ 1 = a := by omega
    have e2 : ¬ b = a := fun h => hab h.symm
    simp [e1, e2]
  · rw [hdsync, and_two_pow_ne_zero, hbits b hbin hacc hro hrw hdirect hdsync, hib]
    have e1 : ¬ 1 = b := by omega
    simp [e1, hab]
  · apply Nat.eq_of_testBit_eq
    intro i
    rw [Nat.testBit_and, hbits i hbin hacc hro hrw hdirect hdsync, hacc, testBit_three]
    by_cases c1 : bdrv_flags &&& k.BDRV_O_RDWR ≠ 0
    · rw [if_pos c1, hrw, testBit_two]
      cases open_flags.testBit i <;>
        by_cases e1 : 1 = i <;> by_cases ea : a = i <;> by_cases eb : b = i <;>
        by_cases e2 : i < 2 <;>
        simp [e1, ea, eb, e2, c1] <;> omega
    · rw [if_neg c1, hro, Nat.zero_testBit]
      cases open_flags.testBit i <;>
        by_cases e1 : 1 = i <;> by_cases ea : a = i <;> by_cases eb : b = i <;>
        by_cases e2 : i < 2 <;>
        simp [e1, ea, eb, e2, c1] <;> omega
  · intro i h2 hna hnb
    rw [hbits i hbin hacc hro hrw hdirect hdsync]
    have e1 : ¬ 1 = i := by omega
    have ea : ¬ a = i := fun h => hna h.symm
    have eb : ¬ b = i := fun h => hnb h.symm
    simp [e1, ea, eb, h2]

/-- Witness of C15: on Linux, `BDRV_O_RDWR | BDRV_O_NOCACHE` over the initial
`O_NONBLOCK` gives `O_NONBLOCK | O_RDWR | O_DIRECT | O_DSYNC`. -/
theorem raw_parse_flags_result_witness :
    raw_parse_flags linuxFlagBits 34 2048 = 22530 ∧
    ((raw_parse_flags linuxFlagBits 34 2048 &&& linuxFlagBits.O_DIRECT ≠ 0 ↔
        34 &&& linuxFlagBits.BDRV_O_NOCACHE ≠ 0) ∧
      (raw_parse_flags linuxFlagBits 34 2048 &&& linuxFlagBits.O_DSYNC ≠ 0 ↔
        34 &&& linuxFlagBits.BDRV_O_CACHE_WB = 0) ∧
      (raw_parse_flags linuxFlagBits 34 2048 &&& linuxFlagBits.O_ACCMODE =
        if 34 &&& linuxFlagBits.BDRV_O_RDWR ≠ 0 then linuxFlagBits.O_RDWR
        else linuxFlagBits.O_RDONLY) ∧
      (∀ i, 2 ≤ i → i ≠ 14 → i ≠ 12 →
        (raw_parse_flags linuxFlagBits 34 2048).testBit i = (2048 : Nat).testBit i)) :=
  ⟨by decide,
   raw_parse_flags_result linuxFlagBits 34 2048 14 12 rfl rfl rfl rfl rfl rfl
     (by decide) (by decide) (by decide) (by decide) (by decide)⟩

/-! ## The progress counter, the end of the walk, the early failures -/

/-- Restoring flags leaves the progress counter alone. -/
theorem restore_flags_offset {W : Type} (A : BlockLayer W) (bs flags : Nat) (st : RunState W) :
    (restore_flags A bs flags st).offset = st.offset := by
  unfold restore_flags
  split_ifs <;> rfl

/-- The teardown leaves the progress counter alone. -/
theorem exit_restore_reopen_offset {W : Type} (A : BlockLayer W) (s : CommitBlockJob)
    (ov : Option Nat) (ret : Int) (st : RunState W) :
    (exit_restore_reopen A s ov ret st).st.offset = st.offset := by
  cases ov with
  | none => exact restore_flags_offset A _ _ _
  | some o =>
    simp only [exit_restore_reopen, RunState.log]
    rw [restore_flags_offset, restore_flags_offset]

/-- The end of `commit_run` leaves the progress counter alone. -/
theorem commit_finish_offset {W : Type} (A : BlockLayer W) (s : CommitBlockJob)
    (ov : Option Nat) (end_ : Int) (ex : LoopExit) (sec : Int) (st : RunState W) :
    (commit_finish A s ov end_ ex sec st).st.offset = st.offset := by
  cases ex <;> simp only [commit_finish] <;> try split_ifs
  all_goals rw [exit_restore_reopen_offset]
  all_goals rfl

/-- The progress counter over one pass: a pass that goes on to the next run
adds `512 * n` to it (modulo `2^64`), `n` being the count by which
`sector_num` advances; every other pass leaves it as it is. -/
theorem commit_body_offset {W : Type} (A : BlockLayer W) (s : CommitBlockJob)
    (sec d : Int) (st : RunState W) (hr : isInt64 st.offset) :
    isInt64 (commit_body A s sec d st).state.offset ∧
    match commit_body A s sec d st with
    | BodyResult.next st1 => (st1.offset - st.offset - 512 * st1.n) % 18446744073709551616 = 0
    | BodyResult.goto_wait _ st1 => st1.offset = st.offset
    | BodyResult.cancelled st1 => st1.offset = st.offset
    | BodyResult.exit_free_buf _ st1 => st1.offset = st.offset := by
  have hspec := commit_body_spec A s sec d st
  generalize commit_body A s sec d st = r at hspec
  unfold isInt64 at *
  cases hspec with
  | cancelled st1 hc hp =>
    exact ⟨by simp only [BodyResult.state, hp.offset_eq]; omega, hp.offset_eq⟩
  | wait st1 hc hq hs hd hp =>
    exact ⟨by simp only [BodyResult.state, hp.offset_eq]; omega, hp.offset_eq⟩
  | query_stop st1 hc hq hs hp =>
    exact ⟨by simp only [BodyResult.state, hp.offset_eq]; omega, hp.offset_eq⟩
  | query_retry st1 hc hq hs hp => simp only [BodyResult.state, hp.offset_eq, hp.n_eq]; omega
  | skip st1 hc hq hq0 hp =>
    simp only [BodyResult.state, hp.offset_eq, hp.n_eq, toInt64, toUInt64, BDRV_SECTOR_SIZE]
    omega
  | copy_stop st1 hc hq hd hr hs hp =>
    exact ⟨by simp only [BodyResult.state, hp.offset_eq]; omega, hp.offset_eq⟩
  | copy_retry st1 hc hq hd hr hs hp =>
    simp only [BodyResult.state, hp.offset_eq, hp.n_eq]; omega
  | copy_done st1 hc hq hd hr hp =>
    simp only [BodyResult.state, hp.offset_eq, hp.n_eq, toInt64, toUInt64, BDRV_SECTOR_SIZE]
    omega

/-- The progress counter over the loop: at every way out it is the counter
at the entry plus `512 * sector_num`, modulo `2^64`. -/
theorem commit_loop_offset {W : Type} (A : BlockLayer W) (s : CommitBlockJob) (end_ : Int)
    (fuel : Nat) (st : RunState W) (ex : LoopExit) (sec1 : Int) (st1 : RunState W)
    (hr : isInt64 st.offset)
    (hl : commit_loop A s end_ fuel 0 0 st = some (ex, sec1, st1)) :
    isInt64 st1.offset ∧ (st1.offset - st.offset - 512 * sec1) % 18446744073709551616 = 0 := by
  refine commit_loop_rule A s end_
    (fun sec _ st2 => isInt64 st2.offset ∧
      (st2.offset - st.offset - 512 * sec) % 18446744073709551616 = 0)
    (fun _ sec st2 => isInt64 st2.offset ∧
      (st2.offset - st.offset - 512 * sec) % 18446744073709551616 = 0)
    ?_ ?_ ?_ ?_ fuel 0 0 st ⟨hr, by simp⟩ ex sec1 st1 hl
  · intro sec d st2 d1 st3 ⟨h1, h2⟩ hb
    have h := commit_body_offset A s sec d st2 h1
    rw [hb] at h
    simp only [BodyResult.state] at h
    exact ⟨h.1, by rw [h.2]; exact h2⟩
  · intro sec d st2 st3 ⟨h1, h2⟩ hb
    have h := commit_body_offset A s sec d st2 h1
    rw [hb] at h
    simp only [BodyResult.state] at h
    exact ⟨h.1, by rw [h.2]; exact h2⟩
  · intro sec d st2 ret st3 ⟨h1, h2⟩ hb
    have h := commit_body_offset A s sec d st2 h1
    rw [hb] at h
    simp only [BodyResult.state] at h
    exact ⟨h.1, by rw [h.2]; exact h2⟩
  · intro sec d st2 st3 ⟨h1, h2⟩ hb
    have h := commit_body_offset A s sec d st2 h1
    rw [hb] at h
    simp only [BodyResult.state] at h
    have h3 : (st3.offset - st.offset - 512 * (sec + st3.n)) % 18446744073709551616 = 0 := by
      have := h.2
      omega
    exact ⟨fun _ => ⟨h.1, h3⟩, fun _ => ⟨h.1, h3⟩⟩

/-- Counterexample to C12 as stated: on a Top of six sectors of which only
sectors 0, 1, 4 and 5 are allocated, the commit succeeds with the run of
sectors 2 and 3 reported not allocated and 2048 bytes written into Base, and
ends with `offset = 3072`, the length of Top. -/
theorem offset_advances_over_unallocated_run :
    commit_run cleanLayer (simJob BLOCK_ERR_REPORT 0) 10 cleanState = some cleanRun ∧
    cleanRun.st.trace = cleanTrace ∧
    Event.is_allocated_above 2 0 2 ∈ cleanRun.st.trace ∧
    cleanRun.terminal = Terminal.completed 0 ∧
    cleanRun.st.bytes_written = 2048 ∧
    cleanRun.st.offset = 3072 :=
  ⟨rfl, by decide, by decide, by decide, by decide, by decide⟩

/-- C12, amended (progress counter): `offset` counts the bytes of Top that
the walk has passed, copied or not.  A pass whose allocation query reports the
run of `n` sectors not allocated (return value 0) adds `n * 512` to `offset`,
as a pass that copies does.  Hence a run of `commit_run` that starts with
`offset = 0` and leaves the loop at `sector_num == end` (as every successful
commit does) ends with `offset = 512 * end`, `end` being `length(Top) / 512`. -/
theorem offset_counts_sectors_walked {W : Type} (A : BlockLayer W) (s : CommitBlockJob)
    (fuel : Nat) (st : RunState W) (res : RunResult W)
    (h : commit_run A s fuel st = some res) (hoff : st.offset = 0)
    (hlen : (A.bdrv_getlength s.top st.w).1 < 9223372036854775808) :
    (∀ sec d st0, A.block_job_is_cancelled (bodySleep A d st0) = false →
      (bodyQuery A s sec d st0).1.1 = 0 →
      ∃ st1, commit_body A s sec d st0 = BodyResult.next st1 ∧
        st1.n = (bodyQuery A s sec d st0).1.2 ∧
        st1.offset = toInt64 (toUInt64 st0.offset +
          toUInt64 (bodyQuery A s sec d st0).1.2 * BDRV_SECTOR_SIZE)) ∧
    (∀ ov end_ ex sec st1,
      commit_copy A s fuel st = some (CopyResult.loop_left ov end_ ex sec st1) →
      sec = end_ →
      end_ = (A.bdrv_getlength s.top st.w).1 / BDRV_SECTOR_SIZE ∧
      res.st.offset = 512 * end_) := by
  refine ⟨?_, ?_⟩
  · intro sec d st0 hc hq
    have hspec := commit_body_spec A s sec d st0
    generalize commit_body A s sec d st0 = r at hspec
    cases hspec with
    | cancelled st1 hc1 hp => rw [hc] at hc1; cases hc1
    | wait st1 hc1 hq1 hs hd hp => omega
    | query_stop st1 hc1 hq1 hs hp => omega
    | query_retry st1 hc1 hq1 hs hp => omega
    | skip st1 hc1 hq1 hq0 hp => exact ⟨st1, rfl, hp.n_eq, hp.offset_eq⟩
    | copy_stop st1 hc1 hq1 hd hr hs hp => omega
    | copy_retry st1 hc1 hq1 hd hr hs hp => omega
    | copy_done st1 hc1 hq1 hd hr hp => omega
  · intro ov end_ ex sec st1 hc hsec
    rcases commit_run_cases A s fuel st res h with ⟨_, _, hc2, _⟩ | ⟨_, _, _, _, _, hc2, hres⟩
    · rw [hc] at hc2
      cases hc2
    rw [hc] at hc2
    cases hc2
    obtain ⟨st0, _, _, hoff0, _, hl0, _, hend, _, _, hloop⟩ :=
      commit_copy_loop_left A s fuel st ov end_ ex sec st1 hc
    refine ⟨hend, ?_⟩
    rw [hres, commit_finish_offset]
    have hE : 0 ≤ 512 * end_ ∧ 512 * end_ < 9223372036854775808 := by
      rw [hend]
      unfold BDRV_SECTOR_SIZE
      omega
    rcases hloop with ⟨_, hl⟩ | ⟨hn, _, hs0, hst⟩
    · have hr : isInt64 st0.offset := by
        rw [hoff0, hoff]
        unfold isInt64
        omega
      have ho := commit_loop_offset A s end_ fuel st0 ex sec st1 hr hl
      rw [hoff0, hoff, hsec] at ho
      unfold isInt64 at ho
      omega
    · rw [hst, hoff0, hoff]
      omega

/-- Witness of C12, amended: the run of the counterexample ends with
`offset = 512 * 6`. -/
theorem offset_counts_sectors_walked_witness :
    cleanRun.st.offset = 3072 ∧
    ((∀ sec d st0, cleanLayer.block_job_is_cancelled (bodySleep cleanLayer d st0) = false →
      (bodyQuery cleanLayer (simJob BLOCK_ERR_REPORT 0) sec d st0).1.1 = 0 →
      ∃ st1, commit_body cleanLayer (simJob BLOCK_ERR_REPORT 0) sec d st0 =
          BodyResult.next st1 ∧
        st1.n = (bodyQuery cleanLayer (simJob BLOCK_ERR_REPORT 0) sec d st0).1.2 ∧
        st1.offset = toInt64 (toUInt64 st0.offset +
          toUInt64 (bodyQuery cleanLayer (simJob BLOCK_ERR_REPORT 0) sec d st0).1.2 *
            BDRV_SECTOR_SIZE)) ∧
    (∀ ov end_ ex sec st1,
      commit_copy cleanLayer (simJob BLOCK_ERR_REPORT 0) 10 cleanState =
        some (CopyResult.loop_left ov end_ ex sec st1) →
      sec = end_ →
      end_ = (cleanLayer.bdrv_getlength (simJob BLOCK_ERR_REPORT 0).top cleanState.w).1 /
        BDRV_SECTOR_SIZE ∧
      cleanRun.st.offset = 512 * end_)) :=
  ⟨by decide,
   offset_counts_sectors_walked cleanLayer (simJob BLOCK_ERR_REPORT 0) 10 cleanState cleanRun
    rfl rfl (by decide)⟩

/-- An event that is no allocation query, read or write has no range. -/
theorem range_of_other_event {e : Event} (h : e.isIO = false) : e.range = none := by
  cases e <;> simp_all [Event.isIO, Event.range]

/-- The walk does not take one of the early ways out. -/
theorem commit_walk_not_early {W : Type} (A : BlockLayer W) (s : CommitBlockJob) (fuel : Nat)
    (st : RunState W) (ret : Int) (st1 : RunState W) :
    commit_walk A s fuel st ≠ some (CopyResult.early ret st1) := by
  unfold commit_walk
  intro h
  by_cases h0 : 0 < st.len / BDRV_SECTOR_SIZE
  · simp only [h0, if_true] at h
    cases hl : commit_loop A s (st.len / BDRV_SECTOR_SIZE) fuel 0 0 st with
    | none => rw [hl] at h; simp at h
    | some r => rw [hl] at h; simp at h
  · simp only [h0, if_false, Option.some.injEq, reduceCtorEq] at h

/-- The three early ways out of `commit_run`: the length query of Top failed,
or that of Base, or the truncation of Base; with the value of `ret` and the
events so far. -/
theorem commit_copy_early {W : Type} (A : BlockLayer W) (s : CommitBlockJob) (fuel : Nat)
    (st : RunState W) (ret : Int) (st1 : RunState W)
    (h : commit_copy A s fuel st = some (CopyResult.early ret st1)) :
    ((A.bdrv_getlength s.top st.w).1 < 0 ∧ ret = toInt32 (A.bdrv_getlength s.top st.w).1 ∧
      st1.trace = st.trace ++ [Event.getlength s.top (A.bdrv_getlength s.top st.w).1]) ∨
    (0 ≤ (A.bdrv_getlength s.top st.w).1 ∧
      (A.bdrv_getlength s.base (A.bdrv_getlength s.top st.w).2).1 < 0 ∧
      ret = toInt32 (A.bdrv_getlength s.base (A.bdrv_getlength s.top st.w).2).1 ∧
      st1.trace = st.trace ++ [Event.getlength s.top (A.bdrv_getlength s.top st.w).1,
        Event.getlength s.base (A.bdrv_getlength s.base (A.bdrv_getlength s.top st.w).2).1]) ∨
    (0 ≤ (A.bdrv_getlength s.base (A.bdrv_getlength s.top st.w).2).1 ∧
      (A.bdrv_getlength s.base (A.bdrv_getlength s.top st.w).2).1 <
        (A.bdrv_getlength s.top st.w).1 ∧
      ret ≠ 0 ∧
      ret = (A.bdrv_truncate s.base (A.bdrv_getlength s.top st.w).1
        (A.bdrv_getlength s.base (A.bdrv_getlength s.top st.w).2).2).1 ∧
      st1.trace = st.trace ++ [Event.getlength s.top (A.bdrv_getlength s.top st.w).1,
        Event.getlength s.base (A.bdrv_getlength s.base (A.bdrv_getlength s.top st.w).2).1,
        Event.truncate s.base (A.bdrv_getlength s.top st.w).1 ret]) := by
  unfold commit_copy at h
  simp only [RunState.log] at h
  by_cases h1 : (A.bdrv_getlength s.top st.w).1 < 0
  · simp only [h1, if_true, Option.some.injEq, CopyResult.early.injEq] at h
    obtain ⟨rfl, rfl⟩ := h
    exact Or.inl ⟨h1, rfl, rfl⟩
  simp only [h1, if_false] at h
  by_cases h2 : (A.bdrv_getlength s.base (A.bdrv_getlength s.top st.w).2).1 < 0
  · simp only [h2, if_true, Option.some.injEq, CopyResult.early.injEq] at h
    obtain ⟨rfl, rfl⟩ := h
    exact Or.inr (Or.inl ⟨by omega, h2, rfl, by simp⟩)
  simp only [h2, if_false] at h
  by_cases h3 : (A.bdrv_getlength s.base (A.bdrv_getlength s.top st.w).2).1 <
      (A.bdrv_getlength s.top st.w).1
  · simp only [h3, if_true] at h
    by_cases h4 : (A.bdrv_truncate s.base (A.bdrv_getlength s.top st.w).1
        (A.bdrv_getlength s.base (A.bdrv_getlength s.top st.w).2).2).1 = 0
    · rw [if_neg (not_not.mpr h4)] at h
      exact absurd h (commit_walk_not_early A s fuel _ ret st1)
    · rw [if_pos h4] at h
      simp only [Option.some.injEq, CopyResult.early.injEq] at h
      obtain ⟨rfl, rfl⟩ := h
      exact Or.inr (Or.inr ⟨by omega, h3, h4, rfl, by simp⟩)
  · simp only [h3, if_false] at h
    exact absurd h (commit_walk_not_early A s fuel _ ret st1)

/-- The end of `commit_run` makes no allocation query, read or write. -/
theorem commit_finish_makes_no_query {W : Type} (A : BlockLayer W) (s : CommitBlockJob)
    (ov : Option Nat) (end_ : Int) (ex : LoopExit) (sec : Int) (st : RunState W) :
    ∃ fin, (commit_finish A s ov end_ ex sec st).st.trace = st.trace ++ fin ∧
      ∀ e ∈ fin, e.isIO = false := by
  have tdio : ∀ (ret : Int) (terminal : Terminal) (td : List Event),
      Teardown ov ret terminal td → ∀ e ∈ td, e.isIO = false :=
    fun ret terminal td htd e he =>
      (teardown_not_other s.on_error (teardown_isTeardown htd e he)).2.1
  by_cases hex : ∀ ret, ex ≠ LoopExit.error ret
  · by_cases hc : A.block_job_is_cancelled st.w = true ∨ sec ≠ end_
    · obtain ⟨td, h1, h2⟩ := commit_finish_no_drop A s ov end_ ex sec st hex hc
      refine ⟨_, h1, ?_⟩
      intro e he
      rcases List.mem_cons.mp he with rfl | he
      · rfl
      · exact tdio _ _ _ h2 e he
    · have hc1 : A.block_job_is_cancelled st.w = false := by
        cases hb : A.block_job_is_cancelled st.w
        · rfl
        · exact absurd (Or.inl hb) hc
      have hs : sec = end_ := by
        by_contra hne
        exact hc (Or.inr hne)
      obtain ⟨td, h1, h2, _⟩ := commit_finish_drop A s ov end_ ex sec st hex hc1 hs
      refine ⟨_, h1, ?_⟩
      intro e he
      rcases List.mem_cons.mp he with rfl | he
      · rfl
      rcases List.mem_cons.mp he with rfl | he
      · rfl
      · exact tdio _ _ _ h2 e he
  · have hex2 : ∃ ret, ex = LoopExit.error ret := by
      by_contra hno
      exact hex (fun ret hr => hno ⟨ret, hr⟩)
    obtain ⟨ret, rfl⟩ := hex2
    obtain ⟨td, h1, h2⟩ := exit_restore_reopen_trace A s ov ret st
    exact ⟨td, h1, tdio _ _ _ h2⟩

/-- The ranges of the events of one pass: they start at the `sector_num` of
the pass and have the length that the allocation query of the pass reported. -/
theorem commit_body_ranges {W : Type} (A : BlockLayer W) (s : CommitBlockJob)
    (sec d : Int) (st : RunState W) :
    ∃ evs, (commit_body A s sec d st).state.trace = st.trace ++ evs ∧
      ∀ e ∈ evs, ∀ x nb, e.range = some (x, nb) →
        x = sec ∧ nb = (bodyQuery A s sec d st).1.2 := by
  have hhead : ∀ e ∈ bodyHead A s sec d st, ∀ x nb, e.range = some (x, nb) →
      x = sec ∧ nb = (bodyQuery A s sec d st).1.2 := by
    intro e he x nb hr
    simp only [bodyHead, List.mem_cons, List.mem_singleton, List.not_mem_nil, or_false] at he
    rcases he with rfl | rfl | rfl
    · simp [Event.range] at hr
    · simp [Event.range] at hr
    · simp only [Event.range, Option.some.injEq, Prod.mk.injEq] at hr
      exact ⟨hr.1.symm, hr.2.symm⟩
  have hpop : ∀ e ∈ bodyHead A s sec d st ++ (bodyPopulate A s sec d st).2.2,
      ∀ x nb, e.range = some (x, nb) → x = sec ∧ nb = (bodyQuery A s sec d st).1.2 := by
    intro e he x nb hr
    rcases List.mem_append.mp he with he | he
    · exact hhead e he x nb hr
    rcases bodyPopulate_events A s sec d st with ⟨_, hev⟩ | hev
    · rw [hev] at he
      simp only [List.mem_singleton] at he
      subst he
      simp only [Event.range, Option.some.injEq, Prod.mk.injEq] at hr
      exact ⟨hr.1.symm, hr.2.symm⟩
    · rw [hev] at he
      simp only [List.mem_cons, List.mem_singleton, List.not_mem_nil, or_false] at he
      rcases he with rfl | rfl
      · simp only [Event.range, Option.some.injEq, Prod.mk.injEq] at hr
        exact ⟨hr.1.symm, hr.2.symm⟩
      · simp only [Event.range, Option.some.injEq, Prod.mk.injEq] at hr
        exact ⟨hr.1.symm, hr.2.symm⟩
  have hspec := commit_body_spec A s sec d st
  generalize commit_body A s sec d st = r at hspec
  cases hspec with
  | cancelled st1 hc hp =>
    refine ⟨_, hp.trace_eq, ?_⟩
    intro e he x nb hr
    simp only [List.mem_cons, List.mem_singleton, List.not_mem_nil, or_false] at he
    rcases he with rfl | rfl <;> simp [Event.range] at hr
  | wait st1 hc hq hs hd hp => exact ⟨_, hp.trace_eq, hhead⟩
  | query_stop st1 hc hq hs hp => exact ⟨_, hp.trace_eq, hhead⟩
  | query_retry st1 hc hq hs hp => exact ⟨_, hp.trace_eq, hhead⟩
  | skip st1 hc hq hq0 hp => exact ⟨_, hp.trace_eq, hhead⟩
  | copy_stop st1 hc hq hd hr hs hp => exact ⟨_, hp.trace_eq, hpop⟩
  | copy_retry st1 hc hq hd hr hs hp => exact ⟨_, hp.trace_eq, hpop⟩
  | copy_done st1 hc hq hd hr hp => exact ⟨_, hp.trace_eq, hpop⟩

/-- The ranges of the events of the loop: each starts below the loop bound
and has the length that an allocation query at its start reported. -/
theorem commit_loop_ranges {W : Type} (A : BlockLayer W) (s : CommitBlockJob) (end_ : Int)
    (fuel : Nat) (st : RunState W) (ex : LoopExit) (sec1 : Int) (st1 : RunState W)
    (h0 : 0 < end_)
    (hl : commit_loop A s end_ fuel 0 0 st = some (ex, sec1, st1)) :
    ∃ a, st1.trace = st.trace ++ a ∧
      ∀ e ∈ a, ∀ x nb, e.range = some (x, nb) →
        x < end_ ∧ ∃ w, nb = (A.bdrv_co_is_allocated_above s.top s.base x
          (COMMIT_BUFFER_SIZE / BDRV_SECTOR_SIZE) w).1.2 := by
  have step : ∀ (sec d : Int) (st2 : RunState W), sec < end_ →
      (∃ a, st2.trace = st.trace ++ a ∧
        ∀ e ∈ a, ∀ x nb, e.range = some (x, nb) →
          x < end_ ∧ ∃ w, nb = (A.bdrv_co_is_allocated_above s.top s.base x
            (COMMIT_BUFFER_SIZE / BDRV_SECTOR_SIZE) w).1.2) →
      ∃ a, (commit_body A s sec d st2).state.trace = st.trace ++ a ∧
        ∀ e ∈ a, ∀ x nb, e.range = some (x, nb) →
          x < end_ ∧ ∃ w, nb = (A.bdrv_co_is_allocated_above s.top s.base x
            (COMMIT_BUFFER_SIZE / BDRV_SECTOR_SIZE) w).1.2 := by
    rintro sec d st2 hsec ⟨a, ha1, ha2⟩
    obtain ⟨evs, h1, h2⟩ := commit_body_ranges A s sec d st2
    refine ⟨a ++ evs, by rw [h1, ha1]; simp, ?_⟩
    intro e he x nb hr
    rcases List.mem_append.mp he with he | he
    · exact ha2 e he x nb hr
    · obtain ⟨rfl, rfl⟩ := h2 e he x nb hr
      exact ⟨hsec, _, rfl⟩
  refine commit_loop_rule A s end_
    (fun sec _ st2 => sec < end_ ∧ ∃ a, st2.trace = st.trace ++ a ∧
      ∀ e ∈ a, ∀ x nb, e.range = some (x, nb) →
        x < end_ ∧ ∃ w, nb = (A.bdrv_co_is_allocated_above s.top s.base x
          (COMMIT_BUFFER_SIZE / BDRV_SECTOR_SIZE) w).1.2)
    (fun _ _ st2 => ∃ a, st2.trace = st.trace ++ a ∧
      ∀ e ∈ a, ∀ x nb, e.range = some (x, nb) →
        x < end_ ∧ ∃ w, nb = (A.bdrv_co_is_allocated_above s.top s.base x
          (COMMIT_BUFFER_SIZE / BDRV_SECTOR_SIZE) w).1.2)
    ?_ ?_ ?_ ?_ fuel 0 0 st ⟨h0, [], by simp, by simp⟩ ex sec1 st1 hl
  · intro sec d st2 d1 st3 ⟨hsec, hP⟩ hb
    have h := step sec d st2 hsec hP
    rw [hb] at h
    exact ⟨hsec, h⟩
  · intro sec d st2 st3 ⟨hsec, hP⟩ hb
    have h := step sec d st2 hsec hP
    rw [hb] at h
    exact h
  · intro sec d st2 ret st3 ⟨hsec, hP⟩ hb
    have h := step sec d st2 hsec hP
    rw [hb] at h
    exact h
  · intro sec d st2 st3 ⟨hsec, hP⟩ hb
    have h := step sec d st2 hsec hP
    rw [hb] at h
    exact ⟨fun hlt => ⟨hlt, h⟩, fun _ => h⟩

/-- The runs that the simulated block layer reports end at the end of Top. -/
theorem simLayer_run_fits (c : SimConfig) (t b : Nat) (sec nb : Int) (w : Sim)
    (h : sec < c.end_) :
    ((simLayer c).bdrv_co_is_allocated_above t b sec nb w).1.2 ≤ c.end_ - sec := by
  simp only [simLayer]
  split_ifs
  · have h1 := runLen_le c.alloc sec (min nb (c.end_ - sec)).toNat
    omega
  · omega

/-- Counterexample to C18 as stated: for a Top of 700 bytes the loop bound
is 1, not 2; the only allocation query, read and write of the commit are those
of sector 0, and the commit ends with success: the last sector (index 1, of
188 bytes) is neither queried nor copied. -/
theorem last_short_sector_is_skipped :
    commit_run raggedLayer (simJob BLOCK_ERR_REPORT 0) 10 raggedState = some raggedRun ∧
    raggedRun.terminal = Terminal.completed 0 ∧
    raggedRun.st.trace =
      [Event.getlength 1 700, Event.getlength 0 700,
       Event.sleep 0, Event.is_cancelled false, Event.is_allocated_above 0 1 1,
       Event.read 1 0 1 0, Event.write 0 0 1 0,
       Event.is_cancelled false, Event.drop_intermediate 3 1 0 0, Event.complete 0] :=
  ⟨rfl, by decide, by decide⟩

/-- C18, amended (end of the walk): the loop bound is
`end = floor(length(Top) / 512)`.  In every run of `commit_run`, every
allocation query, read and write starts at a `sector_num < end`; and when the
block layer reports runs that end inside Top (`n <= end - sector_num`), every
one of them ends at `end` or before.  So for a Top whose length is not a
multiple of 512 the final partial sector (index `floor(length / 512)`) is
neither queried nor copied. -/
theorem walk_ends_at_floor {W : Type} (A : BlockLayer W) (s : CommitBlockJob) (fuel : Nat)
    (st : RunState W) (res : RunResult W) (h : commit_run A s fuel st = some res)
    (hrun : ∀ sec w, sec < (A.bdrv_getlength s.top st.w).1 / BDRV_SECTOR_SIZE →
      (A.bdrv_co_is_allocated_above s.top s.base sec
        (COMMIT_BUFFER_SIZE / BDRV_SECTOR_SIZE) w).1.2 ≤
        (A.bdrv_getlength s.top st.w).1 / BDRV_SECTOR_SIZE - sec) :
    ∃ added, res.st.trace = st.trace ++ added ∧
      ∀ e ∈ added, ∀ x nb, e.range = some (x, nb) →
        x < (A.bdrv_getlength s.top st.w).1 / BDRV_SECTOR_SIZE ∧
        x + nb ≤ (A.bdrv_getlength s.top st.w).1 / BDRV_SECTOR_SIZE := by
  have none_ok : ∀ l : List Event, (∀ e ∈ l, e.isIO = false) →
      ∀ e ∈ l, ∀ x nb, e.range = some (x, nb) →
        x < (A.bdrv_getlength s.top st.w).1 / BDRV_SECTOR_SIZE ∧
        x + nb ≤ (A.bdrv_getlength s.top st.w).1 / BDRV_SECTOR_SIZE := by
    intro l hl e he x nb hr
    rw [range_of_other_event (hl e he)] at hr
    cases hr
  rcases commit_run_cases A s fuel st res h with ⟨ret, st1, hc, hres⟩ |
    ⟨ov, end_, ex, sec, st1, hc, hres⟩
  · obtain ⟨td, h1, h2⟩ := exit_restore_reopen_trace A s none ret st1
    rw [← hres] at h1 h2
    have htd : ∀ e ∈ td, e.isIO = false := fun e he =>
      (teardown_not_other s.on_error (teardown_isTeardown h2 e he)).2.1
    have hpro : ∃ pro, st1.trace = st.trace ++ pro ∧ ∀ e ∈ pro, e.isIO = false := by
      rcases commit_copy_early A s fuel st ret st1 hc with ⟨_, _, ht⟩ | ⟨_, _, _, ht⟩ |
        ⟨_, _, _, _, ht⟩
      · refine ⟨_, ht, ?_⟩
        intro e he
        simp only [List.mem_singleton] at he
        subst he
        rfl
      · refine ⟨_, ht, ?_⟩
        intro e he
        simp only [List.mem_cons, List.mem_singleton, List.not_mem_nil, or_false] at he
        rcases he with rfl | rfl <;> rfl
      · refine ⟨_, ht, ?_⟩
        intro e he
        simp only [List.mem_cons, List.mem_singleton, List.not_mem_nil, or_false] at he
        rcases he with rfl | rfl | rfl <;> rfl
    obtain ⟨pro, ht, hpro2⟩ := hpro
    refine ⟨pro ++ td, by rw [h1, ht]; simp, ?_⟩
    apply none_ok
    intro e he
    rcases List.mem_append.mp he with he | he
    · exact hpro2 e he
    · exact htd e he
  · obtain ⟨st0, _, _, _, _, _, _, hend, _, ⟨pro, hpro1, hpro2⟩, hloop⟩ :=
      commit_copy_loop_left A s fuel st ov end_ ex sec st1 hc
    obtain ⟨fin, hfin1, hfin2⟩ := commit_finish_makes_no_query A s ov end_ ex sec st1
    rw [← hres] at hfin1
    rcases hloop with ⟨h0, hl⟩ | ⟨_, _, _, hst⟩
    · obtain ⟨a, ha1, ha2⟩ := commit_loop_ranges A s end_ fuel st0 ex sec st1 h0 hl
      refine ⟨pro ++ a ++ fin, by rw [hfin1, ha1, hpro1]; simp, ?_⟩
      intro e he x nb hr
      rcases List.mem_append.mp he with he | he
      · rcases List.mem_append.mp he with he | he
        · exact none_ok pro (fun e he => (hpro2 e he).1) e he x nb hr
        · obtain ⟨hx, w, hw⟩ := ha2 e he x nb hr
          rw [hend] at hx
          have := hrun x w hx
          rw [← hw] at this
          exact ⟨hx, by omega⟩
      · exact none_ok fin hfin2 e he x nb hr
    · refine ⟨pro ++ fin, by rw [hfin1, hst, hpro1]; simp, ?_⟩
      apply none_ok
      intro e he
      rcases List.mem_append.mp he with he | he
      · exact (hpro2 e he).1
      · exact hfin2 e he

/-- Witness of C18, amended: the run of the counterexample, whose ranges are
those of sector 0. -/
theorem walk_ends_at_floor_witness :
    (raggedLayer.bdrv_getlength (simJob BLOCK_ERR_REPORT 0).top raggedState.w).1 /
      BDRV_SECTOR_SIZE = 1 ∧
    ∃ added, raggedRun.st.trace = raggedState.trace ++ added ∧
      ∀ e ∈ added, ∀ x nb, e.range = some (x, nb) →
        x < (raggedLayer.bdrv_getlength (simJob BLOCK_ERR_REPORT 0).top raggedState.w).1 /
          BDRV_SECTOR_SIZE ∧
        x + nb ≤ (raggedLayer.bdrv_getlength (simJob BLOCK_ERR_REPORT 0).top
          raggedState.w).1 / BDRV_SECTOR_SIZE :=
  ⟨by decide,
   walk_ends_at_floor raggedLayer (simJob BLOCK_ERR_REPORT 0) 10 raggedState raggedRun rfl
    (fun sec w hsec => simLayer_run_fits _ _ _ sec _ w hsec)⟩

/-- C19 at its failing input: the length query of Top fails with `-EIO`
while Base and the overlay of Top are open read-write, their saved flags
being 0.  The teardown reopens Base with its saved flags, then reaches
`bdrv_get_flags(overlay_bs)` with `overlay_bs` still `NULL`: the overlay keeps
its widened flags and the completion callback is not called. -/
theorem early_teardown_has_no_overlay :
    commit_run (simLayer (simConfig (fun _ => true) 6)) (simJob BLOCK_ERR_REPORT 0) 10
      lengthFaultState = some lengthFaultRun ∧
    lengthFaultRun.terminal = Terminal.null_overlay ∧
    lengthFaultRun.st.trace = [Event.getlength 1 (-5), Event.reopen 0 0] ∧
    lengthFaultRun.st.w.completed = none ∧
    lengthFaultRun.st.w.flags 0 = 0 ∧
    (simJob BLOCK_ERR_REPORT 0).orig_overlay_flags = 0 ∧
    lengthFaultRun.st.w.flags 2 = 2 :=
  ⟨rfl, by decide, by decide, by decide, by decide, by decide, by decide⟩

/-- C13 at its failing input: Base (1024 bytes) is shorter than Top (3072
bytes) and `bdrv_truncate` fails with `-ENOSPC`.  The run makes the two length
queries and the truncation, no allocation query, read, write or
`bdrv_drop_intermediate`, and goes to the teardown, where it reaches
`bdrv_get_flags(overlay_bs)` with `overlay_bs` still `NULL`: the job does not
complete with `-ENOSPC`, the completion callback is not called. -/
theorem truncate_failure_does_not_complete :
    commit_run truncateFaultLayer (simJob BLOCK_ERR_REPORT 0) 10 truncateFaultState =
      some truncateFaultRun ∧
    truncateFaultRun.terminal = Terminal.null_overlay ∧
    truncateFaultRun.st.trace =
      [Event.getlength 1 3072, Event.getlength 0 1024, Event.truncate 0 3072 (-28)] ∧
    truncateFaultRun.st.w.completed = none :=
  ⟨rfl, by decide, by decide, by decide⟩

/-- On every block layer, a run whose length query of Top fails ends, with
any fuel, in the teardown with `overlay_bs` still `NULL`. -/
theorem commit_run_length_fault {W : Type} (A : BlockLayer W) (s : CommitBlockJob)
    (fuel : Nat) (st : RunState W) (h : (A.bdrv_getlength s.top st.w).1 < 0) :
    ∃ res, commit_run A s fuel st = some res ∧ res.terminal = Terminal.null_overlay := by
  have hc : commit_copy A s fuel st = some (CopyResult.early
      (toInt32 (A.bdrv_getlength s.top st.w).1)
      ({ st with w := (A.bdrv_getlength s.top st.w).2, len := (A.bdrv_getlength s.top st.w).1,
                 n := 0, bytes_written := 0 }.log
        (Event.getlength s.top (A.bdrv_getlength s.top st.w).1))) := by
    unfold commit_copy
    simp only [RunState.log, h, if_true]
  refine ⟨_, by unfold commit_run; rw [hc], rfl⟩

/-! ## Runs past the end of Top -/

/-- A pass that goes on to the next run leaves `n` at 0 (the retry paths) or
at the run length of an allocation query that did not fail, whose event is in
the trace. -/
theorem commit_body_next_run {W : Type} (A : BlockLayer W) (s : CommitBlockJob)
    (sec d : Int) (st st1 : RunState W)
    (hb : commit_body A s sec d st = BodyResult.next st1) :
    st1.n = 0 ∨
    (st1.n = (bodyQuery A s sec d st).1.2 ∧ 0 ≤ (bodyQuery A s sec d st).1.1 ∧
      Event.is_allocated_above sec (bodyQuery A s sec d st).1.1
        (bodyQuery A s sec d st).1.2 ∈ st1.trace) := by
  have hmem : Event.is_allocated_above sec (bodyQuery A s sec d st).1.1
      (bodyQuery A s sec d st).1.2 ∈ bodyHead A s sec d st := by
    simp [bodyHead]
  have hspec := commit_body_spec A s sec d st
  rw [hb] at hspec
  cases hspec with
  | query_retry _ hc hq hs hp => exact Or.inl hp.n_eq
  | skip _ hc hq hq0 hp =>
    refine Or.inr ⟨hp.n_eq, hq0, ?_⟩
    rw [hp.trace_eq]
    exact List.mem_append_right _ hmem
  | copy_retry _ hc hq hd hr hs hp => exact Or.inl hp.n_eq
  | copy_done _ hc hq hd hr hp =>
    refine Or.inr ⟨hp.n_eq, by omega, ?_⟩
    rw [hp.trace_eq]
    exact List.mem_append_right _ (List.mem_append_left _ hmem)

/-- A pass that goes on with `sector_num + n` at `end` or beyond is the last
pass of the loop. -/
theorem commit_loop_last_pass {W : Type} (A : BlockLayer W) (s : CommitBlockJob) (end_ : Int)
    (fuel : Nat) (sec d : Int) (st st1 : RunState W)
    (hb : commit_body A s sec d st = BodyResult.next st1) (h : ¬ sec + st1.n < end_) :
    commit_loop A s end_ (fuel + 1) sec d st = some (LoopExit.finished, sec + st1.n, st1) := by
  rw [commit_loop, hb]
  simp only [h, if_false]

/-- How the loop can be left: by `break` or an error below `end` only, by
its test at `end` or beyond only; beyond `end` only after an allocation query
that did not fail and whose run went past `end`; and not beyond `end` when the
runs of the allocation queries that do not fail end inside Top. -/
theorem commit_loop_overshoot {W : Type} (A : BlockLayer W) (s : CommitBlockJob) (end_ : Int)
    (fuel : Nat) (st : RunState W) (ex : LoopExit) (sec1 : Int) (st1 : RunState W)
    (h0 : 0 < end_)
    (hl : commit_loop A s end_ fuel 0 0 st = some (ex, sec1, st1)) :
    (ex ≠ LoopExit.finished → sec1 < end_) ∧
    (ex = LoopExit.finished → end_ ≤ sec1) ∧
    (end_ < sec1 → ∃ x ret n, Event.is_allocated_above x ret n ∈ st1.trace ∧
      0 ≤ ret ∧ x < end_ ∧ x + n = sec1) ∧
    ((∀ x w, x < end_ →
        0 ≤ (A.bdrv_co_is_allocated_above s.top s.base x
          (COMMIT_BUFFER_SIZE / BDRV_SECTOR_SIZE) w).1.1 →
        (A.bdrv_co_is_allocated_above s.top s.base x
          (COMMIT_BUFFER_SIZE / BDRV_SECTOR_SIZE) w).1.2 ≤ end_ - x) → sec1 ≤ end_) := by
  refine commit_loop_rule A s end_
    (fun sec _ _ => sec < end_)
    (fun ex2 sec2 st2 =>
      (ex2 ≠ LoopExit.finished → sec2 < end_) ∧
      (ex2 = LoopExit.finished → end_ ≤ sec2) ∧
      (end_ < sec2 → ∃ x ret n, Event.is_allocated_above x ret n ∈ st2.trace ∧
        0 ≤ ret ∧ x < end_ ∧ x + n = sec2) ∧
      ((∀ x w, x < end_ →
          0 ≤ (A.bdrv_co_is_allocated_above s.top s.base x
            (COMMIT_BUFFER_SIZE / BDRV_SECTOR_SIZE) w).1.1 →
          (A.bdrv_co_is_allocated_above s.top s.base x
            (COMMIT_BUFFER_SIZE / BDRV_SECTOR_SIZE) w).1.2 ≤ end_ - x) → sec2 ≤ end_))
    ?_ ?_ ?_ ?_ fuel 0 0 st h0 ex sec1 st1 hl
  · intro sec d st2 d1 st3 hP _
    exact hP
  · intro sec d st2 st3 hP _
    exact ⟨fun _ => hP, fun h => (by cases h), fun h => (by omega), fun _ => (by omega)⟩
  · intro sec d st2 ret st3 hP _
    exact ⟨fun _ => hP, fun h => (by cases h), fun h => (by omega), fun _ => (by omega)⟩
  · intro sec d st2 st3 hP hb
    refine ⟨fun hlt => hlt, fun hge => ⟨fun h => absurd rfl h, fun _ => (by omega), ?_, ?_⟩⟩
    · intro hov
      rcases commit_body_next_run A s sec d st2 st3 hb with hn | ⟨hn, hret, hmem⟩
      · omega
      · exact ⟨sec, _, _, hmem, hret, hP, by rw [hn]⟩
    · intro hfit
      rcases commit_body_next_run A s sec d st2 st3 hb with hn | ⟨hn, hret, _⟩
      · omega
      · have := hfit sec (bodySleep A d st2) hP hret
        simp only [bodyQuery] at hn
        omega

/-- Counterexample to C21 as stated: Top has six sectors and the first
allocation query returns a run of eight (`0 + 8 > 6`), reported allocated;
the read of that run fails with `-EIO` under the policy REPORT.  The loop is
left and `bdrv_drop_intermediate` is not called, but the job completes with
`-EIO`, not with 0. -/
theorem overshoot_with_read_error_reports_error :
    commit_run overshootLayer (simJob BLOCK_ERR_REPORT 0) 10 overshootFaultState =
      some overshootFaultRun ∧
    overshootFaultRun.st.trace =
      [Event.getlength 1 3072, Event.getlength 0 3072,
       Event.sleep 0, Event.is_cancelled false, Event.is_allocated_above 0 1 8,
       Event.read 1 0 8 (-5), Event.complete (-5)] ∧
    overshootFaultRun.terminal = Terminal.completed (-5) :=
  ⟨rfl, by decide, by decide⟩

/-- C21, amended (overshoot of the end): in every run of `commit_run` (with
an overlay of Top in the chain), a pass of the loop that reaches the loop
increment with `sector_num + n > end` (the allocation query did not fail, the
limiter asked for no delay and, for a run reported allocated, the copy did
not fail) is the last pass: the loop is left by its test with
`sector_num + n`.  A run whose loop is left with `sector_num > end` was left
by the loop test after an allocation query that did not fail and whose run
went past `end`; `bdrv_drop_intermediate` is never called in it and the job
completes with status 0.  Conversely, if every run that an allocation query
reports without failing has `n <= end - sector_num`, then `sector_num` never
exceeds `end`, and the loop is left through its test (not cancelled, no
error) with `sector_num == end` only. -/
theorem overshoot_ends_run_without_drop {W : Type} (A : BlockLayer W) (s : CommitBlockJob)
    (fuel : Nat) (st : RunState W) (res : RunResult W)
    (hov : ∀ w, A.bdrv_find_overlay s.active s.top w ≠ none)
    (h : commit_run A s fuel st = some res) :
    (∀ end_ fuel1 sec0 d st0 st2, commit_body A s sec0 d st0 = BodyResult.next st2 →
      end_ < sec0 + st2.n →
      commit_loop A s end_ (fuel1 + 1) sec0 d st0 =
        some (LoopExit.finished, sec0 + st2.n, st2)) ∧
    ∀ ov end_ ex sec st1,
      commit_copy A s fuel st = some (CopyResult.loop_left ov end_ ex sec st1) →
      (end_ < sec →
        ex = LoopExit.finished ∧ res.terminal = Terminal.completed 0 ∧
        (∃ added, res.st.trace = st.trace ++ added ∧ ∀ x ∈ added, x.isDrop = false) ∧
        ∃ x ret n, Event.is_allocated_above x ret n ∈ res.st.trace ∧
          0 ≤ ret ∧ x < end_ ∧ x + n = sec) ∧
      ((∀ x w, x < end_ →
          0 ≤ (A.bdrv_co_is_allocated_above s.top s.base x
            (COMMIT_BUFFER_SIZE / BDRV_SECTOR_SIZE) w).1.1 →
          (A.bdrv_co_is_allocated_above s.top s.base x
            (COMMIT_BUFFER_SIZE / BDRV_SECTOR_SIZE) w).1.2 ≤ end_ - x) →
        sec ≤ end_ ∧ (ex = LoopExit.finished → sec = end_)) := by
  refine ⟨?_, ?_⟩
  · intro end_ fuel1 sec0 d st0 st2 hb hgt
    exact commit_loop_last_pass A s end_ fuel1 sec0 d st0 st2 hb (by omega)
  intro ov end_ ex sec st1 hc
  rcases commit_run_cases A s fuel st res h with ⟨_, _, hc2, _⟩ | ⟨_, _, _, _, _, hc2, hres⟩
  · rw [hc] at hc2
    cases hc2
  rw [hc] at hc2
  cases hc2
  obtain ⟨st0, _, _, _, _, hlen0, _, hend, hoveq, _, hloop⟩ :=
    commit_copy_loop_left A s fuel st ov end_ ex sec st1 hc
  have hend0 : 0 ≤ end_ := by
    rw [hend]
    unfold BDRV_SECTOR_SIZE
    omega
  rcases hloop with ⟨h0, hl⟩ | ⟨hn, hex, hs0, _⟩
  · obtain ⟨h1, h2, h3, h4⟩ := commit_loop_overshoot A s end_ fuel st0 ex sec st1 h0 hl
    refine ⟨?_, ?_⟩
    · intro hgt
      have hfin : ex = LoopExit.finished := by
        by_contra hne
        have := h1 hne
        omega
      have hex : ∀ ret, ex ≠ LoopExit.error ret := by
        intro ret hr
        rw [hfin] at hr
        cases hr
      obtain ⟨td, ht1, ht2⟩ := commit_finish_no_drop A s ov end_ ex sec st1 hex
        (Or.inr (by omega))
      rw [← hres] at ht1 ht2
      rw [hoveq] at ht2
      have hterm := (teardown_some hov ht2).1
      have htd : ∀ x ∈ td, x.isDrop = false := fun x hx =>
        (teardown_not_other s.on_error (teardown_isTeardown ht2 x hx)).1
      refine ⟨hfin, hterm, ?_, ?_⟩
      · rcases commit_copy_events A s fuel st _ hc with ⟨_, _, he, _⟩ |
          ⟨_, _, _, _, _, he, _, q, t, hq1, hq2, hq3⟩
        · cases he
        cases he
        rw [hfin] at hq3
        have ht : t = [] := hq3
        subst ht
        refine ⟨q ++ Event.is_cancelled (A.block_job_is_cancelled st1.w) :: td,
          by rw [ht1, hq1]; simp, ?_⟩
        intro x hx
        rcases List.mem_append.mp hx with hx | hx
        · exact quiet_not_drop (hq2 x hx)
        rcases List.mem_cons.mp hx with rfl | hx
        · rfl
        · exact htd x hx
      · obtain ⟨x, ret, n, hmem, hret, hx, hsum⟩ := h3 hgt
        exact ⟨x, ret, n, by rw [ht1]; exact List.mem_append_left _ hmem, hret, hx, hsum⟩
    · intro hfit
      have hle := h4 hfit
      exact ⟨hle, fun hfin => by have := h2 hfin; omega⟩
  · refine ⟨fun hgt => by omega, fun _ => ⟨by omega, fun _ => by omega⟩⟩

/-- Witness of C21, amended: the first allocation query returns a run of
eight sectors on a Top of six and the copy succeeds; the loop is left with
`sector_num = 8`, `bdrv_drop_intermediate` is not called and the job
completes with status 0. -/
theorem overshoot_ends_run_without_drop_witness :
    commit_run overshootLayer (simJob BLOCK_ERR_REPORT 0) 10 overshootState =
      some overshootRun ∧
    overshootRun.st.trace =
      [Event.getlength 1 3072, Event.getlength 0 3072,
       Event.sleep 0, Event.is_cancelled false, Event.is_allocated_above 0 1 8,
       Event.read 1 0 8 0, Event.write 0 0 8 0,
       Event.is_cancelled false, Event.complete 0] ∧
    overshootRun.terminal = Terminal.completed 0 ∧
    ((∀ end_ fuel1 sec0 d st0 st2,
      commit_body overshootLayer (simJob BLOCK_ERR_REPORT 0) sec0 d st0 = BodyResult.next st2 →
      end_ < sec0 + st2.n →
      commit_loop overshootLayer (simJob BLOCK_ERR_REPORT 0) end_ (fuel1 + 1) sec0 d st0 =
        some (LoopExit.finished, sec0 + st2.n, st2)) ∧
    ∀ ov end_ ex sec st1,
      commit_copy overshootLayer (simJob BLOCK_ERR_REPORT 0) 10 overshootState =
        some (CopyResult.loop_left ov end_ ex sec st1) →
      (end_ < sec →
        ex = LoopExit.finished ∧ overshootRun.terminal = Terminal.completed 0 ∧
        (∃ added, overshootRun.st.trace = overshootState.trace ++ added ∧
          ∀ x ∈ added, x.isDrop = false) ∧
        ∃ x ret n, Event.is_allocated_above x ret n ∈ overshootRun.st.trace ∧
          0 ≤ ret ∧ x < end_ ∧ x + n = sec) ∧
      ((∀ x w, x < end_ →
          0 ≤ (overshootLayer.bdrv_co_is_allocated_above (simJob BLOCK_ERR_REPORT 0).top
            (simJob BLOCK_ERR_REPORT 0).base x (COMMIT_BUFFER_SIZE / BDRV_SECTOR_SIZE) w).1.1 →
          (overshootLayer.bdrv_co_is_allocated_above (simJob BLOCK_ERR_REPORT 0).top
            (simJob BLOCK_ERR_REPORT 0).base x (COMMIT_BUFFER_SIZE / BDRV_SECTOR_SIZE) w).1.2 ≤
            end_ - x) →
        sec ≤ end_ ∧ (ex = LoopExit.finished → sec = end_))) :=
  ⟨rfl, by decide, by decide,
   overshoot_ends_run_without_drop overshootLayer (simJob BLOCK_ERR_REPORT 0) 10
    overshootState overshootRun
    (fun w => by simp [overshootLayer, simLayer, simConfig, simJob, chainOverlay]) rfl⟩

/-! ## `raw_reopen_prepare` -/

/-- When `raw_reopen_prepare` returns 0 it holds a new descriptor, for the
return values that the duplication of a descriptor and `qemu_open` can have
(`-1` or a descriptor). -/
theorem raw_reopen_prepare_zero (k : FlagBits) (r : ReopenBits) (linux_aio : Bool)
    (s : BDRVRawState) (bdrv_flags : Nat) (calls : ReopenCalls) (res : ReopenResult)
    (hdup : -1 ≤ calls.dup) (hopen : -1 ≤ calls.qemu_open)
    (h : raw_reopen_prepare k r linux_aio s bdrv_flags calls = some res)
    (hret : res.ret = 0) : 0 ≤ res.raw_s.fd := by
  have hf : ∀ open_flags : Nat,
      (raw_reopen_fcntl r s open_flags calls).2.1 ≠ -1 →
      (raw_reopen_fcntl r s open_flags calls).1 = 0 →
      0 ≤ (raw_reopen_fcntl r s open_flags calls).2.1 := by
    intro open_flags
    unfold raw_reopen_fcntl
    simp only
    split_ifs <;> simp only <;> omega
  unfold raw_reopen_prepare at h
  simp only at h
  by_cases c1 : linux_aio = true ∧
      (raw_set_aio k r calls.laio_init s.aio_ctx s.use_aio bdrv_flags).1 ≠ 0
  · rw [if_pos c1] at h
    simp only [Option.some.injEq] at h
    subst h
    simp at hret
  rw [if_neg c1] at h
  by_cases c2 : (raw_reopen_fcntl r s (raw_parse_flags k bdrv_flags
      (if s.type = FTYPE_FD ∨ s.type = FTYPE_CD then 0 ||| r.O_NONBLOCK else 0)) calls).2.1 = -1
  · rw [if_pos c2] at h
    by_cases c3 : raw_parse_flags k bdrv_flags
        (if s.type = FTYPE_FD ∨ s.type = FTYPE_CD then 0 ||| r.O_NONBLOCK else 0) &&&
        r.O_CREAT ≠ 0
    · rw [if_pos c3] at h
      cases h
    · rw [if_neg c3] at h
      simp only [Option.some.injEq] at h
      subst h
      simp only at hret ⊢
      by_cases c4 : calls.qemu_open = -1
      · rw [if_pos c4] at hret
        omega
      · omega
  · rw [if_neg c2] at h
    simp only [Option.some.injEq] at h
    subst h
    exact hf _ c2 hret

/-- The stale return value of `raw_reopen_prepare`: when the descriptor is
duplicated, `fcntl_setfl` fails and `qemu_open` gives a descriptor, the return
value is that of `fcntl_setfl`. -/
theorem raw_reopen_prepare_stale (k : FlagBits) (r : ReopenBits) (s : BDRVRawState)
    (bdrv_flags : Nat) (calls : ReopenCalls)
    (hsame : clearBits (raw_parse_flags k bdrv_flags
        (if s.type = FTYPE_FD ∨ s.type = FTYPE_CD then 0 ||| r.O_NONBLOCK else 0))
        (r.O_APPEND ||| r.O_ASYNC ||| r.O_NONBLOCK ||| r.O_NOATIME) =
      clearBits s.open_flags (r.O_APPEND ||| r.O_ASYNC ||| r.O_NONBLOCK ||| r.O_NOATIME))
    (hcreat : raw_parse_flags k bdrv_flags
        (if s.type = FTYPE_FD ∨ s.type = FTYPE_CD then 0 ||| r.O_NONBLOCK else 0) &&&
      r.O_CREAT = 0)
    (hdup : 0 ≤ calls.dup) (hset : calls.fcntl_setfl ≠ 0) (hopen : 0 ≤ calls.qemu_open) :
    ∃ res, raw_reopen_prepare k r false s bdrv_flags calls = some res ∧
      res.ret = calls.fcntl_setfl ∧ res.raw_s.fd = calls.qemu_open ∧
      res.closed = [calls.dup] := by
  have hne : ¬ calls.qemu_open = -1 := by omega
  have hf : raw_reopen_fcntl r s (raw_parse_flags k bdrv_flags
      (if s.type = FTYPE_FD ∨ s.type = FTYPE_CD then 0 ||| r.O_NONBLOCK else 0)) calls =
      (calls.fcntl_setfl, -1, [calls.dup]) := by
    unfold raw_reopen_fcntl
    simp only
    rw [if_pos hsame, if_pos hdup, if_pos hset]
  unfold raw_reopen_prepare
  simp only
  rw [if_neg (by simp), hf]
  simp only
  rw [if_pos trivial, if_neg (not_not.mpr hcreat), if_neg hne]
  exact ⟨_, rfl, rfl, rfl, rfl⟩

/-- C22 at its failing input: a regular file open with `O_RDWR | O_DSYNC` is
reopened with the same flags, so the descriptor is duplicated (7);
`fcntl_setfl` fails with `-EINVAL`, the duplicate is closed and the fallback
`qemu_open` gives descriptor 8.  The function returns the stale `-EINVAL`
while `raw_s->fd` is 8. -/
theorem reopen_fails_after_good_fallback :
    raw_parse_flags linuxFlagBits 2 0 = reopenImage.open_flags ∧
    raw_reopen_prepare linuxFlagBits linuxReopenBits false reopenImage 2 reopenCalls =
      some { ret := -22, raw_s := { fd := 8, open_flags := 4098, use_aio := 0 },
             aio_ctx := 0, closed := [7] } :=
  ⟨by decide, by decide⟩

end Commit
